import Mathlib

/-!
# Embedded Data Store: object engine of `edatastore.cpp`

A shallow embedding of the object serializer and the object engine
(`EDatastore`, `Serialize`) together with the properties established about
them.  The paged file, the node view, the keys and the B-tree are declared in
headers that are not part of `edatastore.cpp`; they are modelled from the
written specification and marked as such.
-/

namespace EDS

/-! ## Paged file and nodes -/

/-- Modelled from the spec: `sizeof(ObjectHeader)`, the header being
`{ class_id : u16, nd_nbr : u16 }`. -/
def hdrSize : Nat := 4

/-- Modelled from the spec: the `ObjectHeader` record that starts every data
node of an object (`class_id : u16`, `nd_nbr : u16`). -/
structure ObjectHeader where
  classid : Nat
  ndnbr : Nat
deriving DecidableEq, Repr

/-- Modelled from the spec: the host-endian (little-endian here) byte image of
an `ObjectHeader`, as `WriteData(&objhdr, sizeof(ObjectHeader))` stores it. -/
def ObjectHeader.toBytes (h : ObjectHeader) : List Nat :=
  [h.classid % 256, h.classid / 256 % 256, h.ndnbr % 256, h.ndnbr / 256 % 256]

/-- Modelled from the spec: decoding of the byte image of an `ObjectHeader`,
as `ReadData(&objhdr, sizeof(ObjectHeader))` loads it. -/
def ObjectHeader.ofBytes (bs : List Nat) : ObjectHeader :=
  { classid := bs.getD 0 0 + 256 * bs.getD 1 0,
    ndnbr := bs.getD 2 0 + 256 * bs.getD 3 0 }

/-- Modelled from the spec: one node of a paged file: next-node pointer
(0 = none), deleted flag and the payload bytes, addressed by their offset. -/
structure NodeRec where
  next : Nat
  deleted : Bool
  data : Nat → Nat

/-- Modelled from the spec: a freshly allocated node (cleared payload,
`next_node = 0`). -/
def NodeRec.blank : NodeRec := { next := 0, deleted := false, data := fun _ => 0 }

/-- Modelled from the spec: the paged file: its nodes by node number, the
highest node number ever allocated, the free list of deleted nodes, and the
current file position given as a node number and an offset into its payload. -/
structure PagedFile where
  nodes : Nat → NodeRec
  highest : Nat
  free : List Nat
  posNode : Nat
  posOff : Nat

/-- Replace the record of node `n`. -/
def setNode (nodes : Nat → NodeRec) (n : Nat) (r : NodeRec) : Nat → NodeRec :=
  fun m => if m = n then r else nodes m

/-- Overwrite the bytes of `d` from offset `off` on with `buf`. -/
def writeBytes (d : Nat → Nat) (off : Nat) (buf : List Nat) : Nat → Nat :=
  fun i => if off ≤ i ∧ i < off + buf.length then buf.getD (i - off) 0 else d i

/-- Modelled from the spec: `seek`, to offset `off` of the payload of node `n`. -/
def PagedFile.Seek (f : PagedFile) (n off : Nat) : PagedFile :=
  { f with posNode := n, posOff := off }

/-- Modelled from the spec: `Node(&file, nd)`; "constructing this node seeks to
the first data byte". -/
def PagedFile.openNode (f : PagedFile) (nd : Nat) : PagedFile := f.Seek nd 0

/-- Modelled from the spec: `WriteData(buf, len)`: stores the bytes at the
current file position and advances the position. -/
def PagedFile.WriteData (f : PagedFile) (buf : List Nat) : PagedFile :=
  { f with
    nodes := setNode f.nodes f.posNode
      { f.nodes f.posNode with data := writeBytes (f.nodes f.posNode).data f.posOff buf },
    posOff := f.posOff + buf.length }

/-- Modelled from the spec: `ReadData(buf, len)`: loads `len` bytes from the
current file position and advances the position. -/
def PagedFile.ReadData (f : PagedFile) (len : Nat) : List Nat × PagedFile :=
  ((List.range len).map (fun i => (f.nodes f.posNode).data (f.posOff + i)),
   { f with posOff := f.posOff + len })

/-- Modelled from the spec: `new_node()`: "returns the head of the free list,
removing it; if free list empty, appends a fresh node and increments
highest-node"; the node returned has cleared payload and `next_node = 0`. -/
def PagedFile.NewNode (f : PagedFile) : Nat × PagedFile :=
  match f.free with
  | n :: rest => (n, { f with free := rest, nodes := setNode f.nodes n NodeRec.blank })
  | [] => (f.highest + 1,
      { f with highest := f.highest + 1,
               nodes := setNode f.nodes (f.highest + 1) NodeRec.blank })

/-- Modelled from the spec: `Node::NextNode()`. -/
def PagedFile.NextNode (f : PagedFile) (nd : Nat) : Nat := (f.nodes nd).next

/-- Modelled from the spec: `Node::SetNextNode(nx)`, written back when the node
object is released. -/
def PagedFile.SetNextNode (f : PagedFile) (nd nx : Nat) : PagedFile :=
  { f with nodes := setNode f.nodes nd { f.nodes nd with next := nx } }

/-- Modelled from the spec: `mark_deleted(n)`: "sets the deleted bit and pushes
onto the free list". -/
def PagedFile.MarkNodeDeleted (f : PagedFile) (nd : Nat) : PagedFile :=
  { f with nodes := setNode f.nodes nd { f.nodes nd with deleted := true },
           free := nd :: f.free }

/-! ## Keys, B-trees and objects -/

/-- Modelled from the spec: a key: index number, key bytes, the object address
it points at, the related class (by class name) and the flag telling an
object-address reference from a value-copied one. -/
structure EdsKey where
  indexno : Nat
  bytes : List Nat
  fileaddr : Nat
  relatedclass : Option (List Nat)
  isObjAddr : Bool
deriving DecidableEq, Repr

/-- The in-memory `Serialize` object.  `members` stands for the data members of
the derived class: the buffers its `Write()` hands to `EdsWriteObject`, in
order, and that its `Read()` fills through `EdsReadObject`. `node = none` is the
null `Node` pointer. -/
structure Serialize where
  classname : List Nat
  objhdr : ObjectHeader
  objectaddress : Nat
  node : Option Nat
  offset : Nat
  fileposNode : Nat
  fileposOff : Nat
  changed : Bool
  deleted : Bool
  newobject : Bool
  loaded : Bool
  saved : Bool
  instances : Nat
  keys : List EdsKey
  orgkeys : List EdsKey
  members : List (List Nat)

/-- `Serialize::BuildObject`: the state the common constructor code leaves, for
an object of the class named `classname` with the keys `keys` and the data
members `members`; the `ObjectHeader` starts as zeros. -/
def BuildObject (classname : List Nat) (keys : List EdsKey) (members : List (List Nat)) :
    Serialize :=
  { classname := classname, objhdr := { classid := 0, ndnbr := 0 }, objectaddress := 0,
    node := none, offset := 0, fileposNode := 0, fileposOff := 0,
    changed := false, deleted := false, newobject := false, loaded := false, saved := false,
    instances := 0, keys := keys, orgkeys := [], members := members }

/-! ## Object serializer -/

/-- `Serialize::WriteObjectHeader`. -/
def WriteObjectHeader (f : PagedFile) (o : Serialize) : PagedFile × Serialize :=
  (f.WriteData o.objhdr.toBytes, { o with offset := hdrSize })

/-- `Serialize::ReadObjectHeader`. -/
def ReadObjectHeader (f : PagedFile) (o : Serialize) : PagedFile × Serialize :=
  ((f.ReadData hdrSize).2,
   { o with objhdr := ObjectHeader.ofBytes (f.ReadData hdrSize).1, offset := hdrSize })

/-- The tail of the `if (offset == nodedatalength)` block of
`Serialize::EdsWriteObject`, once the next node `nx` is chosen:
`node->SetNextNode(nx); delete node; node = new Node(nx); WriteObjectHeader();
objhdr.ndnbr++`. -/
def linkNext (f : PagedFile) (o : Serialize) (nd nx : Nat) : PagedFile × Serialize :=
  let f1 := (f.SetNextNode nd nx).openNode nx
  let q := WriteObjectHeader f1 { o with node := some nx }
  (q.1, { q.2 with objhdr := { q.2.objhdr with ndnbr := (q.2.objhdr.ndnbr + 1) % 65536 } })

/-- The body of the `if (offset == nodedatalength)` block of
`Serialize::EdsWriteObject`, `nd` being the current node: take the linked next
node or allocate one, then link it, move to it, write its header and count the
node. -/
def writeAdvance (f : PagedFile) (o : Serialize) (nd : Nat) : PagedFile × Serialize :=
  let nx0 := f.NextNode nd
  let p := if nx0 = 0 then f.NewNode else (nx0, f)
  linkNext p.2 o nd p.1

/-- The `while` loop of `Serialize::EdsWriteObject`; `none` when the fuel runs
out. -/
def writeLoop (ndl : Nat) : Nat → PagedFile → Serialize → List Nat →
    Option (PagedFile × Serialize)
  | 0, _, _, _ => none
  | fuel + 1, f, o, buf =>
    match o.node with
    | none => some (f, o)
    | some nd =>
      if buf.length = 0 then some (f, o)
      else
        let p := if o.offset = ndl then writeAdvance f o nd else (f, o)
        let len := min buf.length (ndl - p.2.offset)
        writeLoop ndl fuel (p.1.WriteData (buf.take len))
          { p.2 with offset := p.2.offset + len } (buf.drop len)

/-- `Serialize::EdsWriteObject(buf, length)` with `length = buf.length`.  Every
iteration that returns to the loop head has consumed at least one byte, so
`buf.length + 1` iterations are all the loop can make when it terminates. -/
def EdsWriteObject (ndl : Nat) (f : PagedFile) (o : Serialize) (buf : List Nat) :
    Option (PagedFile × Serialize) :=
  writeLoop ndl (buf.length + 1) f o buf

/-- The body of the `if (offset == nodedatalength)` block of
`Serialize::EdsReadObject`: follow the next pointer (to the null node when it
is 0) and read the object header at the file position. -/
def readAdvance (f : PagedFile) (o : Serialize) (nd : Nat) : PagedFile × Serialize :=
  let nx := f.NextNode nd
  if nx = 0 then ReadObjectHeader f { o with node := none }
  else ReadObjectHeader (f.openNode nx) { o with node := some nx }

/-- The `while` loop of `Serialize::EdsReadObject`, returning the bytes stored
into the buffer; `none` when the fuel runs out.  When the chain ends (the node
pointer became null) the loop condition fails at once, which is the
`some ([], _, _)` of the inner `none` case. -/
def readLoop (ndl : Nat) : Nat → PagedFile → Serialize → Nat →
    Option (List Nat × PagedFile × Serialize)
  | 0, _, _, _ => none
  | fuel + 1, f, o, length =>
    match o.node with
    | none => some ([], f, o)
    | some nd =>
      if length = 0 then some ([], f, o)
      else
        let p := if o.offset = ndl then readAdvance f o nd else (f, o)
        match p.2.node with
        | none => some ([], p.1, p.2)
        | some _ =>
          let len := min length (ndl - p.2.offset)
          let r := p.1.ReadData len
          match readLoop ndl fuel r.2 { p.2 with offset := p.2.offset + len } (length - len) with
          | none => none
          | some (bs, f2, o2) => some (r.1 ++ bs, f2, o2)

/-- `Serialize::EdsReadObject(buf, length)`: the bytes it stores into `buf`. -/
def EdsReadObject (ndl : Nat) (f : PagedFile) (o : Serialize) (length : Nat) :
    Option (List Nat × PagedFile × Serialize) :=
  readLoop ndl (length + 1) f o length

/-- `Serialize::PositionNode`; the boolean tells whether `BadObjAddr` was
thrown (the assignments made before the `throw` stay). -/
def PositionNode (f : PagedFile) (o : Serialize) : PagedFile × Serialize × Bool :=
  let o1 := { o with fileposNode := f.posNode, fileposOff := f.posOff }
  if o.objectaddress = 0 then (f, o1, false)
  else
    let r := (f.openNode o.objectaddress).ReadData hdrSize
    let oh := ObjectHeader.ofBytes r.1
    (r.2, { o1 with node := some o.objectaddress, offset := hdrSize },
      decide (oh.ndnbr ≠ 0 ∨ oh.classid ≠ o.objhdr.classid))

/-- The derived class's `Write()`: one `EdsWriteObject` per data member, in
order. -/
def writeAll (ndl : Nat) (f : PagedFile) (o : Serialize) :
    List (List Nat) → Option (PagedFile × Serialize)
  | [] => some (f, o)
  | b :: bs =>
    match EdsWriteObject ndl f o b with
    | none => none
    | some p => writeAll ndl p.1 p.2 bs

/-- The derived class's `Read()`: one `EdsReadObject` per data member, in
order, with the given lengths; returns the buffers read. -/
def readAll (ndl : Nat) (f : PagedFile) (o : Serialize) :
    List Nat → Option (List (List Nat) × PagedFile × Serialize)
  | [] => some ([], f, o)
  | l :: ls =>
    match EdsReadObject ndl f o l with
    | none => none
    | some (b, f1, o1) =>
      match readAll ndl f1 o1 ls with
      | none => none
      | some (bs, f2, o2) => some (b :: bs, f2, o2)

/-! ## Keys and B-trees -/

/-- What stops a run without a result: a null pointer is dereferenced,
behaviour is otherwise undefined, or the fuel of a loop ran out. -/
inductive Fault where
  | nullDeref
  | undefined
  | outOfFuel
deriving DecidableEq, Repr

/-- The exceptions the engine throws: `BadObjAddr`, and the already
instantiated object that `TestDuplicateObject` throws. -/
inductive Exn where
  | BadObjAddr
  | Duplicate (obj : Nat)
deriving DecidableEq, Repr

/-- Modelled from the spec: "A Key is null-valued if all key bytes are zero". -/
def EdsKey.isNullValue (k : EdsKey) : Bool := k.bytes.all (fun b => b == 0)

/-- Little-endian value of a byte string. -/
def decodeLE : List Nat → Nat
  | [] => 0
  | b :: bs => b + 256 * decodeLE bs

/-- Modelled from the spec: `EdsKey::ObjectAddress()`: for a key that is an
object-address reference, the address its bytes encode; the null pointer
otherwise. -/
def EdsKey.ObjectAddress (k : EdsKey) : Option Nat :=
  if k.isObjAddr then some (decodeLE k.bytes) else none

/-- Modelled from the spec: `EdsKey::CopyKeyData`: takes the key bytes of
`src`. -/
def EdsKey.CopyKeyData (k src : EdsKey) : EdsKey := { k with bytes := src.bytes }

/-- Modelled from the spec: a B-tree, as the set of `(key_bytes, file_addr)`
pairs it holds, with the class it indexes, its index number and its null key
(the key prototype carrying `related_class` and the object-address flag). -/
structure EdsBtree where
  classname : List Nat
  indexno : Nat
  nullkey : EdsKey
  entries : List (List Nat × Nat)
deriving DecidableEq, Repr

/-- Modelled from the spec: `find(key)`: "returns true iff an equal key
exists", keys being equal (`operator==`) when their key bytes are. -/
def EdsBtree.Find (bt : EdsBtree) (key : EdsKey) : Bool :=
  bt.entries.any (fun e => e.1 == key.bytes)

/-- Modelled from the spec: `insert(key)`: "Duplicate `(key_bytes, file_addr)`
pairs are rejected". -/
def EdsBtree.Insert (bt : EdsBtree) (key : EdsKey) : EdsBtree :=
  if (key.bytes, key.fileaddr) ∈ bt.entries then bt
  else { bt with entries := bt.entries ++ [(key.bytes, key.fileaddr)] }

/-- Modelled from the spec: `delete(key)`: removes the pair
`(key_bytes, file_addr)`. -/
def EdsBtree.Delete (bt : EdsBtree) (key : EdsKey) : EdsBtree :=
  { bt with entries := bt.entries.filter (fun e => e ≠ (key.bytes, key.fileaddr)) }

/-- Modelled from the spec: `MakeKeyBuffer()`: a blank key of the index's key
type. -/
def EdsBtree.MakeKeyBuffer (bt : EdsBtree) : EdsKey :=
  { bt.nullkey with bytes := bt.nullkey.bytes.map (fun _ => 0), fileaddr := 0 }

/-- Modelled from the spec: a class record of the registry: the class name (a C
string, given by its bytes), the class id and the address of the tree headers
(node and offset in the index file). -/
structure Class where
  classname : List Nat
  classid : Nat
  headerNode : Nat := 0
  headerOff : Nat := 0
deriving DecidableEq, Repr

/-- The engine's per-datastore state: the data file, the B-trees, the classes,
the list of instantiated objects (by identity) with the objects themselves, and
`rebuildnode`. -/
structure EDatastore where
  datafile : PagedFile
  btrees : List EdsBtree
  classes : List Class
  objects : List Nat
  heap : Nat → Serialize
  rebuildnode : Nat

/-- Replace the object with identity `this`. -/
def EDatastore.setObj (ds : EDatastore) (this : Nat) (o : Serialize) : EDatastore :=
  { ds with heap := fun i => if i = this then o else ds.heap i }

/-- `EDatastore::GetObjectHeader`: seek to the node and read its header. -/
def GetObjectHeader (f : PagedFile) (nd : Nat) : ObjectHeader × PagedFile :=
  (ObjectHeader.ofBytes ((f.openNode nd).ReadData hdrSize).1,
   ((f.openNode nd).ReadData hdrSize).2)

/-- The search of `Serialize::FindIndex` through the collected B-trees: the
position of the first B-tree of the class `classname` with index number
`indexno`. -/
def findBtree (btrees : List EdsBtree) (classname : List Nat) (indexno : Nat) : Option Nat :=
  btrees.findIdx? (fun bt => bt.classname == classname && bt.indexno == indexno)

/-- `Serialize::FindIndex(key)`: a null `key` stands for the first key of the
object. -/
def FindIndex (ds : EDatastore) (o : Serialize) (key : Option EdsKey) : Option Nat :=
  match (match key with | some k => some k | none => o.keys.head?) with
  | none => none
  | some k => findBtree ds.btrees o.classname k.indexno

/-! ## Strings -/

/-- `strlen(str.c_str())`: the number of bytes before the first null byte. -/
def strlen (str : List Nat) : Nat := (str.takeWhile (fun b => b ≠ 0)).length

/-- The object representation of the `int` holding `n` (32 bits, host-endian:
little-endian here). -/
def int32Bytes (n : Nat) : List Nat :=
  [n % 256, n / 256 % 256, n / 65536 % 256, n / 16777216 % 256]

/-- `Serialize::WriteStrObject(str)`: `str` is the content of the
`std::string`.  The length is narrowed to `int`; a negative `int` makes the
second `EdsWriteObject` write nothing. -/
def WriteStrObject (ndl : Nat) (f : PagedFile) (o : Serialize) (str : List Nat) :
    Option (PagedFile × Serialize) :=
  let len := strlen str % 4294967296
  match EdsWriteObject ndl f o (int32Bytes len) with
  | none => none
  | some p => EdsWriteObject ndl p.1 p.2 (if len < 2147483648 then str.take len else [])

/-- `Serialize::ReadStrObject(str)`: the string assigned to `str`.  `none`
stands for undefined behaviour: the length or the characters are not (all)
read, or the length is negative. -/
def ReadStrObject (ndl : Nat) (f : PagedFile) (o : Serialize) :
    Option (List Nat × PagedFile × Serialize) :=
  match EdsReadObject ndl f o 4 with
  | none => none
  | some (lb, f1, o1) =>
    if lb.length < 4 ∨ 2147483648 ≤ decodeLE lb then none
    else
      match EdsReadObject ndl f1 o1 (decodeLE lb) with
      | none => none
      | some (b, f2, o2) =>
        if b.length < decodeLE lb then none
        else some (b.takeWhile (fun c => c ≠ 0), f2, o2)

/-! ## Index maintenance -/

/-- Apply `g` to the element at position `j`. -/
def modifyAt {α : Type} (g : α → α) : Nat → List α → List α
  | _, [] => []
  | 0, x :: xs => g x :: xs
  | j + 1, x :: xs => x :: modifyAt g j xs

/-- The loop of `Serialize::AddIndexes` over the keys: every non-null key gets
`fileaddr = objectaddress` and is inserted in its B-tree.  Returns the keys and
the B-trees. -/
def addIndexesLoop (classname : List Nat) (addr : Nat) :
    List EdsKey → List EdsBtree → Except Fault (List EdsKey × List EdsBtree)
  | [], bts => .ok ([], bts)
  | k :: ks, bts =>
    if k.isNullValue then
      match addIndexesLoop classname addr ks bts with
      | .error e => .error e
      | .ok r => .ok (k :: r.1, r.2)
    else
      match findBtree bts classname k.indexno with
      | none => .error Fault.nullDeref
      | some j =>
        match addIndexesLoop classname addr ks
            (modifyAt (fun bt => bt.Insert { k with fileaddr := addr }) j bts) with
        | .error e => .error e
        | .ok r => .ok ({ k with fileaddr := addr } :: r.1, r.2)

/-- `Serialize::AddIndexes`. -/
def AddIndexes (bts : List EdsBtree) (o : Serialize) :
    Except Fault (List EdsBtree × Serialize) :=
  match addIndexesLoop o.classname o.objectaddress o.keys bts with
  | .error e => .error e
  | .ok r => .ok (r.2, { o with keys := r.1 })

/-- The loop of `Serialize::UpdateIndexes` over the original keys and the keys
in lock step.  Returns the original keys, the keys and the B-trees. -/
def updateIndexesLoop (classname : List Nat) (addr : Nat) :
    List EdsKey → List EdsKey → List EdsBtree →
    Except Fault (List EdsKey × List EdsKey × List EdsBtree)
  | oks, [], bts => .ok (oks, [], bts)
  | [], _ :: _, _ => .error Fault.nullDeref
  | oky :: oks, key :: ks, bts =>
    if oky.bytes = key.bytes then
      match updateIndexesLoop classname addr oks ks bts with
      | .error e => .error e
      | .ok r => .ok (oky :: r.1, key :: r.2.1, r.2.2)
    else
      let bt := findBtree bts classname oky.indexno
      let del : Except Fault (EdsKey × List EdsBtree) :=
        if oky.isNullValue then .ok (oky, bts)
        else match bt with
          | none => .error Fault.nullDeref
          | some j => .ok ({ oky with fileaddr := addr },
              modifyAt (fun b => b.Delete { oky with fileaddr := addr }) j bts)
      match del with
      | .error e => .error e
      | .ok d =>
        let ins : Except Fault (EdsKey × List EdsBtree) :=
          if key.isNullValue then .ok (key, d.2)
          else match bt with
            | none => .error Fault.nullDeref
            | some j => .ok ({ key with fileaddr := addr },
                modifyAt (fun b => b.Insert { key with fileaddr := addr }) j d.2)
        match ins with
        | .error e => .error e
        | .ok i =>
          match updateIndexesLoop classname addr oks ks i.2 with
          | .error e => .error e
          | .ok r => .ok (d.1 :: r.1, i.1 :: r.2.1, r.2.2)

/-- `Serialize::UpdateIndexes`. -/
def UpdateIndexes (bts : List EdsBtree) (o : Serialize) :
    Except Fault (List EdsBtree × Serialize) :=
  match updateIndexesLoop o.classname o.objectaddress o.orgkeys o.keys bts with
  | .error e => .error e
  | .ok r => .ok (r.2.2, { o with orgkeys := r.1, keys := r.2.1 })

/-- The loop of `Serialize::DeleteIndexes` over the original keys. -/
def deleteIndexesLoop (classname : List Nat) (addr : Nat) :
    List EdsKey → List EdsBtree → Except Fault (List EdsKey × List EdsBtree)
  | [], bts => .ok ([], bts)
  | k :: ks, bts =>
    if k.isNullValue then
      match deleteIndexesLoop classname addr ks bts with
      | .error e => .error e
      | .ok r => .ok (k :: r.1, r.2)
    else
      match findBtree bts classname k.indexno with
      | none => .error Fault.nullDeref
      | some j =>
        match deleteIndexesLoop classname addr ks
            (modifyAt (fun bt => bt.Delete { k with fileaddr := addr }) j bts) with
        | .error e => .error e
        | .ok r => .ok ({ k with fileaddr := addr } :: r.1, r.2)

/-- `Serialize::DeleteIndexes`. -/
def DeleteIndexes (bts : List EdsBtree) (o : Serialize) :
    Except Fault (List EdsBtree × Serialize) :=
  match deleteIndexesLoop o.classname o.objectaddress o.orgkeys bts with
  | .error e => .error e
  | .ok r => .ok (r.2, { o with orgkeys := r.1 })

/-! ## Relational integrity -/

/-- The inner loop of `Serialize::TestRelationships` for a value-copied key:
scan the B-trees, while `unrelated` holds, for primary indexes of the class
named `kc` and probe them with the key's bytes. -/
def scanPrimary (kc : List Nat) (key : EdsKey) : List EdsBtree → Bool → Bool
  | [], u => u
  | bt :: bts, u =>
    if u then
      if bt.indexno = 0 ∧ bt.classname = kc then
        scanPrimary kc key bts (bt.Find (bt.MakeKeyBuffer.CopyKeyData key))
      else scanPrimary kc key bts u
    else u

/-- The loop of `Serialize::TestRelationships` over the keys after the first
one, with the running value of `unrelated` and the data file. -/
def relLoop (classes : List Class) (btrees : List EdsBtree) :
    List EdsKey → Bool → PagedFile → Except Fault (Bool × PagedFile)
  | [], u, f => .ok (u, f)
  | key :: ks, u, f =>
    if key.isObjAddr then
      match key.ObjectAddress with
      | none => relLoop classes btrees ks u f
      | some oa =>
        let r := GetObjectHeader f oa
        if r.1.ndnbr = 0 then
          match key.relatedclass with
          | none => .error Fault.nullDeref
          | some cn =>
            match classes.find? (fun c => c.classname == cn) with
            | some cls =>
              if cls.classid = r.1.classid then relLoop classes btrees ks u r.2
              else relLoop classes btrees ks false r.2
            | none => relLoop classes btrees ks false r.2
        else relLoop classes btrees ks false r.2
    else
      match key.relatedclass with
      | some kc =>
        if key.isNullValue then relLoop classes btrees ks u f
        else relLoop classes btrees ks (scanPrimary kc key btrees u) f
      | none => relLoop classes btrees ks u f

/-- `Serialize::TestRelationships`: the result and the data file (whose
position `GetObjectHeader` moves). -/
def TestRelationships (ds : EDatastore) (o : Serialize) : Except Fault (Bool × PagedFile) :=
  match o.keys with
  | [] => .ok (true, ds.datafile)
  | key :: rest =>
    if o.objectaddress = 0 ∧
        (match FindIndex ds o (some key) with
         | some j => (match ds.btrees[j]? with
                      | some bt => bt.Find key
                      | none => false)
         | none => false) = true then .ok (false, ds.datafile)
    else relLoop ds.classes ds.btrees rest true ds.datafile

/-- `Serialize::AddObject` for the object `this`: the value returned and the
datastore. -/
def AddObject (ds : EDatastore) (this : Nat) : Except Fault (Bool × EDatastore) :=
  let o := ds.heap this
  if o.objectaddress ≠ 0 then
    .ok (false, ds.setObj this { o with newobject := false })
  else
    match TestRelationships ds o with
    | .error e => .error e
    | .ok (false, f) =>
      .ok (false, { ds with datafile := f }.setObj this { o with newobject := false })
    | .ok (true, f) =>
      let a := f.NewNode
      let w := WriteObjectHeader (a.2.openNode a.1)
        { o with newobject := true, node := some a.1, objectaddress := a.1 }
      .ok (true, { ds with datafile := w.1 }.setObj this
        { w.2 with objhdr := { w.2.objhdr with ndnbr := (w.2.objhdr.ndnbr + 1) % 65536 } })

/-- `Serialize::ChangeObject`. -/
def ChangeObject (ds : EDatastore) (this : Nat) : Except Fault (Bool × EDatastore) :=
  match TestRelationships ds (ds.heap this) with
  | .error e => .error e
  | .ok (r, f) =>
    .ok (r, { ds with datafile := f }.setObj this { ds.heap this with changed := r })

/-- The scan of `Serialize::DeleteObject` through the B-trees, while `related`
is false, with the data file. -/
def delScan (o : Serialize) (key : EdsKey) : List EdsBtree → Bool → PagedFile → Bool × PagedFile
  | [], rel, f => (rel, f)
  | bt :: bts, rel, f =>
    if rel then (rel, f)
    else if bt.indexno ≠ 0 ∧ bt.nullkey.relatedclass = some o.classname then
      if bt.MakeKeyBuffer.isObjAddr then
        match bt.MakeKeyBuffer.ObjectAddress with
        | none => delScan o key bts rel f
        | some oa =>
          let r := GetObjectHeader f oa
          if r.1.classid = o.objhdr.classid ∧ r.1.ndnbr = 0 then delScan o key bts true r.2
          else delScan o key bts rel r.2
      else delScan o key bts (bt.Find (bt.MakeKeyBuffer.CopyKeyData key)) f
    else delScan o key bts rel f

/-- `Serialize::DeleteObject`: the value returned and the datastore.  The first
key is read through the pointer `keys.FirstEntry()` without a null test. -/
def DeleteObject (ds : EDatastore) (this : Nat) : Except Fault (Bool × EDatastore) :=
  let o := ds.heap this
  match o.keys.head? with
  | none => .error Fault.nullDeref
  | some key =>
    let r := if key.isNullValue then (false, ds.datafile)
             else delScan o key ds.btrees false ds.datafile
    .ok (!r.1, { ds with datafile := r.2 }.setObj this { o with deleted := !r.1 })

/-! ## Object lifecycle -/

/-- `Serialize::RecordObject`: the object is moved to the end of the list of
instantiated objects and its keys are copied into the original keys. -/
def RecordObject (ds : EDatastore) (this : Nat) : EDatastore :=
  { ds with objects := ds.objects.erase this ++ [this] }.setObj this
    { ds.heap this with orgkeys := (ds.heap this).keys }

/-- `Serialize::RemoveObject`. -/
def RemoveObject (ds : EDatastore) (this : Nat) : EDatastore :=
  { ds with objects := ds.objects.erase this }.setObj this
    { ds.heap this with orgkeys := [] }

/-- `Serialize::TestDuplicateObject`: when an instantiated object has the
address of `this`, its instance count is incremented, `this` is marked saved
and the object found is thrown. -/
def TestDuplicateObject (ds : EDatastore) (this : Nat) : EDatastore × Option Exn :=
  if (ds.heap this).objectaddress ≠ 0 then
    match ds.objects.find? (fun e => (ds.heap e).objectaddress == (ds.heap this).objectaddress) with
    | some e =>
      let ds1 := ds.setObj e { ds.heap e with instances := (ds.heap e).instances + 1 }
      (ds1.setObj this { ds1.heap this with saved := true }, some (Exn.Duplicate e))
    | none => (ds, none)
  else (ds, none)

/-- `Serialize::ReadDataMembers`: the datastore and the exception thrown, if
any.  The derived class's `Read()` reads the data members with their current
lengths. -/
def ReadDataMembers (ndl : Nat) (ds : EDatastore) (this : Nat) :
    Except Fault (EDatastore × Option Exn) :=
  let o := ds.heap this
  if o.objectaddress = 0 then .ok (ds, none)
  else
    let p := PositionNode ds.datafile o
    if p.2.2 then .ok ({ ds with datafile := p.1 }.setObj this p.2.1, some Exn.BadObjAddr)
    else
      match readAll ndl p.1 p.2.1 (o.members.map List.length) with
      | none => .error Fault.outOfFuel
      | some (bufs, f2, o2) =>
        let ds3 := { ds with datafile := f2 }.setObj this { o2 with members := bufs, node := none }
        let t := TestDuplicateObject ds3 this
        match t.2 with
        | some e => .ok (t.1, some e)
        | none =>
          let ds5 := RecordObject t.1 this
          .ok ({ ds5 with datafile := ds5.datafile.Seek o2.fileposNode o2.fileposOff }, none)

/-- The loop at the end of `Serialize::ObjectOut`: the nodes linked after the
last written one are marked deleted. -/
def releaseChain : Nat → PagedFile → Nat → Option PagedFile
  | fuel, f, nx =>
    if nx = 0 then some f
    else match fuel with
      | 0 => none
      | k + 1 => releaseChain k ((f.openNode nx).MarkNodeDeleted nx) (f.NextNode nx)

/-- `Serialize::ObjectOut`. -/
def ObjectOut (ndl fuel : Nat) (f : PagedFile) (o : Serialize) :
    Except Fault (PagedFile × Serialize) :=
  match writeAll ndl f o o.members with
  | none => .error Fault.outOfFuel
  | some (f1, o1) =>
    if ndl < o1.offset then .error Fault.undefined
    else
      let f2 := if ndl - o1.offset ≠ 0 then f1.WriteData (List.replicate (ndl - o1.offset) 0)
                else f1
      match o1.node with
      | none => .error Fault.nullDeref
      | some nd =>
        match releaseChain fuel (f2.SetNextNode nd 0) (f2.NextNode nd) with
        | none => .error Fault.outOfFuel
        | some f4 => .ok (f4.Seek o1.fileposNode o1.fileposOff, { o1 with node := none })

/-- The loop of the delete path of `Serialize::SaveObject`: the object's nodes
are marked deleted, from the current node on. -/
def deleteChain : Nat → PagedFile → Option Nat → Option PagedFile
  | fuel, f, node =>
    match node with
    | none => some f
    | some nd =>
      match fuel with
      | 0 => none
      | k + 1 =>
        let f1 := f.MarkNodeDeleted nd
        let nx := f1.NextNode nd
        deleteChain k (if nx = 0 then f1 else f1.openNode nx) (if nx = 0 then none else some nx)

/-- The three assignments that end `Serialize::SaveObject`. -/
def clearFlags (o : Serialize) : Serialize :=
  { o with newobject := false, deleted := false, changed := false }

/-- `Serialize::SaveObject` for the object `this`: the datastore and the
exception thrown, if any.  `objectExists` stands for `ObjectExists()`, which
is declared outside `edatastore.cpp`. -/
def SaveObject (ndl : Nat) (objectExists : EDatastore → Nat → Bool) (fuel : Nat)
    (ds0 : EDatastore) (this : Nat) : Except Fault (EDatastore × Option Exn) :=
  let ds := ds0.setObj this { ds0.heap this with saved := true }
  let o := ds.heap this
  if ds.rebuildnode ≠ 0 then
    match AddIndexes ds.btrees o with
    | .error e => .error e
    | .ok r => .ok ({ ds with btrees := r.1 }.setObj this r.2, none)
  else if o.newobject then
    if !o.deleted && objectExists ds this then
      match AddIndexes ds.btrees o with
      | .error e => .error e
      | .ok r =>
        let p := PositionNode ds.datafile r.2
        if p.2.2 then
          .ok ({ ds with btrees := r.1, datafile := p.1 }.setObj this p.2.1, some Exn.BadObjAddr)
        else
          match ObjectOut ndl fuel p.1 p.2.1 with
          | .error e => .error e
          | .ok w =>
            let ds4 := RecordObject ({ ds with btrees := r.1, datafile := w.1 }.setObj this w.2) this
            .ok (ds4.setObj this (clearFlags (ds4.heap this)), none)
    else .ok (ds.setObj this (clearFlags o), none)
  else if o.deleted || (o.changed && objectExists ds this) then
    let p := PositionNode ds.datafile o
    if p.2.2 then .ok ({ ds with datafile := p.1 }.setObj this p.2.1, some Exn.BadObjAddr)
    else if o.deleted then
      match deleteChain fuel p.1 p.2.1.node with
      | none => .error Fault.outOfFuel
      | some f3 =>
        match DeleteIndexes ds.btrees { p.2.1 with node := none } with
        | .error e => .error e
        | .ok r =>
          .ok ({ ds with btrees := r.1,
                         datafile := f3.Seek p.2.1.fileposNode p.2.1.fileposOff }.setObj this
                (clearFlags { r.2 with objectaddress := 0 }), none)
    else
      match ObjectOut ndl fuel p.1 p.2.1 with
      | .error e => .error e
      | .ok w =>
        match UpdateIndexes ds.btrees w.2 with
        | .error e => .error e
        | .ok r =>
          let ds4 := RecordObject ({ ds with btrees := r.1, datafile := w.1 }.setObj this r.2) this
          .ok ({ ds4 with datafile := ds4.datafile.Seek p.2.1.fileposNode p.2.1.fileposOff }.setObj
                this (clearFlags (ds4.heap this)), none)
  else .ok (ds.setObj this (clearFlags o), none)

/-- The guards of `Serialize::SaveObject` outside rebuild mode: whether the
call writes the object (`newobject` with `!deleted && ObjectExists()`, or
`deleted || (changed && ObjectExists())`). -/
def flushes (objectExists : EDatastore → Nat → Bool) (ds0 : EDatastore) (this : Nat) : Bool :=
  let ds := ds0.setObj this { ds0.heap this with saved := true }
  let o := ds.heap this
  if o.newobject then !o.deleted && objectExists ds this
  else o.deleted || (o.changed && objectExists ds this)

/-- Modelled from the spec: `ObjectExists()`, which the flush uses to "re-check
existence (a re-`test_relationships`)". -/
def ObjectExists (ds : EDatastore) (this : Nat) : Bool :=
  match TestRelationships ds (ds.heap this) with
  | .ok (r, _) => r
  | .error _ => false

/-- The datastore a run ends in, when it ends without a fault and without an
exception. -/
def okState : Except Fault (EDatastore × Option Exn) → Option EDatastore
  | .ok (ds, none) => some ds
  | _ => none

/-- The datastore a run returning a boolean ends in, when the value is `true`. -/
def okTrue : Except Fault (Bool × EDatastore) → Option EDatastore
  | .ok (true, ds) => some ds
  | _ => none

/-! ## Traversal -/

/-- The loop of `Serialize::ScanForward`, `nd` being the node number before
the test `nd++ < HighestNode()`; the first argument bounds the iterations left
(`HighestNode() - nd`). -/
def scanForwardLoop : Nat → PagedFile → Serialize → Nat → PagedFile × Serialize
  | 0, f, o, _ => (f, o)
  | k + 1, f, o, nd =>
    if nd < f.highest then
      let r := GetObjectHeader f (nd + 1)
      if r.1.classid = o.objhdr.classid ∧ r.1.ndnbr = 0 then
        (r.2, { o with objectaddress := nd + 1 })
      else scanForwardLoop k r.2 o (nd + 1)
    else (f, o)

/-- `Serialize::ScanForward(nd)`. -/
def ScanForward (f : PagedFile) (o : Serialize) (nd : Nat) : PagedFile × Serialize :=
  scanForwardLoop (f.highest - nd) f o nd

/-- The loop of `Serialize::ScanBackward`, the argument being the node number
before the test `--nd > 0`, which is not 0. -/
def scanBackwardLoop : Nat → PagedFile → Serialize → PagedFile × Serialize
  | 0, f, o => (f, o)
  | n + 1, f, o =>
    if n = 0 then (f, o)
    else
      let r := GetObjectHeader f n
      if r.1.classid = o.objhdr.classid ∧ r.1.ndnbr = 0 then
        (r.2, { o with objectaddress := n })
      else scanBackwardLoop n r.2 o

/-- `Serialize::ScanBackward(nd)`.  With `nd = 0` the decrement `--nd` leaves
the node numbers; what the test `--nd > 0` then yields depends on the type
`NodeNbr`, which is declared outside `edatastore.cpp`, and is not modelled. -/
def ScanBackward (f : PagedFile) (o : Serialize) (nd : Nat) :
    Except Fault (PagedFile × Serialize) :=
  if nd = 0 then .error Fault.undefined else .ok (scanBackwardLoop nd f o)

/-- The end of the four traversal functions once `bt = FindIndex(key)` is not
null: the key `cur` that the cursor operation of the B-tree returned gives the
object address, and the data members are read. -/
def readAtCursor (ndl : Nat) (ds : EDatastore) (this : Nat) (cur : Option EdsKey) :
    Except Fault (EDatastore × Option Exn) :=
  match cur with
  | some k => ReadDataMembers ndl (ds.setObj this { ds.heap this with objectaddress := k.fileaddr })
      this
  | none => ReadDataMembers ndl ds this

/-- `Serialize::FirstObject(key)`.  `first` stands for `EdsBtree::First()`, which
is declared outside `edatastore.cpp`. -/
def FirstObject (ndl : Nat) (first : EdsBtree → Option EdsKey) (ds0 : EDatastore) (this : Nat)
    (key : Option EdsKey) : Except Fault (EDatastore × Option Exn) :=
  let ds1 := RemoveObject ds0 this
  let ds := ds1.setObj this { ds1.heap this with objectaddress := 0 }
  match FindIndex ds (ds.heap this) key with
  | none =>
    let r := ScanForward ds.datafile (ds.heap this) 0
    ReadDataMembers ndl ({ ds with datafile := r.1 }.setObj this r.2) this
  | some j =>
    match ds.btrees[j]? with
    | none => .error Fault.nullDeref
    | some bt => readAtCursor ndl ds this (first bt)

/-- `Serialize::LastObject(key)`.  `last` stands for `EdsBtree::Last()`, which is
declared outside `edatastore.cpp`. -/
def LastObject (ndl : Nat) (last : EdsBtree → Option EdsKey) (ds0 : EDatastore) (this : Nat)
    (key : Option EdsKey) : Except Fault (EDatastore × Option Exn) :=
  let ds1 := RemoveObject ds0 this
  let ds := ds1.setObj this { ds1.heap this with objectaddress := 0 }
  match FindIndex ds (ds.heap this) key with
  | none =>
    match ScanBackward ds.datafile (ds.heap this) ds.datafile.highest with
    | .error e => .error e
    | .ok r => ReadDataMembers ndl ({ ds with datafile := r.1 }.setObj this r.2) this
  | some j =>
    match ds.btrees[j]? with
    | none => .error Fault.nullDeref
    | some bt => readAtCursor ndl ds this (last bt)

/-- `Serialize::NextObject(key)`.  `next` stands for `EdsBtree::Next()`, which is
declared outside `edatastore.cpp`. -/
def NextObject (ndl : Nat) (next : EdsBtree → Option EdsKey) (ds0 : EDatastore) (this : Nat)
    (key : Option EdsKey) : Except Fault (EDatastore × Option Exn) :=
  let ds1 := RemoveObject ds0 this
  let oa := (ds1.heap this).objectaddress
  let ds := ds1.setObj this { ds1.heap this with objectaddress := 0 }
  match FindIndex ds (ds.heap this) key with
  | none =>
    let r := ScanForward ds.datafile (ds.heap this) oa
    ReadDataMembers ndl ({ ds with datafile := r.1 }.setObj this r.2) this
  | some j =>
    match ds.btrees[j]? with
    | none => .error Fault.nullDeref
    | some bt => readAtCursor ndl ds this (next bt)

/-- `Serialize::PreviousObject(key)`.  `previous` stands for
`EdsBtree::Previous()`, which is declared outside `edatastore.cpp`. -/
def PreviousObject (ndl : Nat) (previous : EdsBtree → Option EdsKey) (ds0 : EDatastore)
    (this : Nat) (key : Option EdsKey) : Except Fault (EDatastore × Option Exn) :=
  let ds1 := RemoveObject ds0 this
  let oa := (ds1.heap this).objectaddress
  let ds := ds1.setObj this { ds1.heap this with objectaddress := 0 }
  match FindIndex ds (ds.heap this) key with
  | none =>
    match ScanBackward ds.datafile (ds.heap this) oa with
    | .error e => .error e
    | .ok r => ReadDataMembers ndl ({ ds with datafile := r.1 }.setObj this r.2) this
  | some j =>
    match ds.btrees[j]? with
    | none => .error Fault.nullDeref
    | some bt => readAtCursor ndl ds this (previous bt)

/-! ## Class registry -/

/-- The content of a C string: the bytes before the first null byte. -/
def cstr (bs : List Nat) : List Nat := bs.takeWhile (fun b => b ≠ 0)

/-- `strcmp(buf, name) == 0` for the character array `buf` and the C string
whose content is `name` (no null byte in it).  `none` stands for undefined
behaviour: the comparison runs past the end of the array. -/
def strcmpBuf : List Nat → List Nat → Option Bool
  | [], _ => none
  | b :: _, [] => some (b == 0)
  | b :: bs, c :: cs => if b = c then strcmpBuf bs cs else some false

/-- Modelled from the spec: the index file: a paged file and the flag
`is_new_file`, "true between creation and the first non-header write". -/
structure IndexFile where
  file : PagedFile
  newfile : Bool

/-- How the scan of `EDatastore::FindClass` ends: on the class-header node of
the class, with the class id counted; or at the end of the chain, with the
count and the last node visited. -/
inductive ScanResult where
  | found (cid : Nat) (f : PagedFile)
  | notFound (cid : Nat) (last : Nat) (f : PagedFile)

/-- The `while (nx != 0)` loop of `EDatastore::FindClass`: `nx` is the node to
visit, `cid` the class id counted so far (16 bits), `last` the node of
`tmpnode`. -/
def findClassLoop (cns : Nat) (name : List Nat) :
    Nat → PagedFile → Nat → Nat → Nat → Except Fault ScanResult
  | fuel, f, nx, cid, last =>
    if nx = 0 then .ok (ScanResult.notFound cid last f)
    else match fuel with
      | 0 => .error Fault.outOfFuel
      | k + 1 =>
        match strcmpBuf ((f.openNode nx).ReadData cns).1 (cstr name) with
        | none => .error Fault.undefined
        | some true => .ok (ScanResult.found cid ((f.openNode nx).ReadData cns).2)
        | some false =>
          findClassLoop cns name k ((f.openNode nx).ReadData cns).2
            (((f.openNode nx).ReadData cns).2.NextNode nx) ((cid + 1) % 65536) nx

/-- `EDatastore::FindClass(cls, nd)`: the value returned, the class record, the
node stored through `nd` (0 when none is) and the index file.  `wantNode`
tells whether `nd` is a non-null pointer. -/
def FindClass (cns fuel : Nat) (idx : IndexFile) (cls : Class) (wantNode : Bool) :
    Except Fault (Bool × Class × Nat × IndexFile) :=
  if idx.newfile then .ok (false, { cls with classid := 0 }, 0, idx)
  else
    match findClassLoop cns cls.classname fuel idx.file 1 0 0 with
    | .error e => .error e
    | .ok (ScanResult.found cid f) =>
      .ok (true, { cls with classid := cid, headerNode := f.posNode, headerOff := f.posOff }, 0,
        { idx with file := f })
    | .ok (ScanResult.notFound cid last f) =>
      if wantNode then
        .ok (false, { cls with classid := cid }, f.NewNode.1,
          { idx with file := f.NewNode.2.SetNextNode last f.NewNode.1 })
      else .ok (false, { cls with classid := cid }, 0, { idx with file := f })

/-- The `classnamesize` bytes that `WriteData(cls->classname, classnamesize)`
takes from the name buffer: the name, its terminating null, and what follows
the buffer in memory (`junk`). -/
def nameImage (cns : Nat) (name : List Nat) (junk : Nat → Nat) : List Nat :=
  (cstr name ++ 0 :: (List.range cns).map junk).take cns

/-- `EDatastore::AddClassToIndex(cls)`: the class record and the index file.
`ndl` is `nodedatalength`. -/
def AddClassToIndex (cns ndl fuel : Nat) (junk : Nat → Nat) (idx : IndexFile) (cls : Class) :
    Except Fault (Class × IndexFile) :=
  match FindClass cns fuel idx cls true with
  | .error e => .error e
  | .ok (true, cls1, _, idx1) => .ok (cls1, idx1)
  | .ok (false, cls1, nd, idx1) =>
    let a := if nd ≠ 0 then (nd, idx1.file) else idx1.file.NewNode
    if ndl < cns then .error Fault.undefined
    else
      let f1 := (a.2.openNode a.1).WriteData (nameImage cns cls.classname junk)
      .ok ({ cls1 with headerNode := f1.posNode, headerOff := f1.posOff },
        { file := f1.WriteData (List.replicate (ndl - cns) 0), newfile := false })

/-- `EDatastore::GetClassID(classname)`. -/
def GetClassID (cns fuel : Nat) (idx : IndexFile) (classname : List Nat) : Except Fault Nat :=
  match FindClass cns fuel idx { classname := classname, classid := 0 } false with
  | .error e => .error e
  | .ok r => .ok r.2.1.classid

/-! ## Well-formed node chains -/

/-- The nodes `rest` are what following the next pointers from `n` visits,
up to the terminating 0. -/
def Chain (nodes : Nat → NodeRec) : Nat → List Nat → Prop
  | n, [] => (nodes n).next = 0
  | n, m :: rest => (nodes n).next = m ∧ m ≠ 0 ∧ Chain nodes m rest

instance Chain.dec (nodes : Nat → NodeRec) : (n : Nat) → (rest : List Nat) →
    Decidable (Chain nodes n rest)
  | n, [] => inferInstanceAs (Decidable ((nodes n).next = 0))
  | n, m :: rest =>
    have := Chain.dec nodes m rest
    inferInstanceAs (Decidable ((nodes n).next = m ∧ m ≠ 0 ∧ Chain nodes m rest))

/-- Invariants F2 and F3 of the paged file, for the object whose current node
is `n`: the chain from `n` is `rest`, ended by 0; the nodes of `behind` (those
of the object before `n`), the chain and the free list are pairwise distinct
and allocated, and the free list does not hold node 0. -/
structure ChainWF (f : PagedFile) (n : Nat) (rest behind : List Nat) : Prop where
  chain : Chain f.nodes n rest
  nodup : (n :: (rest ++ (f.free ++ behind))).Nodup
  bound : ∀ x ∈ n :: (rest ++ (f.free ++ behind)), x ≤ f.highest
  freenz : ∀ x ∈ f.free, x ≠ 0

/-- The file `g` holds what `f` holds in every node of `behind` and in the
payload of `n` before offset `off`. -/
def Agree (f g : PagedFile) (n off : Nat) (behind : List Nat) : Prop :=
  (∀ x ∈ behind, g.nodes x = f.nodes x) ∧
  (∀ i, i < off → (g.nodes n).data i = (f.nodes n).data i)

/-- The invariant of the write cursor: the object is positioned at node `n`,
offset inside the payload past the header, the file position is at the cursor
and the chain is well formed. -/
structure WInv (ndl : Nat) (f : PagedFile) (o : Serialize) (n : Nat)
    (rest behind : List Nat) : Prop where
  node : o.node = some n
  lo : hdrSize ≤ o.offset
  hi : o.offset ≤ ndl
  posn : f.posNode = n
  poso : f.posOff = o.offset
  wf : ChainWF f n rest behind

/-- The cursor `(n', off')` with `behind'` lies at or after the cursor
`(n, off)` with `behind`. -/
def Mono (n off : Nat) (behind : List Nat) (n' off' : Nat) (behind' : List Nat) : Prop :=
  (∀ x ∈ behind, x ∈ behind') ∧ ((n' = n ∧ off ≤ off') ∨ n ∈ behind')

/-- What the serializer leaves of the object: all but the node pointer, the
offset and the node counter. -/
def SameObj (o o' : Serialize) : Prop :=
  o' = { o with node := o'.node, offset := o'.offset,
                objhdr := { o.objhdr with ndnbr := o'.objhdr.ndnbr } }

/-- What reading leaves of the object: all but the node pointer, the offset
and the object header. -/
def SameObjR (o o' : Serialize) : Prop :=
  o' = { o with node := o'.node, offset := o'.offset, objhdr := o'.objhdr }

/-- Reading `buf.length` bytes of file `g` with `EdsReadObject`'s loop from the
cursor `(n, off)` returns `buf`, leaves the cursor at `(n', off')` and changes
nothing of the file but its position. -/
def ReadsBack (ndl : Nat) (g : PagedFile) (n off : Nat) (buf : List Nat)
    (n' off' : Nat) : Prop :=
  ∀ (r : Serialize) (fuel : Nat), r.node = some n → r.offset = off →
    g.posNode = n → g.posOff = off → buf.length < fuel →
    ∃ r2, readLoop ndl fuel g r buf.length =
        some (buf, { g with posNode := n', posOff := off' }, r2) ∧
      r2.node = some n' ∧ r2.offset = off' ∧ SameObjR r r2

/-- What the write loop achieves with `fuel` iterations from a well-formed
cursor: it returns, the cursor stays well formed and only moves forward, what
lies before the cursor is untouched, and every file that keeps what lies before
the final cursor reads the buffer back. -/
def WriteOK (ndl fuel : Nat) : Prop :=
  ∀ (buf : List Nat) (f : PagedFile) (o : Serialize) (n : Nat) (rest B : List Nat),
    buf.length < fuel → WInv ndl f o n rest B →
    ∃ f' o' n' rest' B', writeLoop ndl fuel f o buf = some (f', o') ∧
      WInv ndl f' o' n' rest' B' ∧ Mono n o.offset B n' o'.offset B' ∧
      Agree f f' n o.offset B ∧ SameObj o o' ∧
      ∀ g, Agree f' g n' o'.offset B' → ReadsBack ndl g n o.offset buf n' o'.offset

/-- Reading the buffers `bufs` back, one `EdsReadObject` per buffer with the
lengths of `bufs`, from the cursor `(n, off)` of file `g`. -/
def ReadsAllBack (ndl : Nat) (g : PagedFile) (n off : Nat) (bufs : List (List Nat))
    (n' off' : Nat) : Prop :=
  ∀ (r : Serialize), r.node = some n → r.offset = off →
    g.posNode = n → g.posOff = off →
    ∃ r2, readAll ndl g r (bufs.map List.length) =
        some (bufs, { g with posNode := n', posOff := off' }, r2) ∧
      r2.node = some n' ∧ r2.offset = off' ∧ SameObjR r r2

/-- The file `g` is the file `f` up to the file position. -/
def SameFile (f g : PagedFile) : Prop :=
  g.nodes = f.nodes ∧ g.highest = f.highest ∧ g.free = f.free

/-- The pairs held by the B-tree at position `j` of the collected B-trees. -/
def entriesAt (bts : List EdsBtree) (j : Nat) : List (List Nat × Nat) :=
  match bts[j]? with
  | some bt => bt.entries
  | none => []

/-- The last node of the chain that starts at `n` and goes on with `rest`. -/
def chainEnd : Nat → List Nat → Nat
  | n, [] => n
  | _, m :: rest => chainEnd m rest

/-- The class id counted after `k` more class-header nodes. -/
def bumpId : Nat → Nat → Nat
  | cid, 0 => cid
  | cid, k + 1 => bumpId ((cid + 1) % 65536) k

/-- The index file holds the class chain `chain`: a new file holds none and has
allocated no node; otherwise the chain starts at node 1, is well formed (F2,
F3) and ends with 0. -/
def ClassChain (idx : IndexFile) (chain : List Nat) : Prop :=
  (idx.newfile = true ∧ chain = [] ∧ idx.file.highest = 0 ∧ idx.file.free = []) ∨
  (idx.newfile = false ∧ ∃ rest, chain = 1 :: rest ∧ ChainWF idx.file 1 rest [])

/-- Identity uniqueness (O3, P5): no two distinct entries of the list of
instantiated objects share the same non-zero object address. -/
def Unique (ds : EDatastore) : Prop :=
  ds.objects.Pairwise
    (fun e e' => (ds.heap e).objectaddress = (ds.heap e').objectaddress →
      (ds.heap e).objectaddress = 0)

instance Unique.dec (ds : EDatastore) : Decidable (Unique ds) := by
  unfold Unique
  infer_instance

/-- No instantiated object other than `this` has the non-zero address of
`this`. -/
def NoOther (ds : EDatastore) (this : Nat) : Prop :=
  ∀ e ∈ ds.objects, e ≠ this →
    (ds.heap e).objectaddress ≠ (ds.heap this).objectaddress ∨
    (ds.heap this).objectaddress = 0

instance NoOther.dec (ds : EDatastore) (this : Nat) : Decidable (NoOther ds this) := by
  unfold NoOther
  infer_instance

/-- Among its pairs with the file address `A`, the B-tree at position `j`
holds exactly the key bytes `key`, and none at all when `key` is `none`. -/
def HoldsExactly (bts : List EdsBtree) (j A : Nat) (key : Option (List Nat)) : Prop :=
  (∀ e ∈ entriesAt bts j, e.2 = A → key = some e.1) ∧
  (∀ b ∈ key, (b, A) ∈ entriesAt bts j)

instance HoldsExactly.dec (bts : List EdsBtree) (j A : Nat) (key : Option (List Nat)) :
    Decidable (HoldsExactly bts j A key) := by
  unfold HoldsExactly
  infer_instance

/-- The key bytes an index is to hold for the key `k` of an object: those of
`k` when the object is persisted and `k` is not null. -/
def heldKey (persisted : Bool) (k : EdsKey) : Option (List Nat) :=
  if persisted && !k.isNullValue then some k.bytes else none

/-- The cursor `(n', rest')` is the cursor `(n, rest)` of the file `f` moved
forward: either `n'` is a node of the chain `n :: rest` and `rest'` is what
follows it there, or `n'` is a node allocated since (taken from the free list
of `f` or above its highest node) and nothing follows it. -/
def Kept (f : PagedFile) (n : Nat) (rest : List Nat) (n' : Nat) (rest' : List Nat) : Prop :=
  (n' :: rest') <:+ (n :: rest) ∨ (rest' = [] ∧ (n' ∈ f.free ∨ f.highest < n'))

/-- The file `f'` allocates no node that `f` does not hold free or above its
highest node, and marks no node deleted that is not deleted in `f`. -/
def Grows (f f' : PagedFile) : Prop :=
  (∀ x ∈ f'.free, x ∈ f.free) ∧ f.highest ≤ f'.highest ∧
  (∀ x, (f'.nodes x).deleted = true → (f.nodes x).deleted = true)

/-- The node `x` of the file `f` carries the header of a first node of the
class of `o`: `nd_nbr == 0` and the class id of `o`. -/
def Matches (f : PagedFile) (o : Serialize) (x : Nat) : Prop :=
  (GetObjectHeader f x).1.classid = o.objhdr.classid ∧ (GetObjectHeader f x).1.ndnbr = 0

instance Matches.dec (f : PagedFile) (o : Serialize) (x : Nat) : Decidable (Matches f o x) := by
  unfold Matches
  infer_instance

/-! ## Sample states -/

/-- A data file holding one object of class 3 in node 1, whose payload bytes
are `10, 11, 12, 13` (the node payload being 8 bytes long). -/
def sampleFile : PagedFile :=
  { nodes := fun n => if n = 1 then
      { next := 0, deleted := false,
        data := fun i => [3, 0, 0, 0, 10, 11, 12, 13].getD i 0 }
      else NodeRec.blank,
    highest := 1, free := [], posNode := 0, posOff := 0 }

/-- A keyless object of class 3 bound to address 1. -/
def sampleObj : Serialize :=
  { BuildObject [67] [] [[0, 0, 0, 0]] with
    objhdr := { classid := 3, ndnbr := 0 }, objectaddress := 1, loaded := true }

/-- A datastore over `sampleFile` with class 3 registered, no index, and one
object under construction, bound to address 1 and not yet read. -/
def sampleStore : EDatastore :=
  { datafile := sampleFile, btrees := [], classes := [{ classname := [67], classid := 3 }],
    objects := [], heap := fun _ => sampleObj, rebuildnode := 0 }

/-- The object of `sampleStore` once loaded from address 1 (its header still
counts node 0), after the application lengthened its data member from 4 to 6
bytes and `ChangeObject` marked it changed. -/
def grownObj : Serialize :=
  { sampleObj with members := [[10, 11, 12, 13, 14, 15]], changed := true,
                   orgkeys := [], fileposNode := 0, fileposOff := 0 }

/-- The datastore holding `grownObj` as its one instantiated object. -/
def grownStore : EDatastore :=
  { sampleStore with objects := [0], heap := fun _ => grownObj }

/-- The value of an engine call that returns a boolean. -/
def resultOf {σ : Type} : Except Fault (Bool × σ) → Option Bool
  | .ok (b, _) => some b
  | .error _ => none

/-- The class name of the sample class `Book`. -/
def bookName : List Nat := [66]

/-- The class name of the sample class `Loan`. -/
def loanName : List Nat := [76]

/-- A data file of the sample library: node 0 is the file header (it starts
with the magic number), node 1 holds the `Book` (class 0) with ISBN `AA`,
node 2 holds a `Loan` (class 1). -/
def libFile : PagedFile :=
  { nodes := fun n =>
      if n = 0 then { next := 0, deleted := false,
                      data := fun i => [0, 83, 68, 69, 1, 0, 0, 0].getD i 0 }
      else if n = 1 then { next := 0, deleted := false,
                           data := fun i => [0, 0, 0, 0, 65, 65, 0, 0].getD i 0 }
      else if n = 2 then { next := 0, deleted := false,
                           data := fun i => [1, 0, 0, 0, 65, 65, 7, 7].getD i 0 }
      else NodeRec.blank,
    highest := 2, free := [], posNode := 0, posOff := 0 }

/-- The primary index of `Book`, holding the ISBN `AA` of the book in node 1. -/
def bookPrimary : EdsBtree :=
  { classname := bookName, indexno := 0,
    nullkey := { indexno := 0, bytes := [0, 0], fileaddr := 0, relatedclass := none,
                 isObjAddr := false },
    entries := [([65, 65], 1)] }

/-- The primary index of `Loan`. -/
def loanPrimary : EdsBtree :=
  { classname := loanName, indexno := 0,
    nullkey := { indexno := 0, bytes := [0, 0, 0, 0], fileaddr := 0, relatedclass := none,
                 isObjAddr := false },
    entries := [([65, 65, 7, 7], 2)] }

/-- The secondary index of `Loan` on the ISBN, a value-copied key related to
`Book`. -/
def loanByIsbn : EdsBtree :=
  { classname := loanName, indexno := 1,
    nullkey := { indexno := 1, bytes := [0, 0], fileaddr := 0, relatedclass := some bookName,
                 isObjAddr := false },
    entries := [([65, 65], 2)] }

/-- A secondary index of `Loan` whose keys are object addresses of `Book`
objects: the loan in node 2 refers to the book at address 1. -/
def loanByBookAddr : EdsBtree :=
  { classname := loanName, indexno := 1,
    nullkey := { indexno := 1, bytes := [0, 0, 0, 0], fileaddr := 0,
                 relatedclass := some bookName, isObjAddr := true },
    entries := [([1, 0, 0, 0], 2)] }

/-- The book with ISBN `AA`, loaded from address 1. -/
def bookAA : Serialize :=
  { BuildObject bookName
      [{ indexno := 0, bytes := [65, 65], fileaddr := 1, relatedclass := none,
         isObjAddr := false }] [[65, 65, 0, 0]] with
    objectaddress := 1, loaded := true,
    orgkeys := [{ indexno := 0, bytes := [65, 65], fileaddr := 1, relatedclass := none,
                  isObjAddr := false }] }

/-- A book with the ISBN given, constructed and not yet added. -/
def freshBook (isbn : List Nat) : Serialize :=
  { BuildObject bookName
      [{ indexno := 0, bytes := isbn, fileaddr := 0, relatedclass := none,
         isObjAddr := false }] [isbn ++ [0, 0]] with loaded := true }

/-- A loan of the book with ISBN `BB` (there is no such book), constructed and
not yet added: its secondary key is a value-copied key related to `Book`. -/
def loanOfBB : Serialize :=
  { BuildObject loanName
      [{ indexno := 0, bytes := [66, 66, 7, 7], fileaddr := 0, relatedclass := none,
         isObjAddr := false },
       { indexno := 1, bytes := [66, 66], fileaddr := 0, relatedclass := some bookName,
         isObjAddr := false }] [[66, 66, 7, 7]] with
    objhdr := { classid := 1, ndnbr := 0 }, loaded := true }

/-- The sample library with all its indexes registered; object 0 is the book
`AA`, object 1 a fresh book with the same ISBN, object 2 a fresh book `BB`. -/
def libStore : EDatastore :=
  { datafile := libFile, btrees := [bookPrimary, loanPrimary, loanByIsbn],
    classes := [{ classname := bookName, classid := 0 }, { classname := loanName, classid := 1 }],
    objects := [0],
    heap := fun i => if i = 0 then bookAA else if i = 1 then freshBook [65, 65]
                     else freshBook [66, 66],
    rebuildnode := 0 }

/-- The sample library in a session that has registered `Loan` only: no index
of `Book` is among the collected B-trees.  Its one object is `loanOfBB`. -/
def loanOnlyStore : EDatastore :=
  { datafile := libFile, btrees := [loanPrimary, loanByIsbn],
    classes := [{ classname := loanName, classid := 1 }],
    objects := [], heap := fun _ => loanOfBB, rebuildnode := 0 }

/-- The sample library where loans refer to books by object address. -/
def refStore : EDatastore :=
  { libStore with btrees := [bookPrimary, loanPrimary, loanByBookAddr] }

/-- A data file in which `AddObject` has just allocated node 1 for a new object
of the keyless class 3: the node holds the object header and nothing else. -/
def scanFile : PagedFile :=
  { nodes := fun n => if n = 1 then
      { next := 0, deleted := false, data := fun i => [3, 0, 0, 0].getD i 0 }
      else NodeRec.blank,
    highest := 1, free := [], posNode := 1, posOff := 4 }

/-- Object 1 is the new object that `AddObject` bound to node 1 of `scanFile`
and that is not saved yet.  Object 0 is another instance of the class that a
keyless traversal has positioned on node 1 (the node carries the class id and
`nd_nbr = 0`) and materialized; it is the one instantiated object.  Object 2 is
a third instance bound to address 1 and not yet read. -/
def dupStore : EDatastore :=
  { datafile := scanFile, btrees := [], classes := [{ classname := [67], classid := 3 }],
    objects := [0],
    heap := fun i =>
      if i = 0 then { sampleObj with saved := false }
      else if i = 1 then
        { sampleObj with newobject := true, objhdr := { classid := 3, ndnbr := 1 },
                         node := some 1, offset := 4, members := [[1, 2, 3, 4]] }
      else sampleObj,
    rebuildnode := 0 }

/-- The datastore of `dupStore`'s new object 1, marked deleted-pending by
`DeleteObject` before it was ever saved. -/
def newDeletedStore : EDatastore :=
  { dupStore with objects := [],
                  heap := fun _ => { (dupStore.heap 1) with deleted := true } }

/-- The sample library with the loaded book `AA` (object 0) marked
deleted-pending. -/
def bookDeletedStore : EDatastore :=
  { libStore with btrees := [bookPrimary],
                  heap := fun _ => { bookAA with deleted := true } }

/-- `sampleFile` with the file position on the first payload byte of node 1. -/
def cursorFile : PagedFile := { sampleFile with posNode := 1, posOff := 4 }

/-- `sampleObj` positioned on the first payload byte of node 1. -/
def cursorObj : Serialize := { sampleObj with node := some 1, offset := 4 }

/-- A newly created index file: no node allocated yet. -/
def newIndexFile : IndexFile :=
  { file := { nodes := fun _ => NodeRec.blank, highest := 0, free := [], posNode := 0,
              posOff := 0 },
    newfile := true }

/-- An index file whose class chain holds the one class `Book`, in node 1. -/
def bookIndexFile : IndexFile :=
  { file := { nodes := fun n => if n = 1 then
                { next := 0, deleted := false, data := fun i => bookName.getD i 0 }
                else NodeRec.blank,
              highest := 1, free := [], posNode := 0, posOff := 0 },
    newfile := false }

/-- The loan in node 2 of the sample library, loaded, after the application
set its ISBN key to `BB` (there is no such book): the original keys still hold
`AA`. -/
def loanMoved : Serialize :=
  { BuildObject loanName
      [{ indexno := 0, bytes := [65, 65, 7, 7], fileaddr := 2, relatedclass := none,
         isObjAddr := false },
       { indexno := 1, bytes := [66, 66], fileaddr := 2, relatedclass := some bookName,
         isObjAddr := false }] [[65, 65, 7, 7]] with
    objhdr := { classid := 1, ndnbr := 0 }, objectaddress := 2, loaded := true,
    orgkeys := [{ indexno := 0, bytes := [65, 65, 7, 7], fileaddr := 2, relatedclass := none,
                  isObjAddr := false },
                { indexno := 1, bytes := [65, 65], fileaddr := 2,
                  relatedclass := some bookName, isObjAddr := false }] }

/-- The sample library whose one instantiated object is `loanMoved`. -/
def loanMovedStore : EDatastore :=
  { libStore with heap := fun _ => loanMoved }

/-- The sample library whose one instantiated object is the loaded book `AA`,
after the application set its ISBN to `BB` and `ChangeObject` marked it
changed. -/
def bookRekeyedStore : EDatastore :=
  { libStore with
    heap := fun _ =>
      { bookAA with
        keys := [{ indexno := 0, bytes := [66, 66], fileaddr := 1, relatedclass := none,
                   isObjAddr := false }],
        members := [[66, 66, 0, 0]], changed := true } }

/-- The datastore `SaveObject` leaves when it saves the one object of
`bookRekeyedStore`, with 8 payload bytes per node. -/
def bookRekeyedSaved : EDatastore :=
  (okState (SaveObject 8 ObjectExists 4 bookRekeyedStore 0)).getD bookRekeyedStore

/-- A data file holding two one-node objects of class 3, in nodes 1 and 2,
node 2 being the highest node. -/
def twoObjFile : PagedFile :=
  { nodes := fun n =>
      if n = 1 then { next := 0, deleted := false,
                      data := fun i => [3, 0, 0, 0, 10, 11, 12, 13].getD i 0 }
      else if n = 2 then { next := 0, deleted := false,
                           data := fun i => [3, 0, 0, 0, 20, 21, 22, 23].getD i 0 }
      else NodeRec.blank,
    highest := 2, free := [], posNode := 0, posOff := 0 }

/-- A datastore over `twoObjFile` with the keyless class 3 registered and no
instantiated object: object 0 is constructed and bound to no address, object 1
is bound to address 1, object 2 to address 2. -/
def twoObjStore : EDatastore :=
  { datafile := twoObjFile, btrees := [], classes := [{ classname := [67], classid := 3 }],
    objects := [],
    heap := fun i => { sampleObj with objectaddress := i },
    rebuildnode := 0 }

/-- The cursor operations of a B-tree without keys. -/
def noCursor : EdsBtree → Option EdsKey := fun _ => none

/-- A data file holding one object of class 3 in the two nodes 1 and 2: node 1
is linked to node 2, which ends the chain. -/
def longFile : PagedFile :=
  { nodes := fun n =>
      if n = 1 then { next := 2, deleted := false,
                      data := fun i => [3, 0, 0, 0, 10, 11, 12, 13].getD i 0 }
      else if n = 2 then { next := 0, deleted := false,
                           data := fun i => [3, 0, 1, 0, 14, 15, 7, 7].getD i 0 }
      else NodeRec.blank,
    highest := 2, free := [], posNode := 0, posOff := 0 }

/-- The object of `longFile`, bound to address 1, after its data member was
shortened to 2 bytes. -/
def shortObj : Serialize := { sampleObj with members := [[1, 2]] }

/-! ## Lemmas on the paged file -/

@[simp] theorem setNode_same (nodes : Nat → NodeRec) (n : Nat) (r : NodeRec) :
    setNode nodes n r n = r := by simp [setNode]

theorem setNode_ne (nodes : Nat → NodeRec) {n m : Nat} (r : NodeRec) (h : m ≠ n) :
    setNode nodes n r m = nodes m := by simp [setNode, h]

theorem writeBytes_lt (d : Nat → Nat) (off : Nat) (buf : List Nat) {i : Nat} (h : i < off) :
    writeBytes d off buf i = d i := by
  simp only [writeBytes]
  rw [if_neg]
  omega

theorem writeBytes_at (d : Nat → Nat) (off : Nat) (buf : List Nat) {i : Nat}
    (h : i < buf.length) : writeBytes d off buf (off + i) = buf.getD i 0 := by
  simp only [writeBytes]
  rw [if_pos (by omega)]
  congr 1
  omega

theorem Chain.congr {nodes nodes' : Nat → NodeRec} :
    ∀ (rest : List Nat) (n : Nat),
      (∀ x ∈ n :: rest, (nodes' x).next = (nodes x).next) →
      Chain nodes n rest → Chain nodes' n rest
  | [], n, h, hc => by
    simp only [Chain] at hc ⊢
    rw [h n (by simp)]
    exact hc
  | m :: rest, n, h, hc => by
    simp only [Chain] at hc ⊢
    refine ⟨by rw [h n (by simp)]; exact hc.1, hc.2.1, ?_⟩
    exact Chain.congr rest m (fun x hx => h x (List.mem_cons_of_mem _ hx)) hc.2.2

theorem agree_refl (f : PagedFile) (n off : Nat) (B : List Nat) : Agree f f n off B :=
  ⟨fun _ _ => rfl, fun _ _ => rfl⟩

theorem agree_trans {f g h : PagedFile} {n off : Nat} {B : List Nat}
    (h1 : Agree f g n off B) (h2 : Agree g h n off B) : Agree f h n off B :=
  ⟨fun x hx => (h2.1 x hx).trans (h1.1 x hx), fun i hi => (h2.2 i hi).trans (h1.2 i hi)⟩

theorem agree_mono {f g : PagedFile} {n off n' off' : Nat} {B B' : List Nat}
    (hm : Mono n off B n' off' B') (h : Agree f g n' off' B') : Agree f g n off B := by
  refine ⟨fun x hx => h.1 x (hm.1 x hx), fun i hi => ?_⟩
  rcases hm.2 with ⟨rfl, hle⟩ | hin
  · exact h.2 i (by omega)
  · rw [h.1 n hin]

theorem mono_refl (n off : Nat) (B : List Nat) : Mono n off B n off B :=
  ⟨fun _ hx => hx, Or.inl ⟨rfl, le_refl _⟩⟩

theorem mono_trans {n off n1 off1 n2 off2 : Nat} {B B1 B2 : List Nat}
    (h1 : Mono n off B n1 off1 B1) (h2 : Mono n1 off1 B1 n2 off2 B2) :
    Mono n off B n2 off2 B2 := by
  refine ⟨fun x hx => h2.1 x (h1.1 x hx), ?_⟩
  rcases h1.2 with ⟨rfl, hle⟩ | hin
  · rcases h2.2 with ⟨rfl, hle2⟩ | hin2
    · exact Or.inl ⟨rfl, by omega⟩
    · exact Or.inr hin2
  · exact Or.inr (h2.1 _ hin)

theorem sameObj_refl (o : Serialize) : SameObj o o := rfl

theorem sameObj_trans {a b c : Serialize} (h1 : SameObj a b) (h2 : SameObj b c) :
    SameObj a c := by
  unfold SameObj at *
  rw [h2, h1]

/-! ## The write cursor -/

theorem linkNext_spec (ndl : Nat) (hndl : hdrSize ≤ ndl) {f : PagedFile} {o : Serialize}
    {n nx : Nat} {rest1 B : List Nat}
    (hc : Chain f.nodes nx rest1)
    (hnd : (nx :: (rest1 ++ (f.free ++ (n :: B)))).Nodup)
    (hb : ∀ x ∈ nx :: (rest1 ++ (f.free ++ (n :: B))), x ≤ f.highest)
    (hz : ∀ x ∈ f.free, x ≠ 0) :
    WInv ndl (linkNext f o n nx).1 (linkNext f o n nx).2 nx rest1 (n :: B) ∧
    (linkNext f o n nx).2.offset = hdrSize ∧
    ((linkNext f o n nx).1.nodes n).next = nx ∧
    ((linkNext f o n nx).1.nodes n).data = (f.nodes n).data ∧
    (∀ x ∈ B, (linkNext f o n nx).1.nodes x = f.nodes x) ∧
    SameObj o (linkNext f o n nx).2 := by
  have hne : n ≠ nx := by
    intro h
    subst h
    simp at hnd
  have hBn : ∀ x ∈ B, x ≠ n ∧ x ≠ nx := by
    intro x hx
    constructor
    · rintro rfl
      simp [List.nodup_append, List.nodup_cons] at hnd
      tauto
    · rintro rfl
      simp [List.nodup_append, List.nodup_cons] at hnd
      tauto
  have hrest : ∀ x ∈ rest1, x ≠ n ∧ x ≠ nx := by
    intro x hx
    constructor
    · rintro rfl
      simp [List.nodup_append, List.nodup_cons] at hnd
      tauto
    · rintro rfl
      simp [List.nodup_append, List.nodup_cons] at hnd
      tauto
  refine ⟨⟨rfl, le_refl _, hndl, rfl, ?_, ⟨?_, ?_, ?_, ?_⟩⟩, rfl, ?_, ?_, ?_, rfl⟩
  · simp [linkNext, WriteObjectHeader, PagedFile.WriteData, PagedFile.openNode,
      PagedFile.Seek, PagedFile.SetNextNode, ObjectHeader.toBytes, hdrSize]
  · refine Chain.congr rest1 nx ?_ hc
    intro x hx
    rcases List.mem_cons.1 hx with rfl | hx
    · simp [linkNext, WriteObjectHeader, PagedFile.WriteData, PagedFile.openNode,
        PagedFile.Seek, PagedFile.SetNextNode, setNode_ne _ _ (Ne.symm hne)]
    · have := hrest x hx
      simp [linkNext, WriteObjectHeader, PagedFile.WriteData, PagedFile.openNode,
        PagedFile.Seek, PagedFile.SetNextNode, setNode_ne _ _ this.1, setNode_ne _ _ this.2]
  · simpa [linkNext, WriteObjectHeader, PagedFile.WriteData, PagedFile.openNode,
      PagedFile.Seek, PagedFile.SetNextNode] using hnd
  · simpa [linkNext, WriteObjectHeader, PagedFile.WriteData, PagedFile.openNode,
      PagedFile.Seek, PagedFile.SetNextNode] using hb
  · simpa [linkNext, WriteObjectHeader, PagedFile.WriteData, PagedFile.openNode,
      PagedFile.Seek, PagedFile.SetNextNode] using hz
  · simp [linkNext, WriteObjectHeader, PagedFile.WriteData, PagedFile.openNode,
      PagedFile.Seek, PagedFile.SetNextNode, setNode_ne _ _ hne]
  · simp [linkNext, WriteObjectHeader, PagedFile.WriteData, PagedFile.openNode,
      PagedFile.Seek, PagedFile.SetNextNode, setNode_ne _ _ hne]
  · intro x hx
    have := hBn x hx
    simp [linkNext, WriteObjectHeader, PagedFile.WriteData, PagedFile.openNode,
      PagedFile.Seek, PagedFile.SetNextNode, setNode_ne _ _ this.1, setNode_ne _ _ this.2]

theorem writeAdvance_spec (ndl : Nat) (hndl : hdrSize ≤ ndl) {f : PagedFile} {o : Serialize}
    {n : Nat} {rest B : List Nat} (h : WInv ndl f o n rest B) :
    ∃ n1 rest1, WInv ndl (writeAdvance f o n).1 (writeAdvance f o n).2 n1 rest1 (n :: B) ∧
      (writeAdvance f o n).2.offset = hdrSize ∧
      ((writeAdvance f o n).1.nodes n).next = n1 ∧ n1 ≠ 0 ∧
      ((writeAdvance f o n).1.nodes n).data = (f.nodes n).data ∧
      (∀ x ∈ B, (writeAdvance f o n).1.nodes x = f.nodes x) ∧
      SameObj o (writeAdvance f o n).2 := by
  obtain ⟨hchain, hnd, hb, hz⟩ := h.wf
  cases rest with
  | cons m rest1 =>
    obtain ⟨hm, hm0, hc⟩ := hchain
    have hwa : writeAdvance f o n = linkNext f o n m := by
      simp [writeAdvance, PagedFile.NextNode, hm, hm0]
    rw [hwa]
    have hnd1 : (m :: (rest1 ++ (f.free ++ (n :: B)))).Nodup := by
      simp only [List.nodup_cons, List.nodup_append, List.mem_append, List.mem_cons,
        List.cons_append] at hnd ⊢
      aesop
    have hb1 : ∀ x ∈ m :: (rest1 ++ (f.free ++ (n :: B))), x ≤ f.highest := by
      intro x hx
      apply hb
      simp only [List.mem_append, List.mem_cons, List.cons_append] at hx ⊢
      tauto
    obtain ⟨h1, h2, h3, h4, h5, h6⟩ := linkNext_spec (o := o) ndl hndl hc hnd1 hb1 hz
    exact ⟨m, rest1, h1, h2, h3, hm0, h4, h5, h6⟩
  | nil =>
    have hn0 : (f.nodes n).next = 0 := hchain
    cases hfree : f.free with
    | cons x fr =>
      have hwa : writeAdvance f o n =
          linkNext { f with free := fr, nodes := setNode f.nodes x NodeRec.blank } o n x := by
        simp [writeAdvance, PagedFile.NextNode, hn0, PagedFile.NewNode, hfree]
      rw [hwa]
      rw [hfree] at hnd hb hz
      have hxn : x ≠ n := by
        rintro rfl
        simp at hnd
      have hxB : ∀ y ∈ B, y ≠ x := by
        rintro y hy rfl
        simp [List.nodup_append] at hnd
        tauto
      have hnd1 : (x :: ([] ++ (fr ++ (n :: B)))).Nodup := by
        simp only [List.nodup_cons, List.nodup_append, List.mem_append, List.mem_cons,
          List.cons_append, List.nil_append] at hnd ⊢
        aesop
      have hb1 : ∀ y ∈ x :: ([] ++ (fr ++ (n :: B))), y ≤ f.highest := by
        intro y hy
        apply hb
        simp only [List.mem_append, List.mem_cons, List.cons_append, List.nil_append] at hy ⊢
        tauto
      have hc1 : Chain (setNode f.nodes x NodeRec.blank) x [] := by
        simp [Chain, NodeRec.blank]
      obtain ⟨h1, h2, h3, h4, h5, h6⟩ :=
        linkNext_spec (f := { f with free := fr, nodes := setNode f.nodes x NodeRec.blank })
          (o := o) ndl hndl hc1 hnd1 hb1 (fun y hy => hz y (List.mem_cons_of_mem _ hy))
      refine ⟨x, [], h1, h2, h3, hz x (List.mem_cons_self _ _), ?_, ?_, h6⟩
      · rw [h4]
        simp [setNode_ne _ _ (Ne.symm hxn)]
      · intro y hy
        rw [h5 y hy]
        simp [setNode_ne _ _ (hxB y hy)]
    | nil =>
      have hwa : writeAdvance f o n =
          linkNext { f with highest := f.highest + 1,
                            nodes := setNode f.nodes (f.highest + 1) NodeRec.blank }
            o n (f.highest + 1) := by
        simp [writeAdvance, PagedFile.NextNode, hn0, PagedFile.NewNode, hfree]
      rw [hwa]
      rw [hfree] at hnd hb
      have hxn : f.highest + 1 ≠ n := by
        have := hb n (by simp)
        omega
      have hxB : ∀ y ∈ B, y ≠ f.highest + 1 := by
        intro y hy
        have := hb y (by simp [hy])
        omega
      have hnd1 : ((f.highest + 1) :: ([] ++ (f.free ++ (n :: B)))).Nodup := by
        simp only [List.nodup_cons, List.nodup_append, List.mem_append, List.mem_cons,
          List.cons_append, List.nil_append, hfree] at hnd ⊢
        refine ⟨?_, ?_⟩
        · rintro (h | h)
          · exact hxn h
          · exact hxB _ h rfl
        · simpa using hnd
      have hb1 : ∀ y ∈ (f.highest + 1) :: ([] ++ (f.free ++ (n :: B))), y ≤ f.highest + 1 := by
        intro y hy
        simp only [List.mem_append, List.mem_cons, List.cons_append, List.nil_append,
          hfree, List.not_mem_nil, false_or] at hy
        rcases hy with rfl | rfl | hy
        · exact le_refl _
        · have := hb y (by simp)
          omega
        · have := hb y (by simp [hy])
          omega
      have hc1 : Chain (setNode f.nodes (f.highest + 1) NodeRec.blank) (f.highest + 1) [] := by
        simp [Chain, NodeRec.blank]
      obtain ⟨h1, h2, h3, h4, h5, h6⟩ :=
        linkNext_spec
          (f := { f with highest := f.highest + 1,
                         nodes := setNode f.nodes (f.highest + 1) NodeRec.blank })
          (o := o) ndl hndl hc1 hnd1 hb1 (by simp [hfree])
      refine ⟨f.highest + 1, [], h1, h2, h3, by omega, ?_, ?_, h6⟩
      · rw [h4]
        simp [setNode_ne _ _ (Ne.symm hxn)]
      · intro y hy
        rw [h5 y hy]
        simp [setNode_ne _ _ (hxB y hy)]

theorem writeChunk_spec (ndl : Nat) {f : PagedFile} {o : Serialize} {n : Nat}
    {rest B : List Nat} (h : WInv ndl f o n rest B) (c : List Nat)
    (hc : o.offset + c.length ≤ ndl) :
    WInv ndl (f.WriteData c) { o with offset := o.offset + c.length } n rest B ∧
    Agree f (f.WriteData c) n o.offset B ∧
    (∀ i, i < c.length → ((f.WriteData c).nodes n).data (o.offset + i) = c.getD i 0) := by
  obtain ⟨hnode, hlo, hhi, hpn, hpo, hchain, hnd, hb, hz⟩ := h
  have hBn : ∀ x ∈ B, x ≠ n := by
    rintro x hx rfl
    simp [List.nodup_append] at hnd
    tauto
  have hrest : ∀ x ∈ rest, x ≠ n := by
    rintro x hx rfl
    simp [List.nodup_append] at hnd
    tauto
  refine ⟨⟨hnode, ?_, hc, hpn, ?_, ⟨?_, hnd, hb, hz⟩⟩, ⟨?_, ?_⟩, ?_⟩
  · show hdrSize ≤ o.offset + c.length
    omega
  · simp [PagedFile.WriteData, hpo]
  · refine Chain.congr rest n ?_ hchain
    intro x hx
    rcases List.mem_cons.1 hx with rfl | hx
    · simp [PagedFile.WriteData, hpn]
    · simp [PagedFile.WriteData, hpn, setNode_ne _ _ (hrest x hx)]
  · intro x hx
    simp [PagedFile.WriteData, hpn, setNode_ne _ _ (hBn x hx)]
  · intro i hi
    simp [PagedFile.WriteData, hpn, hpo, writeBytes_lt _ _ _ hi]
  · intro i hi
    simp [PagedFile.WriteData, hpn, hpo, writeBytes_at _ _ _ hi]

theorem readData_eq_take {g : PagedFile} {buf : List Nat} {len : Nat}
    (hlen : len ≤ buf.length)
    (h : ∀ i, i < len → (g.nodes g.posNode).data (g.posOff + i) = buf.getD i 0) :
    (g.ReadData len).1 = buf.take len := by
  apply List.ext_getElem
  · simp [PagedFile.ReadData, hlen]
  · intro i h1 h2
    simp only [PagedFile.ReadData, List.length_map, List.length_range] at h1
    have hb : i < buf.length := by omega
    simp [PagedFile.ReadData, h i h1, List.getElem?_eq_getElem hb]

/-- One pass of the read loop that starts inside a node (`off < ndl`). -/
theorem readLoop_chunk (ndl : Nat) {g : PagedFile} {r : Serialize} {n : Nat} {buf : List Nat}
    {k : Nat} (hnode : r.node = some n) (hoff : r.offset < ndl) (hbuf : buf.length ≠ 0)
    (hpn : g.posNode = n) (hpo : g.posOff = r.offset)
    (hdata : ∀ i, i < min buf.length (ndl - r.offset) →
      (g.nodes n).data (r.offset + i) = buf.getD i 0)
    {n' off' : Nat}
    (hrec : ReadsBack ndl { g with posOff := g.posOff + min buf.length (ndl - r.offset) }
      n (r.offset + min buf.length (ndl - r.offset))
      (buf.drop (min buf.length (ndl - r.offset))) n' off')
    (hk : buf.length < k + 1) :
    ∃ r2, readLoop ndl (k + 1) g r buf.length =
        some (buf, { g with posNode := n', posOff := off' }, r2) ∧
      r2.node = some n' ∧ r2.offset = off' ∧ SameObjR r r2 := by
  have hlen1 : 1 ≤ min buf.length (ndl - r.offset) := by
    have : 0 < buf.length := Nat.pos_of_ne_zero hbuf
    omega
  obtain ⟨r2, h1, h2, h3, h4⟩ :=
    hrec { r with offset := r.offset + min buf.length (ndl - r.offset) } k hnode rfl hpn
      (by simp [hpo]) (by simp only [List.length_drop]; omega)
  refine ⟨r2, ?_, h2, h3, ?_⟩
  · have hne : r.offset ≠ ndl := by omega
    have htake : (g.ReadData (min buf.length (ndl - r.offset))).1 =
        buf.take (min buf.length (ndl - r.offset)) := by
      apply readData_eq_take (Nat.min_le_left _ _)
      intro i hi
      rw [hpn, hpo]
      exact hdata i hi
    simp only [List.length_drop, hnode] at h1
    simp only [readLoop, hnode, hbuf, hne, if_false]
    rw [show (g.ReadData (min buf.length (ndl - r.offset))).2 =
      { g with posOff := g.posOff + min buf.length (ndl - r.offset) } from rfl, h1, htake]
    simp
  · unfold SameObjR at h4 ⊢
    rw [h4]

/-- One pass of the read loop that starts at the end of a node and moves to
the next node `n1` of the chain. -/
theorem readLoop_adv (ndl : Nat) (hndl : hdrSize < ndl) {g : PagedFile} {r : Serialize}
    {n n1 : Nat} {buf : List Nat} {k : Nat}
    (hnode : r.node = some n) (hoff : r.offset = ndl) (hbuf : buf.length ≠ 0)
    (hnext : (g.nodes n).next = n1) (hn1 : n1 ≠ 0)
    (hdata : ∀ i, i < min buf.length (ndl - hdrSize) →
      (g.nodes n1).data (hdrSize + i) = buf.getD i 0)
    {n' off' : Nat}
    (hrec : ReadsBack ndl
      { g with posNode := n1, posOff := hdrSize + min buf.length (ndl - hdrSize) }
      n1 (hdrSize + min buf.length (ndl - hdrSize))
      (buf.drop (min buf.length (ndl - hdrSize))) n' off')
    (hk : buf.length < k + 1) :
    ∃ r2, readLoop ndl (k + 1) g r buf.length =
        some (buf, { g with posNode := n', posOff := off' }, r2) ∧
      r2.node = some n' ∧ r2.offset = off' ∧ SameObjR r r2 := by
  have hlen1 : 1 ≤ min buf.length (ndl - hdrSize) := by
    have : 0 < buf.length := Nat.pos_of_ne_zero hbuf
    omega
  obtain ⟨r2, h1, h2, h3, h4⟩ :=
    hrec { (readAdvance g r n).2 with
            offset := hdrSize + min buf.length (ndl - hdrSize) } k
      (by simp [readAdvance, PagedFile.NextNode, hnext, hn1, ReadObjectHeader]) rfl rfl rfl
      (by simp only [List.length_drop]; omega)
  refine ⟨r2, ?_, h2, h3, ?_⟩
  · have hadv1 : (readAdvance g r n).1 = { g with posNode := n1, posOff := hdrSize } := by
      simp [readAdvance, PagedFile.NextNode, hnext, hn1, ReadObjectHeader, PagedFile.ReadData,
        PagedFile.openNode, PagedFile.Seek]
    have hadvn : (readAdvance g r n).2.node = some n1 := by
      simp [readAdvance, PagedFile.NextNode, hnext, hn1, ReadObjectHeader]
    have hadvo : (readAdvance g r n).2.offset = hdrSize := by
      simp [readAdvance, PagedFile.NextNode, hnext, hn1, ReadObjectHeader]
    have htake : (({ g with posNode := n1, posOff := hdrSize } : PagedFile).ReadData
        (min buf.length (ndl - hdrSize))).1 = buf.take (min buf.length (ndl - hdrSize)) := by
      apply readData_eq_take (Nat.min_le_left _ _)
      intro i hi
      exact hdata i hi
    simp only [List.length_drop, hadvn] at h1
    rw [readLoop]
    simp only [hnode, hbuf, hoff, if_true, if_false, hadvn, hadvo, hadv1]
    rw [show (({ g with posNode := n1, posOff := hdrSize } : PagedFile).ReadData
        (min buf.length (ndl - hdrSize))).2 =
      { g with posNode := n1, posOff := hdrSize + min buf.length (ndl - hdrSize) } from rfl,
      h1, htake]
    simp
  · unfold SameObjR at h4 ⊢
    rw [h4]
    simp [readAdvance, PagedFile.NextNode, hnext, hn1, ReadObjectHeader]

/-- The write loop after its optional move to the next node: the chunk that
fits is written and the loop goes on with the rest. -/
theorem writeLoop_tail (ndl k : Nat) (ih : WriteOK ndl k) {f1 : PagedFile} {o1 : Serialize}
    {n1 : Nat} {rest1 B1 : List Nat} (h1 : WInv ndl f1 o1 n1 rest1 B1)
    (hoff : o1.offset < ndl) (buf : List Nat) (hbuf : buf.length ≠ 0)
    (hk : buf.length < k + 1) :
    ∃ f' o' n' rest' B',
      writeLoop ndl k (f1.WriteData (buf.take (min buf.length (ndl - o1.offset))))
        { o1 with offset := o1.offset + min buf.length (ndl - o1.offset) }
        (buf.drop (min buf.length (ndl - o1.offset))) = some (f', o') ∧
      WInv ndl f' o' n' rest' B' ∧ Mono n1 o1.offset B1 n' o'.offset B' ∧
      Agree f1 f' n1 o1.offset B1 ∧ SameObj o1 o' ∧
      ∀ g, Agree f' g n' o'.offset B' →
        (∀ i, i < min buf.length (ndl - o1.offset) →
          (g.nodes n1).data (o1.offset + i) = buf.getD i 0) ∧
        ReadsBack ndl g n1 (o1.offset + min buf.length (ndl - o1.offset))
          (buf.drop (min buf.length (ndl - o1.offset))) n' o'.offset := by
  have hpos : 0 < buf.length := Nat.pos_of_ne_zero hbuf
  have hcl : (buf.take (min buf.length (ndl - o1.offset))).length =
      min buf.length (ndl - o1.offset) := by
    simp
  have hc : o1.offset + (buf.take (min buf.length (ndl - o1.offset))).length ≤ ndl := by
    rw [hcl]
    omega
  obtain ⟨hw, hag, hcell⟩ := writeChunk_spec ndl h1 _ hc
  rw [hcl] at hw
  obtain ⟨f', o', n', rest', B', e1, e2, e3, e4, e5, e6⟩ :=
    ih (buf.drop (min buf.length (ndl - o1.offset))) _ _ _ _ _
      (by simp only [List.length_drop]; omega) hw
  have hmono : Mono n1 o1.offset B1 n' o'.offset B' := by
    refine mono_trans ?_ e3
    exact ⟨fun _ hx => hx, Or.inl ⟨rfl, Nat.le_add_right _ _⟩⟩
  refine ⟨f', o', n', rest', B', e1, e2, hmono, ?_, ?_, ?_⟩
  · refine agree_trans hag (agree_mono ?_ e4)
    exact ⟨fun _ hx => hx, Or.inl ⟨rfl, Nat.le_add_right _ _⟩⟩
  · exact sameObj_trans (by simp [SameObj]) e5
  · intro g hg
    refine ⟨?_, e6 g hg⟩
    intro i hi
    have hg1 := agree_mono e3 hg
    have hi2 : o1.offset + i < o1.offset + min buf.length (ndl - o1.offset) := by omega
    rw [hg1.2 _ hi2, e4.2 _ hi2, hcell i (by rw [hcl]; exact hi)]
    rw [List.getD_eq_getElem?_getD, List.getD_eq_getElem?_getD, List.getElem?_take_of_lt hi]

theorem writeLoop_ok (ndl : Nat) (hndl : hdrSize < ndl) : ∀ fuel, WriteOK ndl fuel := by
  intro fuel
  induction fuel with
  | zero =>
    intro buf f o n rest B hk _
    omega
  | succ k ih =>
    intro buf f o n rest B hk h
    by_cases hbuf : buf.length = 0
    · refine ⟨f, o, n, rest, B, ?_, h, mono_refl _ _ _, agree_refl _ _ _ _, sameObj_refl _, ?_⟩
      · simp [writeLoop, h.node, hbuf]
      · intro g _ r fuel hn ho hpn hpo hfuel
        cases fuel with
        | zero => omega
        | succ j =>
          refine ⟨r, ?_, hn, ho, rfl⟩
          have hnil : buf = [] := List.length_eq_zero.1 hbuf
          subst hnil
          cases g
          simp only at hpn hpo
          subst hpn hpo
          simp [readLoop, hn]
    · by_cases hoff : o.offset = ndl
      · obtain ⟨n1, rest1, a1, a2, a3, a4, a5, a6, a7⟩ := writeAdvance_spec ndl (le_of_lt hndl) h
        have hoff1 : (writeAdvance f o n).2.offset < ndl := by rw [a2]; exact hndl
        obtain ⟨f', o', n', rest', B', e1, e2, e3, e4, e5, e6⟩ :=
          writeLoop_tail ndl k ih a1 hoff1 buf hbuf hk
        have hnB : n ∈ B' := e3.1 n (List.mem_cons_self _ _)
        refine ⟨f', o', n', rest', B', ?_, e2, ?_, ?_, sameObj_trans a7 e5, ?_⟩
        · rw [writeLoop]
          simp only [h.node, hbuf, hoff, if_true, if_false]
          exact e1
        · exact ⟨fun x hx => e3.1 x (List.mem_cons_of_mem _ hx), Or.inr hnB⟩
        · refine ⟨fun x hx => ?_, fun i _ => ?_⟩
          · rw [e4.1 x (List.mem_cons_of_mem _ hx), a6 x hx]
          · rw [e4.1 n (List.mem_cons_self _ _), a5]
        · intro g hg r fuel hn ho hpn hpo hfuel
          obtain ⟨hcell, hrb⟩ := e6 g hg
          rw [a2] at hcell hrb
          cases fuel with
          | zero => omega
          | succ j =>
            have hnext : (g.nodes n).next = n1 := by
              rw [hg.1 n hnB, e4.1 n (List.mem_cons_self _ _), a3]
            have hrb2 : ReadsBack ndl
                { g with posNode := n1, posOff := hdrSize + min buf.length (ndl - hdrSize) }
                n1 (hdrSize + min buf.length (ndl - hdrSize))
                (buf.drop (min buf.length (ndl - hdrSize))) n' o'.offset :=
              (e6 { g with posNode := n1,
                           posOff := hdrSize + min buf.length (ndl - hdrSize) } hg).2 |>
                fun t => by rw [a2] at t; exact t
            exact readLoop_adv ndl hndl hn (ho.trans hoff) hbuf hnext a4 hcell hrb2 hfuel
      · have hlt : o.offset < ndl := lt_of_le_of_ne h.hi hoff
        obtain ⟨f', o', n', rest', B', e1, e2, e3, e4, e5, e6⟩ :=
          writeLoop_tail ndl k ih h hlt buf hbuf hk
        refine ⟨f', o', n', rest', B', ?_, e2, e3, e4, e5, ?_⟩
        · rw [writeLoop]
          simp only [h.node] at e1
          simp only [h.node, hbuf, hoff, if_false]
          exact e1
        · intro g hg r fuel hn ho hpn hpo hfuel
          cases fuel with
          | zero => omega
          | succ j =>
            obtain ⟨hcell, _⟩ := e6 g hg
            have hrb2 :=
              (e6 { g with posOff := g.posOff + min buf.length (ndl - r.offset) } hg).2
            rw [← ho] at hrb2 hcell
            exact readLoop_chunk ndl hn (by rw [ho]; exact hlt) hbuf hpn (hpo.trans ho.symm)
              hcell hrb2 hfuel

theorem sameObjR_trans {a b c : Serialize} (h1 : SameObjR a b) (h2 : SameObjR b c) :
    SameObjR a c := by
  unfold SameObjR at *
  rw [h2, h1]

theorem writeAll_ok (ndl : Nat) (hndl : hdrSize < ndl) :
    ∀ (bufs : List (List Nat)) (f : PagedFile) (o : Serialize) (n : Nat) (rest B : List Nat),
      WInv ndl f o n rest B →
      ∃ f' o' n' rest' B', writeAll ndl f o bufs = some (f', o') ∧
        WInv ndl f' o' n' rest' B' ∧ Mono n o.offset B n' o'.offset B' ∧
        Agree f f' n o.offset B ∧ SameObj o o' ∧
        ∀ g, Agree f' g n' o'.offset B' → ReadsAllBack ndl g n o.offset bufs n' o'.offset := by
  intro bufs
  induction bufs with
  | nil =>
    intro f o n rest B h
    refine ⟨f, o, n, rest, B, rfl, h, mono_refl _ _ _, agree_refl _ _ _ _, sameObj_refl _, ?_⟩
    intro g _ r hn ho hpn hpo
    refine ⟨r, ?_, hn, ho, rfl⟩
    cases g
    simp only at hpn hpo
    subst hpn hpo
    simp [readAll]
  | cons b bs ih =>
    intro f o n rest B h
    obtain ⟨f1, o1, n1, rest1, B1, a1, a2, a3, a4, a5, a6⟩ :=
      writeLoop_ok ndl hndl (b.length + 1) b f o n rest B (Nat.lt_succ_self _) h
    obtain ⟨f', o', n', rest', B', e1, e2, e3, e4, e5, e6⟩ := ih f1 o1 n1 rest1 B1 a2
    refine ⟨f', o', n', rest', B', ?_, e2, mono_trans a3 e3, ?_, sameObj_trans a5 e5, ?_⟩
    · simp only [writeAll, EdsWriteObject, a1]
      exact e1
    · exact agree_trans a4 (agree_mono a3 e4)
    · intro g hg r hn ho hpn hpo
      have hg1 : Agree f1 g n1 o1.offset B1 := agree_trans e4 (agree_mono e3 hg)
      obtain ⟨r1, b1, b2, b3, b4⟩ := a6 g hg1 r (b.length + 1) hn ho hpn hpo (Nat.lt_succ_self _)
      obtain ⟨r2, c1, c2, c3, c4⟩ :=
        e6 { g with posNode := n1, posOff := o1.offset } hg r1 b2 b3 rfl rfl
      refine ⟨r2, ?_, c2, c3, sameObjR_trans b4 c4⟩
      simp only [readAll, EdsReadObject, List.map_cons, b1, c1]

theorem positionNode_ok {f : PagedFile} {o : Serialize} (hA : o.objectaddress ≠ 0) :
    (PositionNode f o).1 = { f with posNode := o.objectaddress, posOff := hdrSize } ∧
    (PositionNode f o).2.1 =
      { o with fileposNode := f.posNode, fileposOff := f.posOff,
               node := some o.objectaddress, offset := hdrSize } ∧
    (PositionNode f o).2.2 =
      decide ((ObjectHeader.ofBytes ((List.range hdrSize).map
          (fun i => (f.nodes o.objectaddress).data i))).ndnbr ≠ 0 ∨
        (ObjectHeader.ofBytes ((List.range hdrSize).map
          (fun i => (f.nodes o.objectaddress).data i))).classid ≠ o.objhdr.classid) := by
  simp [PositionNode, hA, PagedFile.ReadData, PagedFile.openNode, PagedFile.Seek]

/-- C1. Serializer byte round trip.  An object at address `A` (non-zero, with
a well-formed node chain: acyclic, ended by 0, disjoint from the free list) is
positioned at its first node by `PositionNode`, which leaves `offset =
sizeof(ObjectHeader)`.  Writing any buffers `bufs` in order with
`EdsWriteObject` returns; repositioning at `A` then succeeds, and reading with
`EdsReadObject` using the lengths of `bufs` returns exactly `bufs`. -/
theorem serializer_round_trip (ndl : Nat) (hndl : hdrSize < ndl) (f0 : PagedFile)
    (o0 : Serialize) (rest : List Nat) (bufs : List (List Nat))
    (hA : o0.objectaddress ≠ 0)
    (hwf : ChainWF f0 o0.objectaddress rest [])
    (hpos : (PositionNode f0 o0).2.2 = false) :
    ∃ f1 o1, writeAll ndl (PositionNode f0 o0).1 (PositionNode f0 o0).2.1 bufs = some (f1, o1) ∧
      o1.objectaddress = o0.objectaddress ∧ (PositionNode f1 o1).2.2 = false ∧
      ∃ g r, readAll ndl (PositionNode f1 o1).1 (PositionNode f1 o1).2.1
        (bufs.map List.length) = some (bufs, g, r) := by
  obtain ⟨p1, p2, p3⟩ := positionNode_ok (f := f0) hA
  have hw : WInv ndl (PositionNode f0 o0).1 (PositionNode f0 o0).2.1 o0.objectaddress rest [] := by
    rw [p1, p2]
    exact ⟨rfl, le_refl _, le_of_lt hndl, rfl, rfl, hwf.chain, hwf.nodup, hwf.bound, hwf.freenz⟩
  obtain ⟨f1, o1, n', rest', B', e1, e2, e3, e4, e5, e6⟩ := writeAll_ok ndl hndl bufs _ _ _ _ _ hw
  have haddr : o1.objectaddress = o0.objectaddress := by
    rw [e5, p2]
  have hcls : o1.objhdr.classid = o0.objhdr.classid := by
    rw [e5, p2]
  have hoff0 : (PositionNode f0 o0).2.1.offset = hdrSize := by rw [p2]
  have hA1 : o1.objectaddress ≠ 0 := by rw [haddr]; exact hA
  obtain ⟨q1, q2, q3⟩ := positionNode_ok (f := f1) hA1
  have hhdr : (List.range hdrSize).map (fun i => (f1.nodes o1.objectaddress).data i) =
      (List.range hdrSize).map (fun i => (f0.nodes o0.objectaddress).data i) := by
    apply List.map_congr_left
    intro i hi
    rw [haddr, e4.2 i (by rw [hoff0]; exact List.mem_range.1 hi), p1]
  refine ⟨f1, o1, e1, haddr, ?_, ?_⟩
  · rw [q3, hhdr, hcls, ← p3]
    exact hpos
  · have hg : Agree f1 (PositionNode f1 o1).1 n' o1.offset B' := by
      rw [q1]
      exact ⟨fun _ _ => rfl, fun _ _ => rfl⟩
    obtain ⟨r2, c1, _⟩ := e6 _ hg (PositionNode f1 o1).2.1
      (by rw [q2, haddr]) (by rw [q2, hoff0]) (by rw [q1, haddr]) (by rw [q1, hoff0])
    exact ⟨_, r2, c1⟩

/-- Witness of `serializer_round_trip`: two buffers of 3 and 6 bytes written
from node 1 of `sampleFile`, whose nodes hold 4 payload bytes each. -/
theorem serializer_round_trip_witness :
    hdrSize < 8 ∧ sampleObj.objectaddress ≠ 0 ∧
    ChainWF sampleFile sampleObj.objectaddress [] [] ∧
    (PositionNode sampleFile sampleObj).2.2 = false ∧
    ∃ f1 o1, writeAll 8 (PositionNode sampleFile sampleObj).1
        (PositionNode sampleFile sampleObj).2.1 [[1, 2, 3], [4, 5, 6, 7, 8, 9]] = some (f1, o1) ∧
      o1.objectaddress = sampleObj.objectaddress ∧ (PositionNode f1 o1).2.2 = false ∧
      ∃ g r, readAll 8 (PositionNode f1 o1).1 (PositionNode f1 o1).2.1
        ([[1, 2, 3], [4, 5, 6, 7, 8, 9]].map List.length) =
          some ([[1, 2, 3], [4, 5, 6, 7, 8, 9]], g, r) :=
  ⟨by decide, by decide, ⟨by decide, by decide, by decide, by decide⟩, by decide,
   serializer_round_trip 8 (by decide) sampleFile sampleObj [] [[1, 2, 3], [4, 5, 6, 7, 8, 9]]
     (by decide) ⟨by decide, by decide, by decide, by decide⟩ (by decide)⟩

/-! ## Node numbering -/

/-- C2. Node-chain numbering on update.  The one-node object at address 1 of
`sampleStore` is loaded by `ReadDataMembers`, which leaves `objhdr.ndnbr = 0`
and the object recorded.  Saved by `SaveObject` after its data member grew from
4 to 6 bytes (`grownStore`), it gets node 2 linked after node 1, and node 2,
the node of rank 1 of the chain, carries `nd_nbr = 0` instead of 1. -/
theorem grown_object_second_node_numbered_zero :
    (okState (ReadDataMembers 8 sampleStore 0)).map
        (fun d => ((d.heap 0).objhdr, (d.heap 0).objectaddress, (d.heap 0).members, d.objects)) =
      some ({ classid := 3, ndnbr := 0 }, 1, [[10, 11, 12, 13]], [0]) ∧
    (okState (SaveObject 8 ObjectExists 4 grownStore 0)).map
        (fun d => ((d.datafile.nodes 1).next, (GetObjectHeader d.datafile 1).1,
          (GetObjectHeader d.datafile 2).1, (d.datafile.nodes 2).next)) =
      some (2, { classid := 3, ndnbr := 0 }, { classid := 3, ndnbr := 0 }, 0) := by
  constructor <;> decide

/-! ## AddObject -/

theorem relLoop_sameFile (classes : List Class) (btrees : List EdsBtree) :
    ∀ (ks : List EdsKey) (u : Bool) (f : PagedFile) (r : Bool × PagedFile),
      relLoop classes btrees ks u f = .ok r → SameFile f r.2 := by
  intro ks
  induction ks with
  | nil =>
    intro u f r h
    simp only [relLoop, Except.ok.injEq] at h
    subst h
    exact ⟨rfl, rfl, rfl⟩
  | cons key ks ih =>
    intro u f r h
    have hg : ∀ oa, SameFile f (GetObjectHeader f oa).2 := fun oa => ⟨rfl, rfl, rfl⟩
    have tr : ∀ {a b c : PagedFile}, SameFile a b → SameFile b c → SameFile a c :=
      fun h1 h2 => ⟨h2.1.trans h1.1, h2.2.1.trans h1.2.1, h2.2.2.trans h1.2.2⟩
    rw [relLoop] at h
    split at h
    · split at h
      · exact ih _ _ _ h
      · rename_i oa _
        dsimp only at h
        split at h
        · split at h
          · exact absurd h (by simp)
          · split at h
            · split at h
              · exact tr (hg oa) (ih _ _ _ h)
              · exact tr (hg oa) (ih _ _ _ h)
            · exact tr (hg oa) (ih _ _ _ h)
        · exact tr (hg oa) (ih _ _ _ h)
    · split at h
      · split at h
        · exact ih _ _ _ h
        · exact ih _ _ _ h
      · exact ih _ _ _ h

theorem testRelationships_sameFile (ds : EDatastore) (o : Serialize) (r : Bool × PagedFile)
    (h : TestRelationships ds o = .ok r) : SameFile ds.datafile r.2 := by
  unfold TestRelationships at h
  split at h
  · simp only [Except.ok.injEq] at h
    subst h
    exact ⟨rfl, rfl, rfl⟩
  · split at h
    · simp only [Except.ok.injEq] at h
      subst h
      exact ⟨rfl, rfl, rfl⟩
    · exact relLoop_sameFile _ _ _ _ _ _ h

/-- C6. `AddObject` rejects without effect.  If `objectaddress ≠ 0`, or if the
object's primary key (its first key) is found in the B-tree that `FindIndex`
resolves for it, `AddObject` returns false, leaves the data file as it was (no
node is allocated) and leaves `objectaddress` unchanged.  When `AddObject`
returns true, `objectaddress` is the node number the allocator hands out on
the data file, that node is taken off the allocator, and the object is marked
new. -/
theorem addObject_rejects_without_effect (ds : EDatastore) (this : Nat) :
    ((ds.heap this).objectaddress ≠ 0 →
      ∃ ds', AddObject ds this = .ok (false, ds') ∧ ds'.datafile = ds.datafile ∧
        (ds'.heap this).objectaddress = (ds.heap this).objectaddress) ∧
    (∀ key rest j bt, (ds.heap this).keys = key :: rest →
      FindIndex ds (ds.heap this) (some key) = some j → ds.btrees[j]? = some bt →
      bt.Find key = true →
      ∃ ds', AddObject ds this = .ok (false, ds') ∧ ds'.datafile = ds.datafile ∧
        (ds'.heap this).objectaddress = (ds.heap this).objectaddress) ∧
    (∀ ds', AddObject ds this = .ok (true, ds') →
      (ds.heap this).objectaddress = 0 ∧
      (ds'.heap this).objectaddress = ds.datafile.NewNode.1 ∧
      ds'.datafile.highest = ds.datafile.NewNode.2.highest ∧
      ds'.datafile.free = ds.datafile.NewNode.2.free ∧
      (ds'.heap this).newobject = true) := by
  have hrej : (ds.heap this).objectaddress ≠ 0 →
      ∃ ds', AddObject ds this = .ok (false, ds') ∧ ds'.datafile = ds.datafile ∧
        (ds'.heap this).objectaddress = (ds.heap this).objectaddress := by
    intro h
    refine ⟨ds.setObj this { ds.heap this with newobject := false }, ?_, ?_, ?_⟩
    · simp only [AddObject, h, ne_eq, not_false_eq_true, if_true]
    · rfl
    · simp [EDatastore.setObj]
  refine ⟨hrej, ?_, ?_⟩
  · intro key rest j bt hkeys hfi hget hfind
    by_cases h : (ds.heap this).objectaddress = 0
    · have ht : TestRelationships ds (ds.heap this) = .ok (false, ds.datafile) := by
        simp [TestRelationships, hkeys, h, hfi, hget, hfind]
      refine ⟨{ ds with datafile := ds.datafile }.setObj this
        { ds.heap this with newobject := false }, ?_, ?_, ?_⟩
      · simp only [AddObject, h, ne_eq, not_true_eq_false, if_false, ht]
      · rfl
      · simp [EDatastore.setObj]
    · exact hrej h
  · intro ds' h
    unfold AddObject at h
    simp only at h
    split at h
    · simp at h
    · rename_i h0
      simp only [ne_eq, Decidable.not_not] at h0
      split at h
      · simp at h
      · simp at h
      · rename_i f ht
        have hs := testRelationships_sameFile _ _ _ ht
        simp only [Except.ok.injEq, Prod.mk.injEq, true_and] at h
        subst h
        have hfree : f.free = ds.datafile.free := hs.2.2
        have hhigh : f.highest = ds.datafile.highest := hs.2.1
        have hn : f.NewNode.1 = ds.datafile.NewNode.1 := by
          unfold PagedFile.NewNode
          rw [hfree, hhigh]
          cases ds.datafile.free <;> rfl
        have hh : f.NewNode.2.highest = ds.datafile.NewNode.2.highest := by
          unfold PagedFile.NewNode
          rw [hfree, hhigh]
          cases ds.datafile.free <;> simp [hhigh]
        have hf : f.NewNode.2.free = ds.datafile.NewNode.2.free := by
          unfold PagedFile.NewNode
          rw [hfree, hhigh]
          cases hx : ds.datafile.free <;> simp [hfree, hx]
        refine ⟨h0, ?_, ?_, ?_, ?_⟩
        · simp [EDatastore.setObj, WriteObjectHeader, hn]
        · simp [EDatastore.setObj, WriteObjectHeader, PagedFile.WriteData, PagedFile.openNode,
            PagedFile.Seek, hh]
        · simp [EDatastore.setObj, WriteObjectHeader, PagedFile.WriteData, PagedFile.openNode,
            PagedFile.Seek, hf]
        · simp [EDatastore.setObj, WriteObjectHeader]

/-- Witness of `addObject_rejects_without_effect`: in the sample library a
fresh book whose ISBN `AA` is already in the primary index of `Book` is
rejected, the loaded book (address 1) is rejected, and a fresh book `BB` is
accepted and gets node 3. -/
theorem addObject_rejects_without_effect_witness :
    (∃ ds', AddObject libStore 1 = .ok (false, ds') ∧ ds'.datafile = libStore.datafile ∧
        (ds'.heap 1).objectaddress = (libStore.heap 1).objectaddress) ∧
    (∃ ds', AddObject libStore 0 = .ok (false, ds') ∧ ds'.datafile = libStore.datafile ∧
        (ds'.heap 0).objectaddress = (libStore.heap 0).objectaddress) ∧
    (okTrue (AddObject libStore 2)).map
      (fun d => ((d.heap 2).objectaddress, (d.heap 2).newobject, d.datafile.highest)) =
      some (3, true, 3) :=
  ⟨(addObject_rejects_without_effect libStore 1).2.1
      { indexno := 0, bytes := [65, 65], fileaddr := 0, relatedclass := none, isObjAddr := false }
      [] 0 bookPrimary (by decide) (by decide) (by decide) (by decide),
   (addObject_rejects_without_effect libStore 0).1 (by decide),
   by decide⟩

/-! ## Relational integrity -/

/-- C5. Foreign-key check with the related class not registered.  `loanOfBB`
carries a non-null value-copied secondary key related to `Book`, and no book
has the ISBN `BB`.  In a session that has not registered `Book`
(`loanOnlyStore`) `TestRelationships` returns true; with the primary index of
`Book` among the B-trees (`libStore`'s) it returns false. -/
theorem testRelationships_accepts_unregistered_related_class :
    resultOf (TestRelationships loanOnlyStore loanOfBB) = some true ∧
    resultOf (TestRelationships { loanOnlyStore with btrees := libStore.btrees } loanOfBB) =
      some false := by
  constructor <;> decide

/-- C4. Delete of an object referred to by object address.  In `refStore` the
index `loanByBookAddr`, a secondary index whose key declares the related class
`Book`, holds an object-address key whose target is the address (1) of the
book `AA`; `DeleteObject` on that book nevertheless returns true.  Where the
same reference is a value-copied key (`libStore`), it returns false. -/
theorem deleteObject_misses_object_address_reference :
    resultOf (DeleteObject refStore 0) = some true ∧
    (refStore.heap 0).classname = bookName ∧ (refStore.heap 0).objectaddress = 1 ∧
    (refStore.heap 0).keys.map EdsKey.isNullValue = [false] ∧
    refStore.btrees[2]? = some loanByBookAddr ∧
    loanByBookAddr.indexno ≠ 0 ∧ loanByBookAddr.nullkey.relatedclass = some bookName ∧
    loanByBookAddr.nullkey.isObjAddr = true ∧
    (loanByBookAddr.entries.map (fun e => decodeLE e.1)) = [1] ∧
    resultOf (DeleteObject libStore 0) = some false := by
  refine ⟨by decide, by decide, by decide, by decide, by decide, by decide, by decide,
    by decide, by decide, by decide⟩

/-! ## What the serializer leaves of the object -/

theorem writeAdvance_sameObj (f : PagedFile) (o : Serialize) (nd : Nat) :
    SameObj o (writeAdvance f o nd).2 := rfl

theorem sameObj_setOffset (o : Serialize) (x : Nat) : SameObj o { o with offset := x } := rfl

theorem sameObjR_setOffset (o : Serialize) (x : Nat) : SameObjR o { o with offset := x } := rfl

theorem writeLoop_sameObj (ndl : Nat) :
    ∀ (fuel : Nat) (f : PagedFile) (o : Serialize) (buf : List Nat) (r : PagedFile × Serialize),
      writeLoop ndl fuel f o buf = some r → SameObj o r.2 := by
  intro fuel
  induction fuel with
  | zero =>
    intro f o buf r h
    simp [writeLoop] at h
  | succ k ih =>
    intro f o buf r h
    rw [writeLoop] at h
    split at h
    · simp only [Option.some.injEq] at h
      subst h
      exact sameObj_refl _
    · split at h
      · simp only [Option.some.injEq] at h
        subst h
        exact sameObj_refl _
      · rename_i nd _ _
        have h2 := ih _ _ _ _ h
        by_cases hoff : o.offset = ndl
        · simp only [hoff, if_true] at h2
          exact sameObj_trans (sameObj_trans (writeAdvance_sameObj f o nd)
            (sameObj_setOffset _ _)) h2
        · simp only [hoff, if_false] at h2
          exact sameObj_trans (sameObj_setOffset _ _) h2

theorem writeAll_sameObj (ndl : Nat) :
    ∀ (bufs : List (List Nat)) (f : PagedFile) (o : Serialize) (r : PagedFile × Serialize),
      writeAll ndl f o bufs = some r → SameObj o r.2 := by
  intro bufs
  induction bufs with
  | nil =>
    intro f o r h
    simp only [writeAll, Option.some.injEq] at h
    subst h
    exact sameObj_refl _
  | cons b bs ih =>
    intro f o r h
    simp only [writeAll, EdsWriteObject] at h
    split at h
    · simp at h
    · rename_i p hp
      exact sameObj_trans (writeLoop_sameObj ndl _ _ _ _ _ hp) (ih _ _ _ h)

theorem readAdvance_sameObjR (f : PagedFile) (o : Serialize) (nd : Nat) :
    SameObjR o (readAdvance f o nd).2 := by
  unfold readAdvance
  by_cases h : f.NextNode nd = 0
  · simp only [h, if_true]
    rfl
  · simp only [h, if_false]
    rfl

theorem readLoop_sameObjR (ndl : Nat) :
    ∀ (fuel : Nat) (f : PagedFile) (o : Serialize) (len : Nat)
      (r : List Nat × PagedFile × Serialize),
      readLoop ndl fuel f o len = some r → SameObjR o r.2.2 := by
  intro fuel
  induction fuel with
  | zero =>
    intro f o len r h
    simp [readLoop] at h
  | succ k ih =>
    intro f o len r h
    rw [readLoop] at h
    split at h
    · simp only [Option.some.injEq] at h
      subst h
      rfl
    · split at h
      · simp only [Option.some.injEq] at h
        subst h
        rfl
      · rename_i nd _ _
        have hp : SameObjR o (if o.offset = ndl then readAdvance f o nd else (f, o)).2 := by
          split
          · exact readAdvance_sameObjR f o nd
          · rfl
        dsimp only at h
        split at h
        · simp only [Option.some.injEq] at h
          subst h
          exact hp
        · split at h
          · simp at h
          · rename_i bs f2 o2 hrec
            simp only [Option.some.injEq] at h
            subst h
            exact sameObjR_trans (sameObjR_trans hp (sameObjR_setOffset _ _))
              (ih _ _ _ (bs, f2, o2) hrec)

theorem readAll_sameObjR (ndl : Nat) :
    ∀ (ls : List Nat) (f : PagedFile) (o : Serialize)
      (r : List (List Nat) × PagedFile × Serialize),
      readAll ndl f o ls = some r → SameObjR o r.2.2 := by
  intro ls
  induction ls with
  | nil =>
    intro f o r h
    simp only [readAll, Option.some.injEq] at h
    subst h
    rfl
  | cons l ls ih =>
    intro f o r h
    simp only [readAll, EdsReadObject] at h
    split at h
    · simp at h
    · rename_i b f1 o1 h1
      split at h
      · simp at h
      · rename_i bs f2 o2 h2
        simp only [Option.some.injEq] at h
        subst h
        exact sameObjR_trans (readLoop_sameObjR ndl _ _ _ _ (b, f1, o1) h1)
          (ih _ _ (bs, f2, o2) h2)

/-! ## The read loop returns -/

theorem readLoop_total (ndl : Nat) (hndl : hdrSize < ndl) :
    ∀ (fuel : Nat) (f : PagedFile) (o : Serialize) (len : Nat),
      o.offset ≤ ndl → len < fuel →
      ∃ r, readLoop ndl fuel f o len = some r ∧ r.2.2.offset ≤ ndl := by
  intro fuel
  induction fuel with
  | zero =>
    intro f o len _ h
    omega
  | succ k ih =>
    intro f o len ho hk
    rw [readLoop]
    split
    · exact ⟨_, rfl, ho⟩
    · split
      · exact ⟨_, rfl, ho⟩
      · rename_i nd hnode hlen
        have hp : (if o.offset = ndl then readAdvance f o nd else (f, o)).2.offset < ndl := by
          split
          · have : (readAdvance f o nd).2.offset = hdrSize := by
              unfold readAdvance
              by_cases h : f.NextNode nd = 0
              · simp only [h, if_true]
                rfl
              · simp only [h, if_false]
                rfl
            rw [this]
            exact hndl
          · rename_i hne
            exact lt_of_le_of_ne ho hne
        dsimp only
        split
        · exact ⟨_, rfl, le_of_lt hp⟩
        · obtain ⟨r, hr, hro⟩ := ih
            ((if o.offset = ndl then readAdvance f o nd else (f, o)).1.ReadData
              (min len (ndl - (if o.offset = ndl then readAdvance f o nd else (f, o)).2.offset))).2
            { (if o.offset = ndl then readAdvance f o nd else (f, o)).2 with
              offset := (if o.offset = ndl then readAdvance f o nd else (f, o)).2.offset +
                min len (ndl - (if o.offset = ndl then readAdvance f o nd else (f, o)).2.offset) }
            (len - min len (ndl - (if o.offset = ndl then readAdvance f o nd else (f, o)).2.offset))
            (by show _ + _ ≤ ndl; omega) (by omega)
          rw [hr]
          exact ⟨_, rfl, hro⟩

theorem readAll_total (ndl : Nat) (hndl : hdrSize < ndl) :
    ∀ (ls : List Nat) (f : PagedFile) (o : Serialize), o.offset ≤ ndl →
      ∃ r, readAll ndl f o ls = some r := by
  intro ls
  induction ls with
  | nil =>
    intro f o _
    exact ⟨_, rfl⟩
  | cons l ls ih =>
    intro f o ho
    obtain ⟨r, hr, hro⟩ := readLoop_total ndl hndl (l + 1) f o l ho (Nat.lt_succ_self _)
    obtain ⟨r2, hr2⟩ := ih r.2.1 r.2.2 hro
    simp only [readAll, EdsReadObject, hr, hr2]
    exact ⟨_, rfl⟩

/-! ## Identity uniqueness -/

theorem pairwise_record (a : Nat → Nat) (l : List Nat) (t : Nat)
    (hu : l.Pairwise (fun e e' => a e = a e' → a e = 0))
    (hn : ∀ e ∈ l, e ≠ t → a e ≠ a t ∨ a t = 0) :
    (l.erase t ++ [t]).Pairwise (fun e e' => a e = a e' → a e = 0) := by
  rw [List.pairwise_append]
  refine ⟨hu.sublist (List.erase_sublist t l), List.pairwise_singleton _ _, ?_⟩
  intro e he b hb heq
  rw [List.mem_singleton] at hb
  subst hb
  by_cases het : e = b
  · subst het
    have hmem : e ∈ l := List.mem_of_mem_erase he
    obtain ⟨l1, l2, hnot, hl, her⟩ := List.exists_erase_eq hmem
    rw [her] at he
    have he2 : e ∈ l2 := by
      rcases List.mem_append.1 he with h | h
      · exact absurd h hnot
      · exact h
    rw [hl, List.pairwise_append] at hu
    have := hu.2.1
    rw [List.pairwise_cons] at this
    exact this.1 e he2 rfl
  · rcases hn e (List.mem_of_mem_erase he) het with h | h
    · exact absurd heq h
    · rw [heq, h]

theorem unique_congr {ds ds' : EDatastore} (ho : ds'.objects = ds.objects)
    (ha : ∀ e, (ds'.heap e).objectaddress = (ds.heap e).objectaddress) (hu : Unique ds) :
    Unique ds' := by
  unfold Unique at *
  rw [ho]
  refine hu.imp ?_
  intro e e' h
  rw [ha e, ha e']
  exact h

theorem unique_record {ds : EDatastore} {this : Nat} (hu : Unique ds)
    (hn : ∀ e ∈ ds.objects, e ≠ this →
      (ds.heap e).objectaddress ≠ (ds.heap this).objectaddress ∨
      (ds.heap this).objectaddress = 0) :
    Unique (RecordObject ds this) := by
  have hp := pairwise_record (fun e => (ds.heap e).objectaddress) ds.objects this hu hn
  unfold Unique RecordObject
  refine hp.imp ?_
  intro e e' h
  have ha : ∀ x, (((({ ds with objects := ds.objects.erase this ++ [this] } : EDatastore).setObj
      this { ds.heap this with orgkeys := (ds.heap this).keys }).heap x).objectaddress) =
      (ds.heap x).objectaddress := by
    intro x
    simp only [EDatastore.setObj]
    split
    · rename_i hx
      rw [hx]
    · rfl
  rw [ha e, ha e']
  exact h

theorem unique_setObj {d : EDatastore} {this : Nat} {o : Serialize} (hu : Unique d)
    (ha : o.objectaddress = (d.heap this).objectaddress ∨ o.objectaddress = 0) :
    Unique (d.setObj this o) := by
  unfold Unique at *
  refine hu.imp ?_
  intro e e' h heq
  have key : ∀ x, ((d.setObj this o).heap x).objectaddress = (d.heap x).objectaddress ∨
      ((d.setObj this o).heap x).objectaddress = 0 := by
    intro x
    simp only [EDatastore.setObj]
    split
    · rename_i hx
      rw [hx]
      exact ha
    · exact Or.inl rfl
  rcases key e with h1 | h1
  · rcases key e' with h2 | h2
    · rw [h1, h2] at heq
      rw [h1]
      exact h heq
    · rw [heq, h2]
  · exact h1

theorem noOther_setObj {d : EDatastore} {this : Nat} {o : Serialize} (hn : NoOther d this)
    (ha : o.objectaddress = (d.heap this).objectaddress) :
    NoOther (d.setObj this o) this := by
  intro e he hne
  have h1 : ((d.setObj this o).heap e) = d.heap e := by
    simp [EDatastore.setObj, hne]
  have h2 : ((d.setObj this o).heap this) = o := by
    simp [EDatastore.setObj]
  rw [h1, h2, ha]
  exact hn e he hne

theorem setObj_datafile (ds : EDatastore) (this : Nat) (o : Serialize) :
    (ds.setObj this o).datafile = ds.datafile := rfl

theorem setObj_btrees (ds : EDatastore) (this : Nat) (o : Serialize) :
    (ds.setObj this o).btrees = ds.btrees := rfl

theorem setObj_rebuildnode (ds : EDatastore) (this : Nat) (o : Serialize) :
    (ds.setObj this o).rebuildnode = ds.rebuildnode := rfl

theorem setObj_objects (ds : EDatastore) (this : Nat) (o : Serialize) :
    (ds.setObj this o).objects = ds.objects := rfl

theorem setObj_heap_same (ds : EDatastore) (this : Nat) (o : Serialize) :
    (ds.setObj this o).heap this = o := by
  simp [EDatastore.setObj]

theorem setObj_heap_ne (ds : EDatastore) {this e : Nat} (o : Serialize) (h : e ≠ this) :
    (ds.setObj this o).heap e = ds.heap e := by
  simp [EDatastore.setObj, h]

theorem positionNode_addr (f : PagedFile) (o : Serialize) :
    (PositionNode f o).2.1.objectaddress = o.objectaddress := by
  unfold PositionNode
  dsimp only
  split <;> rfl

theorem objectOut_addr {ndl fuel : Nat} {f : PagedFile} {o : Serialize}
    {w : PagedFile × Serialize} (h : ObjectOut ndl fuel f o = .ok w) :
    w.2.objectaddress = o.objectaddress := by
  unfold ObjectOut at h
  split at h
  · simp at h
  · rename_i f1 o1 hw
    have hs := writeAll_sameObj ndl _ _ _ (f1, o1) hw
    split at h
    · simp at h
    · dsimp only at h
      split at h
      · simp at h
      · split at h
        · simp at h
        · simp only [Except.ok.injEq] at h
          subst h
          show o1.objectaddress = o.objectaddress
          unfold SameObj at hs
          simp only at hs
          rw [hs]

theorem addIndexes_addr {bts : List EdsBtree} {o : Serialize}
    {r : List EdsBtree × Serialize} (h : AddIndexes bts o = .ok r) :
    r.2.objectaddress = o.objectaddress := by
  unfold AddIndexes at h
  split at h
  · simp at h
  · simp only [Except.ok.injEq] at h
    subst h
    rfl

theorem updateIndexes_addr {bts : List EdsBtree} {o : Serialize}
    {r : List EdsBtree × Serialize} (h : UpdateIndexes bts o = .ok r) :
    r.2.objectaddress = o.objectaddress := by
  unfold UpdateIndexes at h
  split at h
  · simp at h
  · simp only [Except.ok.injEq] at h
    subst h
    rfl

theorem testDuplicate_none {ds : EDatastore} {this : Nat}
    (h : (TestDuplicateObject ds this).2 = none) :
    (TestDuplicateObject ds this).1 = ds ∧ NoOther ds this := by
  unfold TestDuplicateObject at h ⊢
  by_cases ha : (ds.heap this).objectaddress = 0
  · simp only [ha, ne_eq, not_true_eq_false, if_false]
    exact ⟨trivial, fun e _ _ => Or.inr ha⟩
  · simp only [ha, ne_eq, not_false_eq_true, if_true] at h ⊢
    split at h
    · simp at h
    · rename_i hf
      refine ⟨rfl, ?_⟩
      intro e he _
      rw [List.find?_eq_none] at hf
      have := hf e he
      simp only [beq_iff_eq] at this
      exact Or.inl this

theorem testDuplicate_unique {ds : EDatastore} {this : Nat} (hu : Unique ds) :
    Unique (TestDuplicateObject ds this).1 := by
  unfold TestDuplicateObject
  split
  · split
    · exact unique_setObj (unique_setObj hu (Or.inl rfl)) (Or.inl rfl)
    · exact hu
  · exact hu

theorem readDataMembers_unique (ndl : Nat) (ds : EDatastore) (this : Nat)
    (r : EDatastore × Option Exn) (h : ReadDataMembers ndl ds this = .ok r) (hu : Unique ds) :
    Unique r.1 := by
  unfold ReadDataMembers at h
  dsimp only at h
  split at h
  · simp only [Except.ok.injEq] at h
    subst h
    exact hu
  · split at h
    · simp only [Except.ok.injEq] at h
      subst h
      exact unique_setObj (d := { ds with datafile := _ }) hu (Or.inl (positionNode_addr _ _))
    · split at h
      · simp at h
      · rename_i bufs f2 o2 hread
        have hs := readAll_sameObjR ndl _ _ _ (bufs, f2, o2) hread
        have hao : o2.objectaddress = (ds.heap this).objectaddress := by
          unfold SameObjR at hs
          simp only at hs
          rw [hs]
          exact positionNode_addr _ _
        have hu3 : Unique (({ ds with datafile := f2 } : EDatastore).setObj this
            { o2 with members := bufs, node := none }) :=
          unique_setObj (d := { ds with datafile := f2 }) hu (Or.inl hao)
        split at h
        · simp only [Except.ok.injEq] at h
          subst h
          exact testDuplicate_unique hu3
        · rename_i hnone
          simp only [Except.ok.injEq] at h
          subst h
          obtain ⟨heq, hno⟩ := testDuplicate_none hnone
          rw [heq]
          exact unique_record hu3 hno

theorem saveObject_unique (ndl : Nat) (objectExists : EDatastore → Nat → Bool) (fuel : Nat)
    (ds : EDatastore) (this : Nat) (r : EDatastore × Option Exn)
    (h : SaveObject ndl objectExists fuel ds this = .ok r) (hu : Unique ds)
    (hn : NoOther ds this) : Unique r.1 := by
  have hu1 : Unique (ds.setObj this { ds.heap this with saved := true }) :=
    unique_setObj hu (Or.inl rfl)
  have hn1 : NoOther (ds.setObj this { ds.heap this with saved := true }) this :=
    noOther_setObj hn rfl
  have ha1 : ((ds.setObj this { ds.heap this with saved := true }).heap this).objectaddress =
      (ds.heap this).objectaddress := by
    rw [setObj_heap_same]
  unfold SaveObject at h
  dsimp only at h
  generalize ds.setObj this { ds.heap this with saved := true } = d at hu1 hn1 ha1 h
  split at h
  · split at h
    · simp at h
    · rename_i r1 hr1
      simp only [Except.ok.injEq] at h
      subst h
      exact unique_setObj (d := { d with btrees := _ }) hu1 (Or.inl (addIndexes_addr hr1))
  · split at h
    · split at h
      · split at h
        · simp at h
        · rename_i r1 hr1
          split at h
          · simp only [Except.ok.injEq] at h
            subst h
            exact unique_setObj (d := { d with btrees := _, datafile := _ }) hu1
              (Or.inl ((positionNode_addr _ _).trans (addIndexes_addr hr1)))
          · split at h
            · simp at h
            · rename_i w hw
              simp only [Except.ok.injEq] at h
              subst h
              have hwa : w.2.objectaddress = (d.heap this).objectaddress :=
                (objectOut_addr hw).trans
                  ((positionNode_addr _ _).trans (addIndexes_addr hr1))
              refine unique_setObj ?_ (Or.inl rfl)
              refine unique_record
                (unique_setObj (d := { d with btrees := _, datafile := _ }) hu1 (Or.inl hwa)) ?_
              exact noOther_setObj (d := { d with btrees := _, datafile := _ }) hn1 hwa
      · simp only [Except.ok.injEq] at h
        subst h
        exact unique_setObj hu1 (Or.inl rfl)
    · split at h
      · split at h
        · simp only [Except.ok.injEq] at h
          subst h
          exact unique_setObj (d := { d with datafile := _ }) hu1
            (Or.inl (positionNode_addr _ _))
        · split at h
          · split at h
            · simp at h
            · split at h
              · simp at h
              · simp only [Except.ok.injEq] at h
                subst h
                exact unique_setObj (d := { d with btrees := _, datafile := _ }) hu1
                  (Or.inr rfl)
          · split at h
            · simp at h
            · rename_i w hw
              split at h
              · simp at h
              · rename_i r1 hr1
                simp only [Except.ok.injEq] at h
                subst h
                have hwa : r1.2.objectaddress = (d.heap this).objectaddress :=
                  (updateIndexes_addr hr1).trans
                    ((objectOut_addr hw).trans (positionNode_addr _ _))
                refine unique_setObj (d := { RecordObject _ this with datafile := _ }) ?_
                  (Or.inl rfl)
                refine unique_record
                  (unique_setObj (d := { d with btrees := _, datafile := _ }) hu1
                    (Or.inl hwa)) ?_
                exact noOther_setObj (d := { d with btrees := _, datafile := _ }) hn1 hwa
      · simp only [Except.ok.injEq] at h
        subst h
        exact unique_setObj hu1 (Or.inl rfl)

theorem unique_eq_of_addr {ds : EDatastore} (hu : Unique ds) {a b : Nat}
    (ha : a ∈ ds.objects) (hb : b ∈ ds.objects)
    (hab : (ds.heap a).objectaddress = (ds.heap b).objectaddress)
    (hnz : (ds.heap b).objectaddress ≠ 0) : a = b := by
  by_contra hne
  have hsym : Symmetric (fun e e' => (ds.heap e).objectaddress = (ds.heap e').objectaddress →
      (ds.heap e).objectaddress = 0) := by
    intro x y hxy hyx
    rw [hyx]
    exact hxy hyx.symm
  have := List.Pairwise.forall hsym hu ha hb hne hab
  exact hnz (hab ▸ this)

theorem readDataMembers_duplicate (ndl : Nat) (hndl : hdrSize < ndl) (ds : EDatastore)
    (this e : Nat) (hA : (ds.heap this).objectaddress ≠ 0)
    (hpos : (PositionNode ds.datafile (ds.heap this)).2.2 = false)
    (he : e ∈ ds.objects)
    (hea : (ds.heap e).objectaddress = (ds.heap this).objectaddress)
    (hu : Unique ds) (hthis : this ∉ ds.objects) :
    ∃ ds', ReadDataMembers ndl ds this = .ok (ds', some (Exn.Duplicate e)) ∧
      (ds'.heap e).instances = (ds.heap e).instances + 1 ∧
      ds'.objects = ds.objects ∧ this ∉ ds'.objects := by
  have hne : e ≠ this := fun h => hthis (h ▸ he)
  obtain ⟨_, p2, _⟩ := positionNode_ok (f := ds.datafile) hA
  have hoff : (PositionNode ds.datafile (ds.heap this)).2.1.offset ≤ ndl := by
    rw [p2]
    exact le_of_lt hndl
  obtain ⟨⟨bufs, f2, o2⟩, hread⟩ := readAll_total ndl hndl
    ((ds.heap this).members.map List.length) (PositionNode ds.datafile (ds.heap this)).1
    (PositionNode ds.datafile (ds.heap this)).2.1 hoff
  have hs := readAll_sameObjR ndl _ _ _ (bufs, f2, o2) hread
  have hao : o2.objectaddress = (ds.heap this).objectaddress := by
    unfold SameObjR at hs
    simp only at hs
    rw [hs]
    exact positionNode_addr _ _
  obtain ⟨ds3, hds3⟩ : ∃ d : EDatastore, d = ({ ds with datafile := f2 } : EDatastore).setObj this
      { o2 with members := bufs, node := none } := ⟨_, rfl⟩
  have h3this : (ds3.heap this).objectaddress = (ds.heap this).objectaddress := by
    rw [hds3, setObj_heap_same]
    exact hao
  have h3other : ∀ x, x ≠ this → ds3.heap x = ds.heap x := by
    intro x hx
    rw [hds3]
    exact setObj_heap_ne _ _ hx
  have h3obj : ds3.objects = ds.objects := by rw [hds3]; rfl
  have hfind : (ds3.objects.find? (fun x =>
      (ds3.heap x).objectaddress == (ds3.heap this).objectaddress)) = some e := by
    rw [h3obj]
    cases hf : ds.objects.find? _ with
    | none =>
      rw [List.find?_eq_none] at hf
      have := hf e he
      rw [h3other e hne, h3this] at this
      simp [hea] at this
    | some e0 =>
      have hm := List.mem_of_find?_eq_some hf
      have hp := List.find?_some hf
      have hne0 : e0 ≠ this := fun h => hthis (h ▸ hm)
      rw [h3other e0 hne0, h3this, beq_iff_eq] at hp
      have : e0 = e := unique_eq_of_addr hu hm he (hp.trans hea.symm) (by rw [hea]; exact hA)
      rw [this]
  have htd : TestDuplicateObject ds3 this =
      ((ds3.setObj e { ds3.heap e with instances := (ds3.heap e).instances + 1 }).setObj this
        { (ds3.setObj e { ds3.heap e with instances := (ds3.heap e).instances + 1 }).heap this
          with saved := true }, some (Exn.Duplicate e)) := by
    unfold TestDuplicateObject
    rw [if_pos (by rw [h3this]; exact hA), hfind]
  refine ⟨(ds3.setObj e { ds3.heap e with instances := (ds3.heap e).instances + 1 }).setObj this
        { (ds3.setObj e { ds3.heap e with instances := (ds3.heap e).instances + 1 }).heap this
          with saved := true }, ?_, ?_, ?_, ?_⟩
  · unfold ReadDataMembers
    dsimp only
    rw [if_neg hA, hpos]
    simp only [Bool.false_eq_true, if_false, hread]
    rw [← hds3, htd]
  · rw [setObj_heap_ne _ _ hne, setObj_heap_same, h3other e hne]
  · exact h3obj
  · show this ∉ ds3.objects
    rw [h3obj]
    exact hthis

/-- C9, as stated, fails for the new path of `SaveObject`.  In `dupStore` the
list of instantiated objects is `[0]` and satisfies identity uniqueness;
object 1 is marked new and has the address (1) of object 0.  `SaveObject` on
object 1 records it: the list becomes `[0, 1]`, both entries with address 1. -/
theorem saveObject_new_records_second_instance :
    Unique dupStore ∧ (dupStore.heap 1).newobject = true ∧
    (okState (SaveObject 8 ObjectExists 4 dupStore 1)).map
        (fun d => (d.objects, d.objects.map (fun e => (d.heap e).objectaddress),
          decide (Unique d))) =
      some ([0, 1], [1, 1], false) := by
  refine ⟨by decide, by decide, by decide⟩

/-- C9, amended.  Identity uniqueness (no two distinct entries of the list of
instantiated objects share a non-zero object address) is preserved by every
`ReadDataMembers` that returns or throws, and by every `SaveObject` that
returns or throws provided no other instantiated object already has the
address of the saved object.  When an object not in the list is materialized
at a valid non-zero address that the entry `e` of the list has, `e` is thrown
to the caller with its instance count increased by exactly 1, and the list is
left as it was: the freshly read object is not added. -/
theorem identity_uniqueness (ndl : Nat) (hndl : hdrSize < ndl)
    (objectExists : EDatastore → Nat → Bool) (fuel : Nat) (ds : EDatastore) (this : Nat) :
    (∀ r, ReadDataMembers ndl ds this = .ok r → Unique ds → Unique r.1) ∧
    (∀ r, SaveObject ndl objectExists fuel ds this = .ok r → Unique ds → NoOther ds this →
      Unique r.1) ∧
    (∀ e, (ds.heap this).objectaddress ≠ 0 →
      (PositionNode ds.datafile (ds.heap this)).2.2 = false →
      e ∈ ds.objects → (ds.heap e).objectaddress = (ds.heap this).objectaddress →
      Unique ds → this ∉ ds.objects →
      ∃ ds', ReadDataMembers ndl ds this = .ok (ds', some (Exn.Duplicate e)) ∧
        (ds'.heap e).instances = (ds.heap e).instances + 1 ∧
        ds'.objects = ds.objects ∧ this ∉ ds'.objects) :=
  ⟨fun r h hu => readDataMembers_unique ndl ds this r h hu,
   fun r h hu hn => saveObject_unique ndl objectExists fuel ds this r h hu hn,
   fun e hA hpos he hea hu hthis =>
     readDataMembers_duplicate ndl hndl ds this e hA hpos he hea hu hthis⟩

/-- Witness of `identity_uniqueness`: in `grownStore` the one instantiated
object is saved through the dirty path, and in `dupStore` object 2 is
materialized at the address of the instantiated object 0. -/
theorem identity_uniqueness_witness :
    hdrSize < 8 ∧ Unique grownStore ∧ NoOther grownStore 0 ∧
    (okState (SaveObject 8 ObjectExists 4 grownStore 0)).isSome = true ∧
    (∀ r, SaveObject 8 ObjectExists 4 grownStore 0 = .ok r → Unique r.1) ∧
    (∃ ds', ReadDataMembers 8 dupStore 2 = .ok (ds', some (Exn.Duplicate 0)) ∧
        (ds'.heap 0).instances = (dupStore.heap 0).instances + 1 ∧
        ds'.objects = dupStore.objects ∧ 2 ∉ ds'.objects) :=
  ⟨by decide, by decide, by decide, by decide,
   fun r h => (identity_uniqueness 8 (by decide) ObjectExists 4 grownStore 0).2.1 r h
     (by decide) (by decide),
   (identity_uniqueness 8 (by decide) ObjectExists 4 dupStore 2).2.2 0
     (by decide) (by decide) (by decide) (by decide) (by decide) (by decide)⟩

/-! ## Lemmas on the collected B-trees -/

theorem getElem?_modifyAt_same {α : Type} (g : α → α) :
    ∀ (j : Nat) (xs : List α), (modifyAt g j xs)[j]? = (xs[j]?).map g
  | _, [] => by simp [modifyAt]
  | 0, x :: xs => by simp [modifyAt]
  | j + 1, x :: xs => by
    simp only [modifyAt, List.getElem?_cons_succ]
    exact getElem?_modifyAt_same g j xs

theorem getElem?_modifyAt_ne {α : Type} (g : α → α) :
    ∀ (j i : Nat) (xs : List α), i ≠ j → (modifyAt g j xs)[i]? = xs[i]?
  | _, _, [], _ => by simp [modifyAt]
  | 0, 0, _ :: _, h => absurd rfl h
  | 0, i + 1, x :: xs, _ => by simp [modifyAt]
  | j + 1, 0, x :: xs, _ => by simp [modifyAt]
  | j + 1, i + 1, x :: xs, h => by
    simp only [modifyAt, List.getElem?_cons_succ]
    exact getElem?_modifyAt_ne g j i xs (fun h' => h (by rw [h']))

theorem findIdx?_modifyAt {α : Type} (p : α → Bool) (g : α → α) (hg : ∀ x, p (g x) = p x) :
    ∀ (j : Nat) (xs : List α) (i : Nat),
      (modifyAt g j xs).findIdx? p i = xs.findIdx? p i
  | _, [], _ => by simp [modifyAt]
  | 0, x :: xs, i => by simp [modifyAt, hg]
  | j + 1, x :: xs, i => by
    simp only [modifyAt, List.findIdx?_cons]
    rw [findIdx?_modifyAt p g hg j xs (i + 1)]

theorem findBtree_modifyAt (g : EdsBtree → EdsBtree)
    (hg : ∀ b, (g b).classname = b.classname ∧ (g b).indexno = b.indexno)
    (j : Nat) (bts : List EdsBtree) (cn : List Nat) (i : Nat) :
    findBtree (modifyAt g j bts) cn i = findBtree bts cn i := by
  unfold findBtree
  apply findIdx?_modifyAt
  intro b
  rw [(hg b).1, (hg b).2]

theorem findBtree_some {bts : List EdsBtree} {cn : List Nat} {i j : Nat}
    (h : findBtree bts cn i = some j) :
    ∃ bt, bts[j]? = some bt ∧ bt.classname = cn ∧ bt.indexno = i := by
  unfold findBtree at h
  have := List.findIdx?_of_eq_some h
  split at this
  · rename_i bt hbt
    simp only [Bool.and_eq_true, beq_iff_eq] at this
    exact ⟨bt, hbt, this.1, this.2⟩
  · simp at this

theorem insert_meta (k : EdsKey) (b : EdsBtree) :
    (b.Insert k).classname = b.classname ∧ (b.Insert k).indexno = b.indexno := by
  unfold EdsBtree.Insert
  split <;> exact ⟨rfl, rfl⟩

theorem delete_meta (k : EdsKey) (b : EdsBtree) :
    (b.Delete k).classname = b.classname ∧ (b.Delete k).indexno = b.indexno := ⟨rfl, rfl⟩

theorem mem_insert (k : EdsKey) (b : EdsBtree) (e : List Nat × Nat) :
    e ∈ (b.Insert k).entries ↔ e ∈ b.entries ∨ e = (k.bytes, k.fileaddr) := by
  unfold EdsBtree.Insert
  split
  · rename_i h
    constructor
    · exact Or.inl
    · rintro (h1 | h1)
      · exact h1
      · rw [h1]; exact h
  · simp

theorem mem_delete (k : EdsKey) (b : EdsBtree) (e : List Nat × Nat) :
    e ∈ (b.Delete k).entries ↔ e ∈ b.entries ∧ e ≠ (k.bytes, k.fileaddr) := by
  simp [EdsBtree.Delete, List.mem_filter]

theorem entriesAt_modifyAt_same (g : EdsBtree → EdsBtree) (j : Nat) (bts : List EdsBtree)
    (bt : EdsBtree) (h : bts[j]? = some bt) :
    entriesAt (modifyAt g j bts) j = (g bt).entries := by
  simp [entriesAt, getElem?_modifyAt_same, h]

theorem entriesAt_modifyAt_ne (g : EdsBtree → EdsBtree) {j i : Nat} (bts : List EdsBtree)
    (h : i ≠ j) : entriesAt (modifyAt g j bts) i = entriesAt bts i := by
  simp [entriesAt, getElem?_modifyAt_ne g j i bts h]

theorem entriesAt_insert (k : EdsKey) (j0 : Nat) (bts : List EdsBtree) (bt : EdsBtree)
    (hbt : bts[j0]? = some bt) (j : Nat) (e : List Nat × Nat) :
    e ∈ entriesAt (modifyAt (fun b => b.Insert k) j0 bts) j ↔
      e ∈ entriesAt bts j ∨ (j = j0 ∧ e = (k.bytes, k.fileaddr)) := by
  by_cases hj : j = j0
  · subst hj
    rw [entriesAt_modifyAt_same _ _ _ _ hbt, mem_insert]
    simp [entriesAt, hbt]
  · rw [entriesAt_modifyAt_ne _ _ hj]
    simp [hj]

theorem entriesAt_delete (k : EdsKey) (j0 : Nat) (bts : List EdsBtree) (bt : EdsBtree)
    (hbt : bts[j0]? = some bt) (j : Nat) (e : List Nat × Nat) :
    e ∈ entriesAt (modifyAt (fun b => b.Delete k) j0 bts) j ↔
      e ∈ entriesAt bts j ∧ ¬ (j = j0 ∧ e = (k.bytes, k.fileaddr)) := by
  by_cases hj : j = j0
  · subst hj
    rw [entriesAt_modifyAt_same _ _ _ _ hbt, mem_delete]
    simp [entriesAt, hbt]
  · rw [entriesAt_modifyAt_ne _ _ hj]
    simp [hj]

theorem addIndexesLoop_spec (cn : List Nat) (A : Nat) :
    ∀ (ks : List EdsKey) (bts : List EdsBtree) (r : List EdsKey × List EdsBtree),
      addIndexesLoop cn A ks bts = .ok r →
      (∀ cn' i', findBtree r.2 cn' i' = findBtree bts cn' i') ∧
      (∀ j e, e ∈ entriesAt r.2 j ↔ e ∈ entriesAt bts j ∨
        ∃ k ∈ ks, k.isNullValue = false ∧ findBtree bts cn k.indexno = some j ∧
          e = (k.bytes, A)) := by
  intro ks
  induction ks with
  | nil =>
    intro bts r h
    simp only [addIndexesLoop, Except.ok.injEq] at h
    subst h
    simp
  | cons k ks ih =>
    intro bts r h
    rw [addIndexesLoop] at h
    split at h
    · rename_i hnull
      split at h
      · simp at h
      · rename_i r1 hr1
        simp only [Except.ok.injEq] at h
        subst h
        obtain ⟨h1, h2⟩ := ih bts r1 hr1
        refine ⟨h1, ?_⟩
        intro j e
        rw [h2 j e]
        simp [hnull]
    · rename_i hnull
      split at h
      · simp at h
      · rename_i j0 hj0
        split at h
        · simp at h
        · rename_i r1 hr1
          simp only [Except.ok.injEq] at h
          subst h
          obtain ⟨h1, h2⟩ := ih _ r1 hr1
          have hstab : ∀ cn' i', findBtree
              (modifyAt (fun bt => bt.Insert { k with fileaddr := A }) j0 bts) cn' i' =
              findBtree bts cn' i' :=
            fun cn' i' => findBtree_modifyAt _ (fun b => insert_meta _ b) _ _ _ _
          obtain ⟨bt0, hbt0, _, _⟩ := findBtree_some hj0
          refine ⟨fun cn' i' => (h1 cn' i').trans (hstab cn' i'), ?_⟩
          intro j e
          rw [h2 j e, entriesAt_insert _ _ _ _ hbt0]
          simp only [hstab, List.mem_cons, exists_eq_or_imp]
          have hn : k.isNullValue = false := by simpa using hnull
          simp only [hn, true_and, hj0, Option.some.injEq]
          constructor
          · rintro ((h | ⟨h, h'⟩) | h)
            · exact Or.inl h
            · exact Or.inr (Or.inl ⟨h.symm, h'⟩)
            · exact Or.inr (Or.inr h)
          · rintro (h | ⟨h, h'⟩ | h)
            · exact Or.inl (Or.inl h)
            · exact Or.inl (Or.inr ⟨h.symm, h'⟩)
            · exact Or.inr h

theorem deleteIndexesLoop_spec (cn : List Nat) (A : Nat) :
    ∀ (ks : List EdsKey) (bts : List EdsBtree) (r : List EdsKey × List EdsBtree),
      deleteIndexesLoop cn A ks bts = .ok r →
      (∀ cn' i', findBtree r.2 cn' i' = findBtree bts cn' i') ∧
      (∀ j e, e ∈ entriesAt r.2 j ↔ e ∈ entriesAt bts j ∧
        ¬ ∃ k ∈ ks, k.isNullValue = false ∧ findBtree bts cn k.indexno = some j ∧
          e = (k.bytes, A)) := by
  intro ks
  induction ks with
  | nil =>
    intro bts r h
    simp only [deleteIndexesLoop, Except.ok.injEq] at h
    subst h
    simp
  | cons k ks ih =>
    intro bts r h
    rw [deleteIndexesLoop] at h
    split at h
    · rename_i hnull
      split at h
      · simp at h
      · rename_i r1 hr1
        simp only [Except.ok.injEq] at h
        subst h
        obtain ⟨h1, h2⟩ := ih bts r1 hr1
        refine ⟨h1, ?_⟩
        intro j e
        rw [h2 j e]
        simp [hnull]
    · rename_i hnull
      split at h
      · simp at h
      · rename_i j0 hj0
        split at h
        · simp at h
        · rename_i r1 hr1
          simp only [Except.ok.injEq] at h
          subst h
          obtain ⟨h1, h2⟩ := ih _ r1 hr1
          have hstab : ∀ cn' i', findBtree
              (modifyAt (fun bt => bt.Delete { k with fileaddr := A }) j0 bts) cn' i' =
              findBtree bts cn' i' :=
            fun cn' i' => findBtree_modifyAt _ (fun b => delete_meta _ b) _ _ _ _
          obtain ⟨bt0, hbt0, _, _⟩ := findBtree_some hj0
          refine ⟨fun cn' i' => (h1 cn' i').trans (hstab cn' i'), ?_⟩
          intro j e
          rw [h2 j e, entriesAt_delete _ _ _ _ hbt0]
          simp only [hstab, List.mem_cons, exists_eq_or_imp]
          have hn : k.isNullValue = false := by simpa using hnull
          simp only [hn, true_and, hj0, Option.some.injEq]
          constructor
          · rintro ⟨⟨h, h'⟩, h''⟩
            refine ⟨h, ?_⟩
            rintro (⟨hj, he⟩ | hx)
            · exact h' ⟨hj.symm, he⟩
            · exact h'' hx
          · rintro ⟨h, h'⟩
            refine ⟨⟨h, ?_⟩, fun hx => h' (Or.inr hx)⟩
            rintro ⟨hj, he⟩
            exact h' (Or.inl ⟨hj.symm, he⟩)

theorem deleteIndexesLoop_ok (cn : List Nat) (A : Nat) :
    ∀ (ks : List EdsKey) (bts : List EdsBtree),
      (∀ k ∈ ks, k.isNullValue = false → findBtree bts cn k.indexno ≠ none) →
      ∃ r, deleteIndexesLoop cn A ks bts = .ok r := by
  intro ks
  induction ks with
  | nil =>
    intro bts _
    exact ⟨_, rfl⟩
  | cons k ks ih =>
    intro bts h
    rw [deleteIndexesLoop]
    by_cases hnull : k.isNullValue = true
    · obtain ⟨r, hr⟩ := ih bts (fun k' hk' => h k' (List.mem_cons_of_mem _ hk'))
      simp only [hnull, if_true, hr]
      exact ⟨_, rfl⟩
    · have hn : k.isNullValue = false := by simpa using hnull
      cases hj : findBtree bts cn k.indexno with
      | none => exact absurd hj (h k (List.mem_cons_self _ _) hn)
      | some j0 =>
        obtain ⟨r, hr⟩ := ih (modifyAt (fun bt => bt.Delete { k with fileaddr := A }) j0 bts)
          (fun k' hk' hn' => by
            rw [findBtree_modifyAt _ (fun b => delete_meta _ b)]
            exact h k' (List.mem_cons_of_mem _ hk') hn')
        simp only [hn, Bool.false_eq_true, if_false, hr]
        exact ⟨_, rfl⟩

/-! ## Flush of a deleted-pending object -/

theorem deleteChain_spec :
    ∀ (rest : List Nat) (f : PagedFile) (n fuel : Nat),
      Chain f.nodes n rest → rest.length < fuel →
      ∃ f', deleteChain fuel f (some n) = some f' ∧
        (∀ x ∈ n :: rest, (f'.nodes x).deleted = true) ∧
        (∀ x, (f.nodes x).deleted = true → (f'.nodes x).deleted = true) := by
  intro rest
  induction rest with
  | nil =>
    intro f n fuel hc hf
    cases fuel with
    | zero => simp at hf
    | succ k =>
      have hn : (f.nodes n).next = 0 := hc
      refine ⟨f.MarkNodeDeleted n, ?_, ?_, ?_⟩
      · rw [deleteChain]
        simp only [PagedFile.NextNode, PagedFile.MarkNodeDeleted, setNode_same, hn, if_true]
        rw [deleteChain]
      · intro x hx
        simp only [List.mem_singleton] at hx
        subst hx
        simp [PagedFile.MarkNodeDeleted]
      · intro x hx
        by_cases hxn : x = n
        · subst hxn
          simp [PagedFile.MarkNodeDeleted]
        · simp [PagedFile.MarkNodeDeleted, setNode_ne _ _ hxn, hx]
  | cons m rest ih =>
    intro f n fuel hc hf
    cases fuel with
    | zero => simp at hf
    | succ k =>
      obtain ⟨hn, hm0, hc'⟩ := hc
      have hc1 : Chain ((f.MarkNodeDeleted n).openNode m).nodes m rest := by
        refine Chain.congr rest m ?_ hc'
        intro x _
        by_cases hxn : x = n
        · subst hxn
          simp [PagedFile.MarkNodeDeleted, PagedFile.openNode, PagedFile.Seek]
        · simp [PagedFile.MarkNodeDeleted, PagedFile.openNode, PagedFile.Seek,
            setNode_ne _ _ hxn]
      obtain ⟨f', h1, h2, h3⟩ := ih ((f.MarkNodeDeleted n).openNode m) m k hc1
        (by simp only [List.length_cons] at hf; omega)
      have hnx : (f.MarkNodeDeleted n).NextNode n = m := by
        simp [PagedFile.NextNode, PagedFile.MarkNodeDeleted, hn]
      refine ⟨f', ?_, ?_, ?_⟩
      · rw [deleteChain]
        simp only [hnx, hm0, if_false]
        exact h1
      · intro x hx
        rcases List.mem_cons.1 hx with rfl | hx
        · apply h3
          simp [PagedFile.MarkNodeDeleted, PagedFile.openNode, PagedFile.Seek]
        · exact h2 x hx
      · intro x hx
        apply h3
        by_cases hxn : x = n
        · subst hxn
          simp [PagedFile.MarkNodeDeleted, PagedFile.openNode, PagedFile.Seek]
        · simp [PagedFile.MarkNodeDeleted, PagedFile.openNode, PagedFile.Seek,
            setNode_ne _ _ hxn, hx]

/-- C8, as stated, fails for an object that is also marked new.
`newDeletedStore` holds a new object (node 1 allocated by `AddObject`) marked
deleted-pending; `SaveObject` returns with node 1 not marked deleted and the
object address still 1. -/
theorem saveObject_new_deleted_keeps_node :
    (newDeletedStore.heap 0).newobject = true ∧ (newDeletedStore.heap 0).deleted = true ∧
    (newDeletedStore.heap 0).objectaddress = 1 ∧
    (okState (SaveObject 8 ObjectExists 4 newDeletedStore 0)).map
        (fun d => ((d.datafile.nodes 1).deleted, (d.heap 0).objectaddress, d.datafile.free)) =
      some (false, 1, []) := by
  refine ⟨by decide, by decide, by decide, by decide⟩

/-- C8, amended.  For an object marked deleted-pending and not marked new, at
a non-zero address that `PositionNode` accepts, whose node chain `rest` ends
with 0, and whose non-null original keys all have their index among the
B-trees (outside rebuild mode, with fuel for the chain), `SaveObject` returns,
marks every node of the chain deleted, removes the pairs `(key bytes, object
address)` of the object's original keys from their indexes and sets the object
address to 0. -/
theorem saveObject_deleted_pending (ndl : Nat) (objectExists : EDatastore → Nat → Bool)
    (fuel : Nat) (ds : EDatastore) (this : Nat) (rest : List Nat)
    (hrb : ds.rebuildnode = 0)
    (hnew : (ds.heap this).newobject = false) (hdel : (ds.heap this).deleted = true)
    (hA : (ds.heap this).objectaddress ≠ 0)
    (hpos : (PositionNode ds.datafile (ds.heap this)).2.2 = false)
    (hchain : Chain ds.datafile.nodes (ds.heap this).objectaddress rest)
    (hfuel : rest.length < fuel)
    (hidx : ∀ k ∈ (ds.heap this).orgkeys, k.isNullValue = false →
      findBtree ds.btrees (ds.heap this).classname k.indexno ≠ none) :
    ∃ ds', SaveObject ndl objectExists fuel ds this = .ok (ds', none) ∧
      (∀ x ∈ (ds.heap this).objectaddress :: rest, (ds'.datafile.nodes x).deleted = true) ∧
      (ds'.heap this).objectaddress = 0 ∧
      (∀ k ∈ (ds.heap this).orgkeys, k.isNullValue = false →
        ∀ j, findBtree ds.btrees (ds.heap this).classname k.indexno = some j →
          (k.bytes, (ds.heap this).objectaddress) ∉ entriesAt ds'.btrees j) := by
  obtain ⟨p1, p2, _⟩ := positionNode_ok (f := ds.datafile)
    (o := { ds.heap this with saved := true }) hA
  have hpos' : (PositionNode ds.datafile { ds.heap this with saved := true }).2.2 = false := by
    rw [← hpos]
    unfold PositionNode
    simp only [hA, if_false]
  have hc1 : Chain (PositionNode ds.datafile { ds.heap this with saved := true }).1.nodes
      (ds.heap this).objectaddress rest := by
    rw [p1]
    exact hchain
  obtain ⟨f3, hd1, hd2, _⟩ := deleteChain_spec rest _ _ fuel hc1 hfuel
  obtain ⟨r, hr⟩ := deleteIndexesLoop_ok (ds.heap this).classname (ds.heap this).objectaddress
    (ds.heap this).orgkeys ds.btrees hidx
  obtain ⟨_, hr2⟩ := deleteIndexesLoop_spec _ _ _ _ _ hr
  have hnode : (PositionNode ds.datafile { ds.heap this with saved := true }).2.1.node =
      some (ds.heap this).objectaddress := by rw [p2]
  have hDI : DeleteIndexes ds.btrees
      { (PositionNode ds.datafile { ds.heap this with saved := true }).2.1 with node := none } =
      .ok (r.2, { { (PositionNode ds.datafile { ds.heap this with saved := true }).2.1 with
                    node := none } with orgkeys := r.1 }) := by
    unfold DeleteIndexes
    rw [p2]
    simp only [hr]
  have e1 : ({ ds.heap this with saved := true } : Serialize).newobject = false := hnew
  have e2 : ({ ds.heap this with saved := true } : Serialize).deleted = true := hdel
  unfold SaveObject
  simp only [setObj_heap_same, setObj_rebuildnode, setObj_datafile, setObj_btrees]
  generalize ({ ds.heap this with saved := true } : Serialize) = o1 at e1 e2 hpos' hnode hd1 hDI
  simp only [hrb, ne_eq, not_true_eq_false, if_false, e1, e2, hnew, hdel, Bool.false_eq_true,
    Bool.true_or, if_true, hpos', hnode, hd1, hDI]
  refine ⟨_, rfl, ?_, ?_, ?_⟩
  · intro x hx
    exact hd2 x hx
  · simp [clearFlags, setObj_heap_same]
  · intro k hk hn j hj
    show (k.bytes, (ds.heap this).objectaddress) ∉ entriesAt r.2 j
    rw [hr2]
    rintro ⟨_, h⟩
    exact h ⟨k, hk, hn, hj, rfl⟩

/-- Witness of `saveObject_deleted_pending`: the loaded book `AA` of the sample
library (one node, one primary key), marked deleted-pending. -/
theorem saveObject_deleted_pending_witness :
    bookDeletedStore.rebuildnode = 0 ∧ (bookDeletedStore.heap 0).newobject = false ∧
    (bookDeletedStore.heap 0).deleted = true ∧ (bookDeletedStore.heap 0).objectaddress ≠ 0 ∧
    ∃ ds', SaveObject 8 ObjectExists 1 bookDeletedStore 0 = .ok (ds', none) ∧
      (∀ x ∈ (bookDeletedStore.heap 0).objectaddress :: [],
        (ds'.datafile.nodes x).deleted = true) ∧
      (ds'.heap 0).objectaddress = 0 ∧
      (∀ k ∈ (bookDeletedStore.heap 0).orgkeys, k.isNullValue = false →
        ∀ j, findBtree bookDeletedStore.btrees (bookDeletedStore.heap 0).classname k.indexno =
            some j →
          (k.bytes, (bookDeletedStore.heap 0).objectaddress) ∉ entriesAt ds'.btrees j) :=
  ⟨by decide, by decide, by decide, by decide,
   saveObject_deleted_pending 8 ObjectExists 1 bookDeletedStore 0 []
     (by decide) (by decide) (by decide) (by decide) (by decide) (by decide) (by decide)
     (by decide)⟩

/-! ## Strings -/

theorem decodeLE_int32Bytes (n : Nat) (h : n < 4294967296) : decodeLE (int32Bytes n) = n := by
  simp only [int32Bytes, decodeLE]
  omega

theorem strlen_of_no_null (s : List Nat) (h : ∀ b ∈ s, b ≠ 0) : strlen s = s.length := by
  unfold strlen
  rw [List.takeWhile_eq_self_iff.2]
  intro b hb
  simpa using h b hb

/-- C10, as stated, fails for a string holding a null byte.  For the
three-byte string `a\0b`, `WriteStrObject` on the positioned object of
`sampleFile` writes the length 1 (payload bytes `1, 0, 0, 0` of node 1) and
then the single byte `a`; `ReadStrObject` at the same position returns the
one-byte string `a`. -/
theorem writeStrObject_stops_at_null :
    (WriteStrObject 8 (PositionNode sampleFile sampleObj).1
        (PositionNode sampleFile sampleObj).2.1 [97, 0, 98]).map
      (fun p => ((List.range 8).map (p.1.nodes 1).data, (List.range 8).map (p.1.nodes 2).data,
        p.2.node, p.2.offset,
        (ReadStrObject 8 (PositionNode p.1 p.2).1 (PositionNode p.1 p.2).2.1).map
          (fun r => r.1))) =
      some ([3, 0, 0, 0, 1, 0, 0, 0], [3, 0, 0, 0, 97, 0, 0, 0], some 2, 5, some [97]) := by
  decide

/-- C10, amended.  For every string `s` without a null byte and shorter than
2^31 bytes, written at a well-formed cursor, `WriteStrObject` returns and
writes what the two buffers `int32Bytes s.length` (the 32-bit length, the
number of bytes of `s`) and `s` itself (no trailing null) amount to; and
`ReadStrObject` at the stream position where the write began returns `s`. -/
theorem string_round_trip (ndl : Nat) (hndl : hdrSize < ndl) (f : PagedFile) (o : Serialize)
    (n : Nat) (rest B : List Nat) (s : List Nat) (hw : WInv ndl f o n rest B)
    (hs0 : ∀ b ∈ s, b ≠ 0) (hlen : s.length < 2147483648) :
    ∃ f1 o1, WriteStrObject ndl f o s = some (f1, o1) ∧
      writeAll ndl f o [int32Bytes s.length, s] = some (f1, o1) ∧
      ∀ r : Serialize, r.node = o.node → r.offset = o.offset →
        ∃ g' r', ReadStrObject ndl (f1.Seek f.posNode f.posOff) r = some (s, g', r') := by
  obtain ⟨f1, o1, n', rest', B', e1, _, _, _, _, e6⟩ :=
    writeAll_ok ndl hndl [int32Bytes s.length, s] f o n rest B hw
  have hsl : strlen s % 4294967296 = s.length := by
    rw [strlen_of_no_null s hs0]
    omega
  refine ⟨f1, o1, ?_, e1, ?_⟩
  · simp only [writeAll] at e1
    unfold WriteStrObject
    simp only [hsl, hlen, if_true, List.take_length]
    cases hp : EdsWriteObject ndl f o (int32Bytes s.length) with
    | none => simp [hp] at e1
    | some p =>
      simp only [hp] at e1 ⊢
      cases hq : EdsWriteObject ndl p.1 p.2 s with
      | none => simp [hq] at e1
      | some q =>
        simp only [hq, Option.some.injEq] at e1 ⊢
        exact e1
  · intro r hrn hro
    have hg : Agree f1 (f1.Seek f.posNode f.posOff) n' o1.offset B' :=
      ⟨fun _ _ => rfl, fun _ _ => rfl⟩
    obtain ⟨r2, hr2, _⟩ := e6 (f1.Seek f.posNode f.posOff) hg r (hrn.trans hw.node) hro
      hw.posn hw.poso
    simp only [List.map_cons, List.map_nil, readAll] at hr2
    unfold ReadStrObject
    have h4 : (int32Bytes s.length).length = 4 := rfl
    rw [h4] at hr2
    cases hb1 : EdsReadObject ndl (f1.Seek f.posNode f.posOff) r 4 with
    | none => simp [hb1] at hr2
    | some x =>
      obtain ⟨b1, g1, r1⟩ := x
      simp only [hb1] at hr2 ⊢
      cases hb3 : EdsReadObject ndl g1 r1 s.length with
      | none => simp [hb3] at hr2
      | some y =>
        obtain ⟨b2, g3, r4⟩ := y
        simp only [hb3, Option.some.injEq, Prod.mk.injEq, List.cons.injEq, and_true] at hr2
        obtain ⟨⟨hx1, hx2⟩, _, _⟩ := hr2
        subst hx1 hx2
        have hdec : decodeLE (int32Bytes b2.length) = b2.length :=
          decodeLE_int32Bytes _ (by omega)
        simp only [hdec, h4, lt_irrefl, false_or, not_le.2 hlen, if_false, hb3]
        refine ⟨g3, r4, ?_⟩
        rw [List.takeWhile_eq_self_iff.2]
        intro c hc
        simpa using hs0 c hc

/-- Witness of `string_round_trip`: the string `hi` written at the first
payload byte of node 1 of `sampleFile`. -/
theorem string_round_trip_witness :
    hdrSize < 8 ∧ WInv 8 cursorFile cursorObj 1 [] [] ∧ (∀ b ∈ [104, 105], b ≠ 0) ∧
    [104, 105].length < 2147483648 ∧
    ∃ f1 o1, WriteStrObject 8 cursorFile cursorObj [104, 105] = some (f1, o1) ∧
      writeAll 8 cursorFile cursorObj [int32Bytes [104, 105].length, [104, 105]] =
        some (f1, o1) ∧
      ∀ r : Serialize, r.node = cursorObj.node → r.offset = cursorObj.offset →
        ∃ g' r', ReadStrObject 8 (f1.Seek cursorFile.posNode cursorFile.posOff) r =
          some ([104, 105], g', r') :=
  ⟨by decide,
   ⟨by decide, by decide, by decide, by decide, by decide,
     ⟨by decide, by decide, by decide, by decide⟩⟩,
   by decide, by decide,
   string_round_trip 8 (by decide) cursorFile cursorObj 1 [] [] [104, 105]
     ⟨by decide, by decide, by decide, by decide, by decide,
       ⟨by decide, by decide, by decide, by decide⟩⟩
     (by decide) (by decide)⟩

/-! ## Class registry -/

theorem bumpId_eq : ∀ (k cid : Nat), cid + k < 65536 → bumpId cid k = cid + k
  | 0, cid, _ => rfl
  | k + 1, cid, h => by
    rw [bumpId, Nat.mod_eq_of_lt (by omega), bumpId_eq k (cid + 1) (by omega)]
    omega

theorem range_map_getD (l : List Nat) : (List.range l.length).map (fun i => l.getD i 0) = l := by
  apply List.ext_getElem
  · simp
  · intro i h1 h2
    simp [List.getElem?_eq_getElem h2]

theorem strcmpBuf_image :
    ∀ (c : List Nat) (tail : List Nat) (cns : Nat), c.length < cns →
      strcmpBuf ((c ++ 0 :: tail).take cns) c = some true
  | [], tail, cns, h => by
    obtain ⟨k, rfl⟩ : ∃ k, cns = k + 1 := ⟨cns - 1, by simp at h; omega⟩
    simp [strcmpBuf]
  | b :: c, tail, cns, h => by
    obtain ⟨k, rfl⟩ : ∃ k, cns = k + 1 := ⟨cns - 1, by simp at h; omega⟩
    simp only [List.cons_append, List.take_succ_cons, strcmpBuf, if_true]
    exact strcmpBuf_image c tail k (by simpa using h)

theorem nameImage_length (cns : Nat) (name : List Nat) (junk : Nat → Nat) :
    (nameImage cns name junk).length = cns := by
  simp [nameImage]
  omega

theorem readData_congr (f g : PagedFile) (x cns : Nat)
    (h : (g.nodes x).data = (f.nodes x).data) :
    ((g.openNode x).ReadData cns).1 = ((f.openNode x).ReadData cns).1 := by
  simp [PagedFile.ReadData, PagedFile.openNode, PagedFile.Seek, h]

theorem findClassLoop_end (cns : Nat) (name : List Nat) (fuel : Nat) (f : PagedFile)
    (cid last : Nat) :
    findClassLoop cns name fuel f 0 cid last = .ok (ScanResult.notFound cid last f) := by
  unfold findClassLoop
  simp

theorem findClassLoop_zero (cns : Nat) (name : List Nat) (f : PagedFile) {n : Nat}
    (cid last : Nat) (hn : n ≠ 0) :
    findClassLoop cns name 0 f n cid last = .error Fault.outOfFuel := by
  unfold findClassLoop
  simp [hn]

theorem findClassLoop_succ (cns : Nat) (name : List Nat) (k : Nat) (f : PagedFile) {n : Nat}
    (cid last : Nat) (hn : n ≠ 0) :
    findClassLoop cns name (k + 1) f n cid last =
      match strcmpBuf ((f.openNode n).ReadData cns).1 (cstr name) with
      | none => .error Fault.undefined
      | some true => .ok (ScanResult.found cid ((f.openNode n).ReadData cns).2)
      | some false =>
        findClassLoop cns name k ((f.openNode n).ReadData cns).2
          (((f.openNode n).ReadData cns).2.NextNode n) ((cid + 1) % 65536) n := by
  rw [findClassLoop.eq_def]
  simp only [hn, if_false]

theorem scan_found_ext (cns : Nat) (name : List Nat) :
    ∀ (rest : List Nat) (n cid last fuel : Nat) (f g : PagedFile) (c : Nat) (f' : PagedFile),
      Chain f.nodes n rest → n ≠ 0 →
      (∀ x ∈ n :: rest, (g.nodes x).data = (f.nodes x).data ∧
        ((f.nodes x).next ≠ 0 → (g.nodes x).next = (f.nodes x).next)) →
      findClassLoop cns name fuel f n cid last = .ok (ScanResult.found c f') →
      ∃ g', findClassLoop cns name fuel g n cid last = .ok (ScanResult.found c g') := by
  intro rest
  induction rest with
  | nil =>
    intro n cid last fuel f g c f' hc hn hag h
    cases fuel with
    | zero => simp [findClassLoop_zero _ _ _ _ _ hn] at h
    | succ k =>
      rw [findClassLoop_succ _ _ _ _ _ _ hn] at h ⊢
      rw [readData_congr f g n cns (hag n (List.mem_cons_self _ _)).1]
      cases hp : strcmpBuf ((f.openNode n).ReadData cns).1 (cstr name) with
      | none => simp [hp] at h
      | some b =>
        cases b with
        | true =>
          simp only [hp, Except.ok.injEq, ScanResult.found.injEq] at h ⊢
          exact ⟨_, h.1, rfl⟩
        | false =>
          simp only [hp] at h
          have hnx : ((f.openNode n).ReadData cns).2.NextNode n = 0 := hc
          rw [hnx, findClassLoop_end] at h
          simp at h
  | cons m rest ih =>
    intro n cid last fuel f g c f' hc hn hag h
    obtain ⟨hnm, hm0, hc'⟩ := hc
    cases fuel with
    | zero => simp [findClassLoop_zero _ _ _ _ _ hn] at h
    | succ k =>
      rw [findClassLoop_succ _ _ _ _ _ _ hn] at h ⊢
      rw [readData_congr f g n cns (hag n (List.mem_cons_self _ _)).1]
      cases hp : strcmpBuf ((f.openNode n).ReadData cns).1 (cstr name) with
      | none => simp [hp] at h
      | some b =>
        cases b with
        | true =>
          simp only [hp, Except.ok.injEq, ScanResult.found.injEq] at h ⊢
          exact ⟨_, h.1, rfl⟩
        | false =>
          simp only [hp] at h ⊢
          have hnx : ((f.openNode n).ReadData cns).2.NextNode n = m := hnm
          have hgx : ((g.openNode n).ReadData cns).2.NextNode n = m := by
            have := (hag n (List.mem_cons_self _ _)).2 (by rw [hnm]; exact hm0)
            exact this.trans hnm
          rw [hnx] at h
          rw [hgx]
          exact ih m _ n k ((f.openNode n).ReadData cns).2 ((g.openNode n).ReadData cns).2
            c f' hc' hm0 (fun x hx => hag x (List.mem_cons_of_mem _ hx)) h

theorem scan_notFound_inv (cns : Nat) (name : List Nat) :
    ∀ (rest : List Nat) (n cid last fuel : Nat) (f : PagedFile) (c l : Nat) (f' : PagedFile),
      Chain f.nodes n rest → n ≠ 0 →
      findClassLoop cns name fuel f n cid last = .ok (ScanResult.notFound c l f') →
      c = bumpId cid (rest.length + 1) ∧ l = chainEnd n rest ∧ SameFile f f' ∧
      (∀ x ∈ n :: rest, strcmpBuf ((f.openNode x).ReadData cns).1 (cstr name) = some false) ∧
      rest.length < fuel := by
  intro rest
  induction rest with
  | nil =>
    intro n cid last fuel f c l f' hc hn h
    cases fuel with
    | zero => simp [findClassLoop_zero _ _ _ _ _ hn] at h
    | succ k =>
      rw [findClassLoop_succ _ _ _ _ _ _ hn] at h
      cases hp : strcmpBuf ((f.openNode n).ReadData cns).1 (cstr name) with
      | none => simp [hp] at h
      | some b =>
        cases b with
        | true => simp [hp] at h
        | false =>
          simp only [hp] at h
          have hnx : ((f.openNode n).ReadData cns).2.NextNode n = 0 := hc
          rw [hnx, findClassLoop_end] at h
          simp only [Except.ok.injEq, ScanResult.notFound.injEq] at h
          obtain ⟨h1, h2, h3⟩ := h
          subst h1 h2 h3
          refine ⟨rfl, rfl, ⟨rfl, rfl, rfl⟩, ?_, by simp⟩
          intro x hx
          simp only [List.mem_singleton] at hx
          subst hx
          exact hp
  | cons m rest ih =>
    intro n cid last fuel f c l f' hc hn h
    obtain ⟨hnm, hm0, hc'⟩ := hc
    cases fuel with
    | zero => simp [findClassLoop_zero _ _ _ _ _ hn] at h
    | succ k =>
      rw [findClassLoop_succ _ _ _ _ _ _ hn] at h
      cases hp : strcmpBuf ((f.openNode n).ReadData cns).1 (cstr name) with
      | none => simp [hp] at h
      | some b =>
        cases b with
        | true => simp [hp] at h
        | false =>
          simp only [hp] at h
          have hnx : ((f.openNode n).ReadData cns).2.NextNode n = m := hnm
          rw [hnx] at h
          obtain ⟨h1, h2, h3, h4, h5⟩ :=
            ih m _ n k ((f.openNode n).ReadData cns).2 c l f' hc' hm0 h
          refine ⟨h1, h2, ⟨h3.1, h3.2.1, h3.2.2⟩, ?_,
            by simp only [List.length_cons]; omega⟩
          intro x hx
          rcases List.mem_cons.1 hx with rfl | hx
          · exact hp
          · exact h4 x hx

theorem scan_new (cns : Nat) (name : List Nat) :
    ∀ (rest : List Nat) (n cid last fuel : Nat) (f g : PagedFile) (nd : Nat),
      Chain f.nodes n rest → n ≠ 0 →
      (∀ x ∈ n :: rest, (g.nodes x).data = (f.nodes x).data ∧
        ((f.nodes x).next ≠ 0 → (g.nodes x).next = (f.nodes x).next) ∧
        ((f.nodes x).next = 0 → (g.nodes x).next = nd)) →
      (∀ x ∈ n :: rest, strcmpBuf ((f.openNode x).ReadData cns).1 (cstr name) = some false) →
      nd ≠ 0 → strcmpBuf ((g.openNode nd).ReadData cns).1 (cstr name) = some true →
      rest.length + 1 < fuel →
      ∃ g', findClassLoop cns name fuel g n cid last =
        .ok (ScanResult.found (bumpId cid (rest.length + 1)) g') := by
  intro rest
  induction rest with
  | nil =>
    intro n cid last fuel f g nd hc hn hag hpr hnd hpnd hfuel
    obtain ⟨k, rfl⟩ : ∃ k, fuel = k + 2 := ⟨fuel - 2, by simp at hfuel; omega⟩
    have hn0 : (f.nodes n).next = 0 := hc
    have hgx : ((g.openNode n).ReadData cns).2.NextNode n = nd :=
      (hag n (List.mem_cons_self _ _)).2.2 hn0
    have hnd2 : strcmpBuf ((((g.openNode n).ReadData cns).2.openNode nd).ReadData cns).1
        (cstr name) = some true := hpnd
    rw [findClassLoop_succ _ _ _ _ _ _ hn,
      readData_congr f g n cns (hag n (List.mem_cons_self _ _)).1,
      hpr n (List.mem_cons_self _ _)]
    simp only
    rw [hgx, findClassLoop_succ _ _ _ _ _ _ hnd, hnd2]
    exact ⟨_, rfl⟩
  | cons m rest ih =>
    intro n cid last fuel f g nd hc hn hag hpr hnd hpnd hfuel
    obtain ⟨hnm, hm0, hc'⟩ := hc
    obtain ⟨k, rfl⟩ : ∃ k, fuel = k + 1 := ⟨fuel - 1, by omega⟩
    have hgx : ((g.openNode n).ReadData cns).2.NextNode n = m := by
      have := (hag n (List.mem_cons_self _ _)).2.1 (by rw [hnm]; exact hm0)
      exact this.trans hnm
    rw [findClassLoop_succ _ _ _ _ _ _ hn,
      readData_congr f g n cns (hag n (List.mem_cons_self _ _)).1,
      hpr n (List.mem_cons_self _ _)]
    simp only
    rw [hgx]
    exact ih m _ n k f ((g.openNode n).ReadData cns).2 nd hc' hm0
      (fun x hx => hag x (List.mem_cons_of_mem _ hx))
      (fun x hx => hpr x (List.mem_cons_of_mem _ hx)) hnd hpnd
      (by simp only [List.length_cons] at hfuel; omega)

theorem chain_end_next {nodes : Nat → NodeRec} :
    ∀ (rest : List Nat) (n : Nat), Chain nodes n rest → (nodes (chainEnd n rest)).next = 0
  | [], _, h => h
  | m :: rest, _, h => chain_end_next rest m h.2.2

theorem chain_next_zero {nodes : Nat → NodeRec} :
    ∀ (rest : List Nat) (n x : Nat), Chain nodes n rest → x ∈ n :: rest →
      (nodes x).next = 0 → x = chainEnd n rest
  | [], n, x, _, hx, _ => by simpa using hx
  | m :: rest, n, x, h, hx, h0 => by
    rcases List.mem_cons.1 hx with rfl | hx
    · exact absurd (h.1.symm.trans h0) h.2.1
    · exact chain_next_zero rest m x h.2.2 hx h0

theorem chainEnd_mem : ∀ (rest : List Nat) (n : Nat), chainEnd n rest ∈ n :: rest
  | [], n => by simp [chainEnd]
  | m :: rest, n => List.mem_cons_of_mem _ (chainEnd_mem rest m)

theorem written_node (cns ndl : Nat) (h : PagedFile) (nd : Nat) (name : List Nat)
    (junk : Nat → Nat) (hlen : (cstr name).length < cns) :
    strcmpBuf (((((h.openNode nd).WriteData (nameImage cns name junk)).WriteData
        (List.replicate (ndl - cns) 0)).openNode nd).ReadData cns).1 (cstr name) = some true ∧
    (∀ x, x ≠ nd → (((h.openNode nd).WriteData (nameImage cns name junk)).WriteData
        (List.replicate (ndl - cns) 0)).nodes x = h.nodes x) ∧
    ((((h.openNode nd).WriteData (nameImage cns name junk)).WriteData
        (List.replicate (ndl - cns) 0)).nodes nd).next = (h.nodes nd).next := by
  refine ⟨?_, ?_, ?_⟩
  · have himg : ((((h.openNode nd).WriteData (nameImage cns name junk)).WriteData
        (List.replicate (ndl - cns) 0)).openNode nd).ReadData cns = 
        ((List.range cns).map (fun i => (nameImage cns name junk).getD i 0),
          ((((h.openNode nd).WriteData (nameImage cns name junk)).WriteData
            (List.replicate (ndl - cns) 0)).openNode nd).ReadData cns |>.2) := by
      apply Prod.ext
      · simp only [PagedFile.ReadData, PagedFile.openNode, PagedFile.Seek, PagedFile.WriteData,
          setNode_same]
        apply List.map_congr_left
        intro i hi
        have hi' : i < cns := List.mem_range.1 hi
        rw [Nat.zero_add, nameImage_length, Nat.zero_add,
          writeBytes_lt _ _ _ hi']
        have := writeBytes_at (h.nodes nd).data 0 (nameImage cns name junk)
          (i := i) (by rw [nameImage_length]; exact hi')
        rw [Nat.zero_add] at this
        exact this
      · rfl
    rw [himg]
    have hl := nameImage_length cns name junk
    have hr := range_map_getD (nameImage cns name junk)
    rw [hl] at hr
    simp only
    rw [hr]
    exact strcmpBuf_image (cstr name) _ cns hlen
  · intro x hx
    simp [PagedFile.WriteData, PagedFile.openNode, PagedFile.Seek, setNode_ne _ _ hx]
  · simp [PagedFile.WriteData, PagedFile.openNode, PagedFile.Seek]

theorem newNode_fresh {f : PagedFile} {n : Nat} {rest : List Nat} (h : ChainWF f n rest []) :
    f.NewNode.1 ≠ 0 ∧ f.NewNode.1 ∉ n :: rest ∧
    (∀ x, x ≠ f.NewNode.1 → f.NewNode.2.nodes x = f.nodes x) := by
  obtain ⟨_, hnd, hb, hz⟩ := h
  unfold PagedFile.NewNode
  cases hfree : f.free with
  | nil =>
    refine ⟨by simp, ?_, ?_⟩
    · intro hx
      have := hb (f.highest + 1) (by
        simp only [List.mem_cons, List.mem_append] at hx ⊢
        tauto)
      omega
    · intro x hx
      exact setNode_ne _ _ hx
  | cons y fr =>
    rw [hfree] at hnd hz
    refine ⟨hz y (List.mem_cons_self _ _), ?_, ?_⟩
    · intro hx
      simp only [List.append_nil, List.nodup_cons, List.nodup_append, List.mem_append,
        List.mem_cons] at hnd hx
      rcases hx with rfl | hx
      · exact hnd.1 (Or.inr (Or.inl rfl))
      · exact hnd.2.2.2 hx (List.mem_cons_self _ _)
    · intro x hx
      exact setNode_ne _ _ hx

theorem addClass_append (cns ndl fuel : Nat) (junk : Nat → Nat) (idx : IndexFile) (cls : Class)
    (rest : List Nat) (hlen : (cstr cls.classname).length < cns) (hcns : cns ≤ ndl)
    (hnew : idx.newfile = false) (hwf : ChainWF idx.file 1 rest [])
    (hm : rest.length + 1 < 65536) (c l : Nat) (f' : PagedFile)
    (hscan : findClassLoop cns cls.classname fuel idx.file 1 0 0 =
      .ok (ScanResult.notFound c l f')) :
    ∃ cls1 idx1, AddClassToIndex cns ndl fuel junk idx cls = .ok (cls1, idx1) ∧
      cls1.classid = rest.length + 1 ∧ idx1.newfile = false ∧
      (∃ g', findClassLoop cns cls.classname (fuel + 1) idx1.file 1 0 0 =
        .ok (ScanResult.found (rest.length + 1) g')) ∧
      (∀ other cid f2, findClassLoop cns other fuel idx.file 1 0 0 =
          .ok (ScanResult.found cid f2) →
        ∃ g2, findClassLoop cns other fuel idx1.file 1 0 0 = .ok (ScanResult.found cid g2)) := by
  obtain ⟨hc, hl, hsf, hpr, hfu⟩ :=
    scan_notFound_inv cns cls.classname rest 1 0 0 fuel idx.file c l f' hwf.chain (by decide) hscan
  have hc' : c = rest.length + 1 := by
    rw [hc, bumpId_eq _ _ (by omega)]
    omega
  have hwf' : ChainWF f' 1 rest [] := by
    obtain ⟨h1, h2, h3, h4⟩ := hwf
    obtain ⟨s1, s2, s3⟩ := hsf
    exact ⟨by rw [s1]; exact h1, by rw [s3]; exact h2, by rw [s3, s2]; exact h3,
      by rw [s3]; exact h4⟩
  obtain ⟨hnd0, hndnot, hndnodes⟩ := newNode_fresh hwf'
  have hlmem : l ∈ 1 :: rest := by rw [hl]; exact chainEnd_mem rest 1
  have hlnd : l ≠ f'.NewNode.1 := fun h => hndnot (h ▸ hlmem)
  obtain ⟨w1, w2, _⟩ := written_node cns ndl (f'.NewNode.2.SetNextNode l f'.NewNode.1)
    f'.NewNode.1 cls.classname junk hlen
  have hG : ∀ x ∈ 1 :: rest,
      ((((f'.NewNode.2.SetNextNode l f'.NewNode.1).openNode f'.NewNode.1).WriteData
        (nameImage cns cls.classname junk)).WriteData (List.replicate (ndl - cns) 0)).nodes x =
      if x = l then { idx.file.nodes x with next := f'.NewNode.1 } else idx.file.nodes x := by
    intro x hx
    have hxnd : x ≠ f'.NewNode.1 := fun h => hndnot (h ▸ hx)
    rw [w2 x hxnd]
    by_cases hxl : x = l
    · subst hxl
      simp only [PagedFile.SetNextNode, setNode_same, if_true]
      rw [hndnodes x hxnd, hsf.1]
    · simp only [PagedFile.SetNextNode, setNode_ne _ _ hxl, hxl, if_false]
      rw [hndnodes x hxnd, hsf.1]
  have hag : ∀ x ∈ 1 :: rest,
      (((((f'.NewNode.2.SetNextNode l f'.NewNode.1).openNode f'.NewNode.1).WriteData
        (nameImage cns cls.classname junk)).WriteData
          (List.replicate (ndl - cns) 0)).nodes x).data = (idx.file.nodes x).data ∧
      ((idx.file.nodes x).next ≠ 0 →
        (((((f'.NewNode.2.SetNextNode l f'.NewNode.1).openNode f'.NewNode.1).WriteData
          (nameImage cns cls.classname junk)).WriteData
            (List.replicate (ndl - cns) 0)).nodes x).next = (idx.file.nodes x).next) ∧
      ((idx.file.nodes x).next = 0 →
        (((((f'.NewNode.2.SetNextNode l f'.NewNode.1).openNode f'.NewNode.1).WriteData
          (nameImage cns cls.classname junk)).WriteData
            (List.replicate (ndl - cns) 0)).nodes x).next = f'.NewNode.1) := by
    intro x hx
    rw [hG x hx]
    by_cases hxl : x = l
    · simp only [hxl, if_true]
      refine ⟨trivial, ?_, fun _ => trivial⟩
      intro h
      exact absurd (by rw [hl]; exact chain_end_next rest 1 hwf.chain) h
    · simp only [hxl, if_false]
      refine ⟨trivial, fun _ => trivial, ?_⟩
      intro h
      exact absurd (by rw [hl]; exact chain_next_zero rest 1 x hwf.chain hx h) hxl
  have hA : AddClassToIndex cns ndl fuel junk idx cls =
      .ok ({ ({ cls with classid := c } : Class) with
              headerNode := (((f'.NewNode.2.SetNextNode l f'.NewNode.1).openNode
                f'.NewNode.1).WriteData (nameImage cns cls.classname junk)).posNode,
              headerOff := (((f'.NewNode.2.SetNextNode l f'.NewNode.1).openNode
                f'.NewNode.1).WriteData (nameImage cns cls.classname junk)).posOff },
           { file := (((f'.NewNode.2.SetNextNode l f'.NewNode.1).openNode f'.NewNode.1).WriteData
              (nameImage cns cls.classname junk)).WriteData (List.replicate (ndl - cns) 0),
             newfile := false }) := by
    unfold AddClassToIndex FindClass
    simp only [hnew, Bool.false_eq_true, if_false, hscan, if_true, ne_eq, hnd0,
      not_false_eq_true, not_lt.2 hcns]
  refine ⟨_, _, hA, hc', rfl, ?_, ?_⟩
  · obtain ⟨g', hg'⟩ := scan_new cns cls.classname rest 1 0 0 (fuel + 1) idx.file _ f'.NewNode.1
      hwf.chain (by decide) hag hpr hnd0 w1 (by omega)
    rw [bumpId_eq _ _ (by omega), Nat.zero_add] at hg'
    exact ⟨g', hg'⟩
  · intro other cid f2 h
    exact scan_found_ext cns other rest 1 0 0 fuel idx.file _ cid f2 hwf.chain (by decide)
      (fun x hx => ⟨(hag x hx).1, (hag x hx).2.1⟩) h

theorem addClass_newFile (cns ndl fuel : Nat) (junk : Nat → Nat) (idx : IndexFile) (cls : Class)
    (hlen : (cstr cls.classname).length < cns) (hcns : cns ≤ ndl)
    (hnew : idx.newfile = true) (hh : idx.file.highest = 0) (hf : idx.file.free = []) :
    ∃ cls1 idx1, AddClassToIndex cns ndl fuel junk idx cls = .ok (cls1, idx1) ∧
      cls1.classid = 0 ∧ idx1.newfile = false ∧
      (∃ g', findClassLoop cns cls.classname (fuel + 1) idx1.file 1 0 0 =
        .ok (ScanResult.found 0 g')) := by
  have hnn1 : idx.file.NewNode.1 = 1 := by
    unfold PagedFile.NewNode
    rw [hf, hh]
  obtain ⟨w1, _, _⟩ := written_node cns ndl idx.file.NewNode.2 1 cls.classname junk hlen
  have hA : AddClassToIndex cns ndl fuel junk idx cls =
      .ok ({ ({ cls with classid := 0 } : Class) with
              headerNode := ((idx.file.NewNode.2.openNode 1).WriteData
                (nameImage cns cls.classname junk)).posNode,
              headerOff := ((idx.file.NewNode.2.openNode 1).WriteData
                (nameImage cns cls.classname junk)).posOff },
           { file := ((idx.file.NewNode.2.openNode 1).WriteData
                (nameImage cns cls.classname junk)).WriteData (List.replicate (ndl - cns) 0),
             newfile := false }) := by
    unfold AddClassToIndex FindClass
    simp only [hnew, if_true, ne_eq, not_true_eq_false, if_false, hnn1, not_lt.2 hcns]
  refine ⟨_, _, hA, rfl, rfl, ?_⟩
  rw [findClassLoop_succ _ _ _ _ _ _ (by decide), w1]
  exact ⟨_, rfl⟩

theorem findClass_of_scan_found (cns fuel : Nat) (idx : IndexFile) (cls : Class) (w : Bool)
    (cid : Nat) (g' : PagedFile) (hnew : idx.newfile = false)
    (h : findClassLoop cns cls.classname fuel idx.file 1 0 0 = .ok (ScanResult.found cid g')) :
    ∃ r, FindClass cns fuel idx cls w = .ok (true, r) ∧ r.1.classid = cid := by
  refine ⟨({ cls with classid := cid, headerNode := g'.posNode, headerOff := g'.posOff }, 0,
    { idx with file := g' }), ?_, rfl⟩
  unfold FindClass
  simp only [hnew, Bool.false_eq_true, if_false, h]

/-- C7, as stated, fails for a class name that fills the name field.  After
`AddClassToIndex` has appended the class whose name has 64 bytes
(`classnamesize` = 64) to a new index file, the class chain holds one node and
`FindClass` for that name does not return: the array read from the node holds
no null byte and `strcmp` runs past its end. -/
theorem findClass_long_name_not_found :
    ClassChain newIndexFile [] ∧
    (match AddClassToIndex 64 1016 4 (fun _ => 0) newIndexFile
        { classname := List.replicate 64 65, classid := 0 } with
      | .ok r => some ((r.2.file.nodes 1).next, r.1.classid,
          resultOf (FindClass 64 4 r.2 { classname := List.replicate 64 65, classid := 0 } false))
      | .error _ => none) = some (0, 0, none) := by
  refine ⟨Or.inl ⟨rfl, rfl, rfl, rfl⟩, by decide⟩

/-- C7, amended.  Class ids are the zero-based positions of the class-header
nodes in the class chain: for every class name shorter than `classnamesize`
bytes that the scan of `FindClass` does not find, in an index file whose class
chain `chain` is well formed and shorter than 65536 classes, `AddClassToIndex`
returns with the class id `chain.length`; afterwards `FindClass` returns true
for that name with the class id `chain.length`, and for every class for which
it returned true before it returns true with the same class id. -/
theorem class_id_stability (cns ndl fuel : Nat) (junk : Nat → Nat) (idx : IndexFile)
    (cls : Class) (chain : List Nat)
    (hlen : (cstr cls.classname).length < cns) (hcns : cns ≤ ndl)
    (hchain : ClassChain idx chain) (hm : chain.length < 65536)
    (hnot : resultOf (FindClass cns fuel idx cls false) = some false) :
    ∃ cls1 idx1, AddClassToIndex cns ndl fuel junk idx cls = .ok (cls1, idx1) ∧
      cls1.classid = chain.length ∧
      (∃ r, FindClass cns (fuel + 1) idx1 cls false = .ok (true, r) ∧
        r.1.classid = chain.length) ∧
      (∀ other r, FindClass cns fuel idx other false = .ok (true, r) →
        ∃ r', FindClass cns fuel idx1 other false = .ok (true, r') ∧
          r'.1.classid = r.1.classid) := by
  rcases hchain with ⟨hnew, hch, hh, hf⟩ | ⟨hnew, rest, hch, hwf⟩
  · obtain ⟨cls1, idx1, h1, h2, h3, g', h4⟩ :=
      addClass_newFile cns ndl fuel junk idx cls hlen hcns hnew hh hf
    subst hch
    refine ⟨cls1, idx1, h1, h2, ?_, ?_⟩
    · exact findClass_of_scan_found cns (fuel + 1) idx1 cls false 0 g' h3 h4
    · intro other r h
      unfold FindClass at h
      simp [hnew] at h
  · subst hch
    have hscan : ∃ c l f', findClassLoop cns cls.classname fuel idx.file 1 0 0 =
        .ok (ScanResult.notFound c l f') := by
      unfold FindClass at hnot
      simp only [hnew, Bool.false_eq_true, if_false] at hnot
      cases hs : findClassLoop cns cls.classname fuel idx.file 1 0 0 with
      | error e => simp [hs, resultOf] at hnot
      | ok sr =>
        cases sr with
        | found cid f => simp [hs, resultOf] at hnot
        | notFound c l f' => exact ⟨c, l, f', rfl⟩
    obtain ⟨c, l, f', hs⟩ := hscan
    obtain ⟨cls1, idx1, h1, h2, h3, ⟨g', h4⟩, h5⟩ :=
      addClass_append cns ndl fuel junk idx cls rest hlen hcns hnew hwf
        (by simpa using hm) c l f' hs
    refine ⟨cls1, idx1, h1, by simpa using h2, ?_, ?_⟩
    · obtain ⟨r, hr1, hr2⟩ :=
        findClass_of_scan_found cns (fuel + 1) idx1 cls false _ g' h3 h4
      exact ⟨r, hr1, by simpa using hr2⟩
    · intro other r h
      unfold FindClass at h
      simp only [hnew, Bool.false_eq_true, if_false] at h
      cases hs2 : findClassLoop cns other.classname fuel idx.file 1 0 0 with
      | error e => simp [hs2] at h
      | ok sr =>
        cases sr with
        | notFound c2 l2 f2 => simp [hs2] at h
        | found cid f2 =>
          obtain ⟨g2, hg2⟩ := h5 other.classname cid f2 hs2
          simp only [hs2, Except.ok.injEq, Prod.mk.injEq, true_and] at h
          obtain ⟨r', hr1, hr2⟩ :=
            findClass_of_scan_found cns fuel idx1 other false cid g2 h3 hg2
          refine ⟨r', hr1, ?_⟩
          rw [hr2, ← h]

/-- Witness of `class_id_stability`: the class `Loan` is appended to an index
file whose chain holds `Book` in node 1. -/
theorem class_id_stability_witness :
    (cstr loanName).length < 64 ∧ 64 ≤ 1016 ∧ ClassChain bookIndexFile [1] ∧
    [1].length < 65536 ∧
    resultOf (FindClass 64 4 bookIndexFile { classname := loanName, classid := 0 } false) =
      some false ∧
    resultOf (FindClass 64 4 bookIndexFile { classname := bookName, classid := 0 } false) =
      some true ∧
    ∃ cls1 idx1, AddClassToIndex 64 1016 4 (fun _ => 0) bookIndexFile
        { classname := loanName, classid := 0 } = .ok (cls1, idx1) ∧
      cls1.classid = [1].length ∧
      (∃ r, FindClass 64 (4 + 1) idx1 { classname := loanName, classid := 0 } false =
          .ok (true, r) ∧ r.1.classid = [1].length) ∧
      (∀ other r, FindClass 64 4 bookIndexFile other false = .ok (true, r) →
        ∃ r', FindClass 64 4 idx1 other false = .ok (true, r') ∧
          r'.1.classid = r.1.classid) :=
  ⟨by decide, by decide,
   Or.inr ⟨rfl, [], rfl, ⟨by decide, by decide, by decide, by decide⟩⟩,
   by decide, by decide, by decide,
   class_id_stability 64 1016 4 (fun _ => 0) bookIndexFile
     { classname := loanName, classid := 0 } [1] (by decide) (by decide)
     (Or.inr ⟨rfl, [], rfl, ⟨by decide, by decide, by decide, by decide⟩⟩)
     (by decide) (by decide)⟩

/-! ## Index agreement -/

theorem findBtree_inj {bts : List EdsBtree} {cn : List Nat} {i1 i2 j : Nat}
    (h1 : findBtree bts cn i1 = some j) (h2 : findBtree bts cn i2 = some j) : i1 = i2 := by
  obtain ⟨bt1, hb1, _, hi1⟩ := findBtree_some h1
  obtain ⟨bt2, hb2, _, hi2⟩ := findBtree_some h2
  rw [hb1] at hb2
  cases hb2
  exact hi1.symm.trans hi2

theorem upd_head (cn : List Nat) (A : Nat) (oky key : EdsKey) (oks ks : List EdsKey)
    (bts : List EdsBtree) (r : List EdsKey × List EdsKey × List EdsBtree)
    (hne : oky.bytes ≠ key.bytes)
    (h : updateIndexesLoop cn A (oky :: oks) (key :: ks) bts = .ok r) :
    ∃ bts2 r', updateIndexesLoop cn A oks ks bts2 = .ok r' ∧ r.2.2 = r'.2.2 ∧
      (∀ cn' i', findBtree bts2 cn' i' = findBtree bts cn' i') ∧
      (∀ j, findBtree bts cn oky.indexno ≠ some j → bts2[j]? = bts[j]?) ∧
      (∀ j, findBtree bts cn oky.indexno = some j → ∀ e, e ∈ entriesAt bts2 j ↔
        (e ∈ entriesAt bts j ∧ ¬ (oky.isNullValue = false ∧ e = (oky.bytes, A))) ∨
        (key.isNullValue = false ∧ e = (key.bytes, A))) := by
  rw [updateIndexesLoop] at h
  simp only [hne, if_false] at h
  cases hj : findBtree bts cn oky.indexno with
  | none =>
    rw [hj] at h
    cases ho : oky.isNullValue with
    | false => simp [ho] at h
    | true =>
      cases hk : key.isNullValue with
      | false => simp [ho, hk] at h
      | true =>
        simp only [ho, hk, if_true] at h
        cases hr : updateIndexesLoop cn A oks ks bts with
        | error e => simp [hr] at h
        | ok r' =>
          simp only [hr, Except.ok.injEq] at h
          subst h
          refine ⟨bts, r', hr, rfl, fun _ _ => rfl, fun _ _ => rfl, ?_⟩
          intro j hj'
          exact absurd hj' (by simp)
  | some j0 =>
    rw [hj] at h
    obtain ⟨bt0, hbt0, _, _⟩ := findBtree_some hj
    have hstabD : ∀ (l : List EdsBtree) cn' i', findBtree
        (modifyAt (fun b => b.Delete { oky with fileaddr := A }) j0 l) cn' i' =
        findBtree l cn' i' :=
      fun l cn' i' => findBtree_modifyAt _ (fun b => delete_meta _ b) _ _ _ _
    have hstabI : ∀ (l : List EdsBtree) cn' i', findBtree
        (modifyAt (fun b => b.Insert { key with fileaddr := A }) j0 l) cn' i' =
        findBtree l cn' i' :=
      fun l cn' i' => findBtree_modifyAt _ (fun b => insert_meta _ b) _ _ _ _
    cases ho : oky.isNullValue with
    | true =>
      cases hk : key.isNullValue with
      | true =>
        simp only [ho, hk, if_true] at h
        cases hr : updateIndexesLoop cn A oks ks bts with
        | error e => simp [hr] at h
        | ok r' =>
          simp only [hr, Except.ok.injEq] at h
          subst h
          refine ⟨bts, r', hr, rfl, fun _ _ => rfl, fun _ _ => rfl, ?_⟩
          intro j _ e
          simp
      | false =>
        simp only [ho, hk, if_true, Bool.false_eq_true, if_false] at h
        cases hr : updateIndexesLoop cn A oks ks
            (modifyAt (fun b => b.Insert { key with fileaddr := A }) j0 bts) with
        | error e => simp [hr] at h
        | ok r' =>
          simp only [hr, Except.ok.injEq] at h
          subst h
          refine ⟨_, r', hr, rfl, hstabI bts, ?_, ?_⟩
          · intro j hjn
            exact getElem?_modifyAt_ne _ _ _ _ (fun hjj => hjn (by rw [hjj]))
          · intro j hjj e
            cases hjj
            rw [entriesAt_insert _ _ _ _ hbt0]
            simp
    | false =>
      have hbt1 : (modifyAt (fun b => b.Delete { oky with fileaddr := A }) j0 bts)[j0]? =
          some (bt0.Delete { oky with fileaddr := A }) := by
        rw [getElem?_modifyAt_same, hbt0]
        rfl
      cases hk : key.isNullValue with
      | true =>
        simp only [ho, hk, if_true, Bool.false_eq_true, if_false] at h
        cases hr : updateIndexesLoop cn A oks ks
            (modifyAt (fun b => b.Delete { oky with fileaddr := A }) j0 bts) with
        | error e => simp [hr] at h
        | ok r' =>
          simp only [hr, Except.ok.injEq] at h
          subst h
          refine ⟨_, r', hr, rfl, hstabD bts, ?_, ?_⟩
          · intro j hjn
            exact getElem?_modifyAt_ne _ _ _ _ (fun hjj => hjn (by rw [hjj]))
          · intro j hjj e
            cases hjj
            rw [entriesAt_delete _ _ _ _ hbt0]
            simp
      | false =>
        simp only [ho, hk, Bool.false_eq_true, if_false] at h
        cases hr : updateIndexesLoop cn A oks ks
            (modifyAt (fun b => b.Insert { key with fileaddr := A }) j0
              (modifyAt (fun b => b.Delete { oky with fileaddr := A }) j0 bts)) with
        | error e => simp [hr] at h
        | ok r' =>
          simp only [hr, Except.ok.injEq] at h
          subst h
          refine ⟨_, r', hr, rfl, fun cn' i' => (hstabI _ cn' i').trans (hstabD bts cn' i'),
            ?_, ?_⟩
          · intro j hjn
            have hjj : j ≠ j0 := fun hjj => hjn (by rw [hjj])
            rw [getElem?_modifyAt_ne _ _ _ _ hjj, getElem?_modifyAt_ne _ _ _ _ hjj]
          · intro j hjj e
            cases hjj
            rw [entriesAt_insert _ _ _ _ hbt1, entriesAt_delete _ _ _ _ hbt0]
            simp

theorem updateIndexesLoop_spec (cn : List Nat) (A : Nat) :
    ∀ (ks oks : List EdsKey) (bts : List EdsBtree)
      (r : List EdsKey × List EdsKey × List EdsBtree),
      updateIndexesLoop cn A oks ks bts = .ok r →
      (∀ p ∈ oks.zip ks, p.1.indexno = p.2.indexno) →
      (ks.map (fun k => k.indexno)).Nodup →
      (∀ cn' i', findBtree r.2.2 cn' i' = findBtree bts cn' i') ∧
      (∀ j, (∀ k ∈ ks, findBtree bts cn k.indexno ≠ some j) → r.2.2[j]? = bts[j]?) ∧
      (∀ p ∈ oks.zip ks, ∀ j, findBtree bts cn p.2.indexno = some j →
        (p.1.bytes = p.2.bytes → r.2.2[j]? = bts[j]?) ∧
        (p.1.bytes ≠ p.2.bytes → ∀ e, e ∈ entriesAt r.2.2 j ↔
          (e ∈ entriesAt bts j ∧ ¬ (p.1.isNullValue = false ∧ e = (p.1.bytes, A))) ∨
          (p.2.isNullValue = false ∧ e = (p.2.bytes, A)))) := by
  intro ks
  induction ks with
  | nil =>
    intro oks bts r h _ _
    rw [updateIndexesLoop] at h
    simp only [Except.ok.injEq] at h
    subst h
    refine ⟨fun _ _ => rfl, fun _ _ => rfl, ?_⟩
    intro p hp
    simp at hp
  | cons key ks ih =>
    intro oks bts r h hpair hnd
    cases oks with
    | nil => simp [updateIndexesLoop] at h
    | cons oky oks =>
      have hidx : oky.indexno = key.indexno := hpair (oky, key) (by simp)
      have hpair' : ∀ p ∈ oks.zip ks, p.1.indexno = p.2.indexno :=
        fun p hp => hpair p (by simp [hp])
      rw [List.map_cons, List.nodup_cons] at hnd
      have htail : ∀ j, findBtree bts cn key.indexno = some j →
          ∀ k ∈ ks, findBtree bts cn k.indexno ≠ some j := by
        intro j hj k hk hkj
        exact hnd.1 (List.mem_map.2 ⟨k, hk, findBtree_inj hkj hj⟩)
      by_cases heq : oky.bytes = key.bytes
      · rw [updateIndexesLoop] at h
        simp only [heq, if_true] at h
        cases hr : updateIndexesLoop cn A oks ks bts with
        | error e => simp [hr] at h
        | ok r' =>
          simp only [hr, Except.ok.injEq] at h
          subst h
          obtain ⟨h1, h2, h3⟩ := ih oks bts r' hr hpair' hnd.2
          refine ⟨h1, fun j hj => h2 j (fun k hk => hj k (List.mem_cons_of_mem _ hk)), ?_⟩
          intro p hp j hj
          rw [List.zip_cons_cons, List.mem_cons] at hp
          rcases hp with rfl | hp
          · exact ⟨fun _ => h2 j (htail j hj), fun hne => absurd heq hne⟩
          · exact h3 p hp j hj
      · obtain ⟨bts2, r', hr, hrr, F1, F2, F3⟩ := upd_head cn A oky key oks ks bts r heq h
        obtain ⟨h1, h2, h3⟩ := ih oks bts2 r' hr hpair' hnd.2
        rw [hrr]
        refine ⟨fun cn' i' => (h1 cn' i').trans (F1 cn' i'), ?_, ?_⟩
        · intro j hj
          rw [h2 j (fun k hk => by rw [F1]; exact hj k (List.mem_cons_of_mem _ hk))]
          apply F2
          rw [hidx]
          exact hj key (List.mem_cons_self _ _)
        · intro p hp j hj
          rw [List.zip_cons_cons, List.mem_cons] at hp
          rcases hp with rfl | hp
          · refine ⟨fun he => absurd he heq, fun _ e => ?_⟩
            have hsame : r'.2.2[j]? = bts2[j]? :=
              h2 j (fun k hk => by rw [F1]; exact htail j hj k hk)
            have he : entriesAt r'.2.2 j = entriesAt bts2 j := by
              simp only [entriesAt, hsame]
            rw [he]
            exact F3 j (by rw [hidx]; exact hj) e
          · have hjne : findBtree bts cn oky.indexno ≠ some j := by
              intro hc
              rw [hidx] at hc
              exact htail j hc p.2 (List.of_mem_zip hp).2 hj
            have hb : bts2[j]? = bts[j]? := F2 j hjne
            have he : entriesAt bts2 j = entriesAt bts j := by
              simp only [entriesAt, hb]
            obtain ⟨ha, hb'⟩ := h3 p hp j (by rw [F1]; exact hj)
            refine ⟨fun hq => (ha hq).trans hb, fun hq e => ?_⟩
            rw [hb' hq e, he]

theorem positionNode_same (f : PagedFile) (o : Serialize) :
    (PositionNode f o).2.1.keys = o.keys ∧ (PositionNode f o).2.1.orgkeys = o.orgkeys ∧
    (PositionNode f o).2.1.classname = o.classname := by
  unfold PositionNode
  dsimp only
  split <;> exact ⟨rfl, rfl, rfl⟩

theorem objectOut_same {ndl fuel : Nat} {f : PagedFile} {o : Serialize}
    {w : PagedFile × Serialize} (h : ObjectOut ndl fuel f o = .ok w) :
    w.2.keys = o.keys ∧ w.2.orgkeys = o.orgkeys ∧ w.2.classname = o.classname := by
  unfold ObjectOut at h
  split at h
  · simp at h
  · rename_i f1 o1 hw
    have hs := writeAll_sameObj ndl _ _ _ (f1, o1) hw
    split at h
    · simp at h
    · dsimp only at h
      split at h
      · simp at h
      · split at h
        · simp at h
        · simp only [Except.ok.injEq] at h
          subst h
          show o1.keys = o.keys ∧ o1.orgkeys = o.orgkeys ∧ o1.classname = o.classname
          unfold SameObj at hs
          simp only at hs
          rw [hs]
          exact ⟨rfl, rfl, rfl⟩

theorem holdsExactly_iff (bts : List EdsBtree) (j A : Nat) (key : Option (List Nat)) :
    HoldsExactly bts j A key ↔ ∀ b, (b, A) ∈ entriesAt bts j ↔ key = some b := by
  unfold HoldsExactly
  constructor
  · rintro ⟨h1, h2⟩ b
    exact ⟨fun h => h1 (b, A) h rfl, fun h => h2 b h⟩
  · intro h
    refine ⟨?_, fun b hb => (h b).2 hb⟩
    rintro ⟨b, a⟩ he ha
    cases ha
    exact (h b).1 he

theorem flushes_eq (objectExists : EDatastore → Nat → Bool) (ds : EDatastore) (this : Nat) :
    flushes objectExists ds this =
      if (ds.heap this).newobject then
        !(ds.heap this).deleted &&
          objectExists (ds.setObj this { ds.heap this with saved := true }) this
      else (ds.heap this).deleted || ((ds.heap this).changed &&
          objectExists (ds.setObj this { ds.heap this with saved := true }) this) := by
  simp only [flushes, setObj_heap_same]

theorem saveObject_btrees (ndl : Nat) (objectExists : EDatastore → Nat → Bool) (fuel : Nat)
    (ds : EDatastore) (this : Nat) (ds' : EDatastore) (hrb : ds.rebuildnode = 0)
    (hres : SaveObject ndl objectExists fuel ds this = .ok (ds', none)) :
    (flushes objectExists ds this = false ∧ ds'.btrees = ds.btrees) ∨
    (flushes objectExists ds this = true ∧ (ds.heap this).newobject = true ∧
      (ds.heap this).deleted = false ∧
      ∃ r, addIndexesLoop (ds.heap this).classname (ds.heap this).objectaddress
        (ds.heap this).keys ds.btrees = .ok r ∧ ds'.btrees = r.2) ∨
    (flushes objectExists ds this = true ∧ (ds.heap this).newobject = false ∧
      (ds.heap this).deleted = true ∧
      ∃ r, deleteIndexesLoop (ds.heap this).classname (ds.heap this).objectaddress
        (ds.heap this).orgkeys ds.btrees = .ok r ∧ ds'.btrees = r.2) ∨
    (flushes objectExists ds this = true ∧ (ds.heap this).newobject = false ∧
      (ds.heap this).deleted = false ∧
      ∃ r, updateIndexesLoop (ds.heap this).classname (ds.heap this).objectaddress
        (ds.heap this).orgkeys (ds.heap this).keys ds.btrees = .ok r ∧
        ds'.btrees = r.2.2) := by
  have eN : ({ ds.heap this with saved := true } : Serialize).newobject =
      (ds.heap this).newobject := rfl
  have eD : ({ ds.heap this with saved := true } : Serialize).deleted =
      (ds.heap this).deleted := rfl
  have eC : ({ ds.heap this with saved := true } : Serialize).changed =
      (ds.heap this).changed := rfl
  have eK : ({ ds.heap this with saved := true } : Serialize).keys = (ds.heap this).keys := rfl
  have eO : ({ ds.heap this with saved := true } : Serialize).orgkeys =
      (ds.heap this).orgkeys := rfl
  have eCn : ({ ds.heap this with saved := true } : Serialize).classname =
      (ds.heap this).classname := rfl
  have eA : ({ ds.heap this with saved := true } : Serialize).objectaddress =
      (ds.heap this).objectaddress := rfl
  have hfe := flushes_eq objectExists ds this
  unfold SaveObject at hres
  simp only [setObj_heap_same, setObj_rebuildnode, setObj_datafile, setObj_btrees, hrb, ne_eq,
    not_true_eq_false, if_false] at hres
  generalize objectExists (ds.setObj this { ds.heap this with saved := true }) this = ex
    at hres hfe
  generalize ({ ds.heap this with saved := true } : Serialize) = o1
    at eN eD eC eK eO eCn eA hres
  rw [hfe]
  clear hfe
  cases hN : (ds.heap this).newobject with
  | true =>
    cases hF : (!(ds.heap this).deleted && ex) with
    | false =>
      simp only [hN, hF, if_true, Bool.false_eq_true, if_false, Except.ok.injEq,
        Prod.mk.injEq, and_true] at hres
      refine Or.inl ⟨by simp, ?_⟩
      rw [← hres]
      rfl
    | true =>
      have hD : (ds.heap this).deleted = false := by
        simp only [Bool.and_eq_true, Bool.not_eq_true'] at hF
        exact hF.1
      simp only [hN, hF, if_true] at hres
      unfold AddIndexes at hres
      rw [eCn, eA, eK] at hres
      cases hr : addIndexesLoop (ds.heap this).classname (ds.heap this).objectaddress
          (ds.heap this).keys ds.btrees with
      | error e => simp [hr] at hres
      | ok r =>
        simp only [hr] at hres
        refine Or.inr (Or.inl ⟨by simp, rfl, hD, r, rfl, ?_⟩)
        split at hres
        · simp at hres
        · split at hres
          · simp at hres
          · simp only [Except.ok.injEq, Prod.mk.injEq, and_true] at hres
            rw [← hres]
            rfl
  | false =>
    cases hD : (ds.heap this).deleted with
    | true =>
      simp only [hN, hD, Bool.true_or, if_true, Bool.false_eq_true, if_false] at hres
      split at hres
      · simp at hres
      · split at hres
        · simp at hres
        · unfold DeleteIndexes at hres
          simp only [(positionNode_same ds.datafile o1).2.1, (positionNode_same ds.datafile o1).2.2,
            positionNode_addr, eCn, eA, eO] at hres
          cases hr : deleteIndexesLoop (ds.heap this).classname (ds.heap this).objectaddress
              (ds.heap this).orgkeys ds.btrees with
          | error e => simp [hr] at hres
          | ok r =>
            simp only [hr, Except.ok.injEq, Prod.mk.injEq, and_true] at hres
            refine Or.inr (Or.inr (Or.inl ⟨by simp, rfl, rfl, r, rfl, ?_⟩))
            rw [← hres]
            rfl
    | false =>
      cases hF : ((ds.heap this).changed && ex) with
      | false =>
        simp only [hN, hD, hF, Bool.or_self, Bool.false_eq_true, if_false, Except.ok.injEq,
          Prod.mk.injEq, and_true] at hres
        refine Or.inl ⟨by simp, ?_⟩
        rw [← hres]
        rfl
      | true =>
        simp only [hN, hD, hF, Bool.or_true, Bool.false_eq_true, if_false, if_true] at hres
        split at hres
        · simp at hres
        · cases hw : ObjectOut ndl fuel (PositionNode ds.datafile o1).1
              (PositionNode ds.datafile o1).2.1 with
          | error e => simp [hw] at hres
          | ok w =>
            simp only [hw] at hres
            obtain ⟨w1, w2, w3⟩ := objectOut_same hw
            have w4 := objectOut_addr hw
            unfold UpdateIndexes at hres
            rw [w1, w2, w3, w4, (positionNode_same ds.datafile o1).1,
              (positionNode_same ds.datafile o1).2.1, (positionNode_same ds.datafile o1).2.2,
              positionNode_addr, eCn, eA, eO, eK] at hres
            cases hr : updateIndexesLoop (ds.heap this).classname (ds.heap this).objectaddress
                (ds.heap this).orgkeys (ds.heap this).keys ds.btrees with
            | error e => simp [hr] at hres
            | ok r =>
              simp only [hr, Except.ok.injEq, Prod.mk.injEq, and_true] at hres
              refine Or.inr (Or.inr (Or.inr ⟨by simp, rfl, rfl, r, rfl, ?_⟩))
              rw [← hres]
              rfl

theorem heldKey_true_iff (k : EdsKey) (b : List Nat) :
    heldKey true k = some b ↔ k.isNullValue = false ∧ b = k.bytes := by
  unfold heldKey
  cases k.isNullValue <;> simp [eq_comm]

theorem heldKey_false (k : EdsKey) : heldKey false k = none := by
  simp [heldKey]

theorem heldKey_congr {k k' : EdsKey} (h : k.bytes = k'.bytes) (p : Bool) :
    heldKey p k = heldKey p k' := by
  unfold heldKey EdsKey.isNullValue
  rw [h]

theorem exists_zip_of_mem {α β : Type} :
    ∀ (l1 : List α) (l2 : List β), l1.length = l2.length → ∀ k ∈ l2, ∃ a, (a, k) ∈ l1.zip l2
  | [], [], _, k, hk => by simp at hk
  | [], _ :: _, h, _, _ => by simp at h
  | _ :: _, [], h, _, _ => by simp at h
  | a :: l1, b :: l2, h, k, hk => by
    rw [List.mem_cons] at hk
    rcases hk with rfl | hk
    · exact ⟨a, by simp⟩
    · obtain ⟨a', ha'⟩ := exists_zip_of_mem l1 l2 (by simpa using h) k hk
      exact ⟨a', by simp [ha']⟩

theorem entriesAt_congr {bts bts' : List EdsBtree} {j : Nat} (h : bts'[j]? = bts[j]?) :
    entriesAt bts' j = entriesAt bts j := by
  simp only [entriesAt, h]

/-- C3, amended.  Outside rebuild mode, for an object whose keys belong to
pairwise distinct indexes, let `A` be its object address and take a
`SaveObject` that returns.  Suppose that before the call, for a new object, no
index of its keys holds a pair with file address `A`, and, for a persisted
object (whose original keys and keys have equal length and are paired by index
number), the index of each key holds with file address `A` exactly the original
key when that is not null.  Then the call keeps the position of every index;
pairs with any other file address are unchanged; when the call does not flush
the object (see `flushes`) the indexes are unchanged; when it flushes, the
index of each key holds with file address `A` exactly the key, when the object
is not deleted and the key is not null, and nothing otherwise; and when it
updates a persisted object, every index whose key bytes did not change is
unchanged. -/
theorem saveObject_index_agreement (ndl : Nat) (objectExists : EDatastore → Nat → Bool)
    (fuel : Nat) (ds : EDatastore) (this : Nat) (ds' : EDatastore)
    (hrb : ds.rebuildnode = 0)
    (hnd : ((ds.heap this).keys.map (fun k => k.indexno)).Nodup)
    (hlen : (ds.heap this).newobject = false →
      (ds.heap this).orgkeys.length = (ds.heap this).keys.length)
    (hpair : ∀ p ∈ (ds.heap this).orgkeys.zip (ds.heap this).keys, p.1.indexno = p.2.indexno)
    (hnew : (ds.heap this).newobject = true → ∀ k ∈ (ds.heap this).keys,
      ∀ j ∈ findBtree ds.btrees (ds.heap this).classname k.indexno,
        HoldsExactly ds.btrees j (ds.heap this).objectaddress none)
    (hold : (ds.heap this).newobject = false →
      ∀ p ∈ (ds.heap this).orgkeys.zip (ds.heap this).keys,
      ∀ j ∈ findBtree ds.btrees (ds.heap this).classname p.2.indexno,
        HoldsExactly ds.btrees j (ds.heap this).objectaddress (heldKey true p.1))
    (hres : SaveObject ndl objectExists fuel ds this = .ok (ds', none)) :
    (∀ cn i, findBtree ds'.btrees cn i = findBtree ds.btrees cn i) ∧
    (∀ j b a, a ≠ (ds.heap this).objectaddress →
      ((b, a) ∈ entriesAt ds'.btrees j ↔ (b, a) ∈ entriesAt ds.btrees j)) ∧
    (flushes objectExists ds this = true → ∀ k ∈ (ds.heap this).keys,
      ∀ j ∈ findBtree ds.btrees (ds.heap this).classname k.indexno,
        HoldsExactly ds'.btrees j (ds.heap this).objectaddress
          (heldKey (!(ds.heap this).deleted) k)) ∧
    (flushes objectExists ds this = false → ds'.btrees = ds.btrees) ∧
    ((ds.heap this).newobject = false → (ds.heap this).deleted = false →
      ∀ p ∈ (ds.heap this).orgkeys.zip (ds.heap this).keys, p.1.bytes = p.2.bytes →
      ∀ j ∈ findBtree ds.btrees (ds.heap this).classname p.2.indexno,
        ds'.btrees[j]? = ds.btrees[j]?) := by
  have huniq : ∀ k ∈ (ds.heap this).keys, ∀ k' ∈ (ds.heap this).keys, ∀ j,
      findBtree ds.btrees (ds.heap this).classname k.indexno = some j →
      findBtree ds.btrees (ds.heap this).classname k'.indexno = some j → k' = k :=
    fun k hk k' hk' j hj hj' => List.inj_on_of_nodup_map hnd hk' hk (findBtree_inj hj' hj)
  rcases saveObject_btrees ndl objectExists fuel ds this ds' hrb hres with
    ⟨hfl, hb⟩ | ⟨hfl, hN, hD, r, hr, hb⟩ | ⟨hfl, hN, hD, r, hr, hb⟩ | ⟨hfl, hN, hD, r, hr, hb⟩
  · rw [hb, hfl]
    exact ⟨fun _ _ => rfl, fun _ _ _ _ => Iff.rfl, fun h => Bool.noConfusion h, fun _ => rfl,
      fun _ _ _ _ _ _ _ => rfl⟩
  · obtain ⟨h1, h2⟩ := addIndexesLoop_spec _ _ _ _ _ hr
    rw [hb, hfl, hN, hD]
    refine ⟨h1, ?_, ?_, fun h => Bool.noConfusion h, fun h => Bool.noConfusion h⟩
    · intro j b a ha
      rw [h2]
      constructor
      · rintro (h | ⟨k, _, _, _, he⟩)
        · exact h
        · cases he
          exact absurd rfl ha
      · exact Or.inl
    · intro _ k hk j hj
      rw [holdsExactly_iff]
      intro b
      have hno := (holdsExactly_iff _ _ _ _).1 (hnew hN k hk j hj) b
      rw [h2, Bool.not_false, heldKey_true_iff]
      constructor
      · rintro (h | ⟨k', hk', hn', hj', he⟩)
        · exact absurd (hno.1 h) (by simp)
        · cases huniq k hk k' hk' j hj hj'
          cases he
          exact ⟨hn', rfl⟩
      · rintro ⟨hn, rfl⟩
        exact Or.inr ⟨k, hk, hn, hj, rfl⟩
  · obtain ⟨h1, h2⟩ := deleteIndexesLoop_spec _ _ _ _ _ hr
    rw [hb, hfl, hN, hD]
    refine ⟨h1, ?_, ?_, fun h => Bool.noConfusion h, fun _ h => Bool.noConfusion h⟩
    · intro j b a ha
      rw [h2]
      constructor
      · exact fun h => h.1
      · intro h
        refine ⟨h, ?_⟩
        rintro ⟨k, _, _, _, he⟩
        cases he
        exact ha rfl
    · intro _ k hk j hj
      rw [holdsExactly_iff]
      intro b
      rw [h2, Bool.not_true, heldKey_false]
      constructor
      · rintro ⟨hin, hnot⟩
        exfalso
        obtain ⟨oky, hp⟩ := exists_zip_of_mem _ _ (hlen hN) k hk
        have hh := ((holdsExactly_iff _ _ _ _).1 (hold hN (oky, k) hp j hj) b).1 hin
        rw [heldKey_true_iff] at hh
        refine hnot ⟨oky, (List.of_mem_zip hp).1, hh.1, ?_, by rw [hh.2]⟩
        rw [hpair (oky, k) hp]
        exact hj
      · intro h
        cases h
  · obtain ⟨h1, h2, h3⟩ := updateIndexesLoop_spec _ _ _ _ _ _ hr hpair hnd
    rw [hb, hfl, hN, hD]
    refine ⟨h1, ?_, ?_, fun h => Bool.noConfusion h, ?_⟩
    · intro j b a ha
      by_cases hex : ∃ k ∈ (ds.heap this).keys,
          findBtree ds.btrees (ds.heap this).classname k.indexno = some j
      · obtain ⟨k, hk, hj⟩ := hex
        obtain ⟨oky, hp⟩ := exists_zip_of_mem _ _ (hlen hN) k hk
        obtain ⟨ha', hb'⟩ := h3 (oky, k) hp j hj
        by_cases hq : oky.bytes = k.bytes
        · rw [entriesAt_congr (ha' hq)]
        · rw [hb' hq]
          constructor
          · rintro (⟨h, _⟩ | ⟨_, he⟩)
            · exact h
            · cases he
              exact absurd rfl ha
          · intro h
            refine Or.inl ⟨h, ?_⟩
            rintro ⟨_, he⟩
            cases he
            exact ha rfl
      · rw [entriesAt_congr (h2 j (fun k hk hj => hex ⟨k, hk, hj⟩))]
    · intro _ k hk j hj
      rw [holdsExactly_iff]
      intro b
      obtain ⟨oky, hp⟩ := exists_zip_of_mem _ _ (hlen hN) k hk
      have hh := (holdsExactly_iff _ _ _ _).1 (hold hN (oky, k) hp j hj) b
      obtain ⟨ha', hb'⟩ := h3 (oky, k) hp j hj
      rw [Bool.not_false]
      by_cases hq : oky.bytes = k.bytes
      · rw [entriesAt_congr (ha' hq), hh, heldKey_congr hq]
      · rw [hb' hq, hh, heldKey_true_iff, heldKey_true_iff]
        constructor
        · rintro (⟨h, hn⟩ | ⟨hn, he⟩)
          · exact absurd ⟨h.1, by rw [h.2]⟩ hn
          · cases he
            exact ⟨hn, rfl⟩
        · rintro ⟨hn, rfl⟩
          exact Or.inr ⟨hn, rfl⟩
    · intro _ _ p hp hq j hj
      exact (h3 p hp j hj).1 hq

theorem okState_spec {x : Except Fault (EDatastore × Option Exn)} (d0 : EDatastore)
    (h : (okState x).isSome = true) : x = .ok ((okState x).getD d0, none) := by
  cases x with
  | error e => simp [okState] at h
  | ok p =>
    obtain ⟨d, e⟩ := p
    cases e with
    | none => rfl
    | some e => simp [okState] at h

/-- Witness of `saveObject_index_agreement`: the loaded book `AA` of the sample
library, rekeyed to `BB` and marked changed, is saved through the update path;
afterwards the primary index of `Book` holds `BB` for address 1. -/
theorem saveObject_index_agreement_witness :
    bookRekeyedStore.rebuildnode = 0 ∧
    (okState (SaveObject 8 ObjectExists 4 bookRekeyedStore 0)).isSome = true ∧
    flushes ObjectExists bookRekeyedStore 0 = true ∧
    entriesAt bookRekeyedStore.btrees 0 = [([65, 65], 1)] ∧
    entriesAt bookRekeyedSaved.btrees 0 = [([66, 66], 1)] ∧
    ((∀ cn i, findBtree bookRekeyedSaved.btrees cn i = findBtree bookRekeyedStore.btrees cn i) ∧
    (∀ j b a, a ≠ (bookRekeyedStore.heap 0).objectaddress →
      ((b, a) ∈ entriesAt bookRekeyedSaved.btrees j ↔
        (b, a) ∈ entriesAt bookRekeyedStore.btrees j)) ∧
    (flushes ObjectExists bookRekeyedStore 0 = true → ∀ k ∈ (bookRekeyedStore.heap 0).keys,
      ∀ j ∈ findBtree bookRekeyedStore.btrees (bookRekeyedStore.heap 0).classname k.indexno,
        HoldsExactly bookRekeyedSaved.btrees j (bookRekeyedStore.heap 0).objectaddress
          (heldKey (!(bookRekeyedStore.heap 0).deleted) k)) ∧
    (flushes ObjectExists bookRekeyedStore 0 = false →
      bookRekeyedSaved.btrees = bookRekeyedStore.btrees) ∧
    ((bookRekeyedStore.heap 0).newobject = false → (bookRekeyedStore.heap 0).deleted = false →
      ∀ p ∈ (bookRekeyedStore.heap 0).orgkeys.zip (bookRekeyedStore.heap 0).keys,
      p.1.bytes = p.2.bytes →
      ∀ j ∈ findBtree bookRekeyedStore.btrees (bookRekeyedStore.heap 0).classname p.2.indexno,
        bookRekeyedSaved.btrees[j]? = bookRekeyedStore.btrees[j]?)) :=
  ⟨by decide, by decide, by decide, by decide, by decide,
   saveObject_index_agreement 8 ObjectExists 4 bookRekeyedStore 0 bookRekeyedSaved
     (by decide) (by decide) (by decide) (by decide) (by decide) (by decide)
     (okState_spec bookRekeyedStore (by decide))⟩

/-- C3, as stated, fails for a persisted object whose change was refused.  The
loan in node 2 of the sample library is loaded (original keys `AA77`, `AA`) and
the application sets its ISBN key to `BB`; no book `BB` exists, so
`ChangeObject` returns false and leaves the object unmarked.  The keys are
paired with the original keys by index number and each index holds the
original key at address 2.  `SaveObject` returns and the object remains
persisted and not deleted, yet the ISBN index still holds `AA` at address 2 and
not the non-null key `BB`. -/
theorem saveObject_refused_change_keeps_old_key :
    resultOf (ChangeObject loanMovedStore 0) = some false ∧
    loanMovedStore.rebuildnode = 0 ∧
    ((loanMovedStore.heap 0).newobject, (loanMovedStore.heap 0).deleted,
      (loanMovedStore.heap 0).changed) = (false, false, false) ∧
    (loanMovedStore.heap 0).orgkeys.map (fun k => k.indexno) =
      (loanMovedStore.heap 0).keys.map (fun k => k.indexno) ∧
    (∀ p ∈ (loanMovedStore.heap 0).orgkeys.zip (loanMovedStore.heap 0).keys,
      ∀ j ∈ findBtree loanMovedStore.btrees loanName p.2.indexno,
        HoldsExactly loanMovedStore.btrees j 2 (heldKey true p.1)) ∧
    (okState (SaveObject 8 ObjectExists 4 loanMovedStore 0)).map
      (fun d => ((d.heap 0).objectaddress, (d.heap 0).deleted,
        (d.heap 0).keys.map (fun k => k.bytes))) =
      some (2, false, [[65, 65, 7, 7], [66, 66]]) ∧
    (okState (SaveObject 8 ObjectExists 4 loanMovedStore 0)).map
      (fun d => (findBtree d.btrees loanName 1, entriesAt d.btrees 2,
        decide (HoldsExactly d.btrees 2 2 (some [66, 66])))) =
      some (some 2, [([65, 65], 2)], false) := by
  refine ⟨by decide, by decide, by decide, by decide, by decide, by decide, by decide⟩

/-! ## Keyless traversal -/

theorem matches_congr {f g : PagedFile} (h : g.nodes = f.nodes) (o : Serialize) (x : Nat) :
    Matches g o x ↔ Matches f o x := by
  simp [Matches, GetObjectHeader, PagedFile.ReadData, PagedFile.openNode, PagedFile.Seek, h]

theorem scanForwardLoop_spec (o : Serialize) :
    ∀ (k : Nat) (f : PagedFile) (nd : Nat), f.highest - nd ≤ k →
      ((scanForwardLoop k f o nd).2.objectaddress = o.objectaddress ∧
        ∀ x, nd < x → x ≤ f.highest → ¬ Matches f o x) ∨
      (nd < (scanForwardLoop k f o nd).2.objectaddress ∧
        (scanForwardLoop k f o nd).2.objectaddress ≤ f.highest ∧
        Matches f o (scanForwardLoop k f o nd).2.objectaddress ∧
        ∀ x, nd < x → x < (scanForwardLoop k f o nd).2.objectaddress → ¬ Matches f o x) := by
  intro k
  induction k with
  | zero =>
    intro f nd hk
    refine Or.inl ⟨rfl, ?_⟩
    intro x h1 h2
    omega
  | succ k ih =>
    intro f nd hk
    rw [scanForwardLoop]
    by_cases hlt : nd < f.highest
    · rw [if_pos hlt]
      dsimp only
      by_cases hm : (GetObjectHeader f (nd + 1)).1.classid = o.objhdr.classid ∧
          (GetObjectHeader f (nd + 1)).1.ndnbr = 0
      · rw [if_pos hm]
        refine Or.inr ⟨Nat.lt_succ_self _, hlt, hm, ?_⟩
        intro x h1 h2
        have h3 : x < nd + 1 := h2
        omega
      · rw [if_neg hm]
        have hfile : (GetObjectHeader f (nd + 1)).2.nodes = f.nodes := rfl
        have hhigh : (GetObjectHeader f (nd + 1)).2.highest = f.highest := rfl
        have hstep : ∀ x, nd < x → ¬ nd + 1 < x → ¬ Matches f o x := by
          intro x h1 h2
          have hx : x = nd + 1 := by omega
          rw [hx]
          exact hm
        rcases ih (GetObjectHeader f (nd + 1)).2 (nd + 1) (by rw [hhigh]; omega) with
          ⟨h1, h2⟩ | ⟨h1, h2, h3, h4⟩
        · refine Or.inl ⟨h1, ?_⟩
          intro x hx1 hx2
          by_cases hx : nd + 1 < x
          · exact fun hmx => h2 x hx (by rw [hhigh]; exact hx2) ((matches_congr hfile o x).2 hmx)
          · exact hstep x hx1 hx
        · refine Or.inr ⟨by omega, by rw [← hhigh]; exact h2, (matches_congr hfile o _).1 h3, ?_⟩
          intro x hx1 hx2
          by_cases hx : nd + 1 < x
          · exact fun hmx => h4 x hx hx2 ((matches_congr hfile o x).2 hmx)
          · exact hstep x hx1 hx
    · rw [if_neg hlt]
      refine Or.inl ⟨rfl, ?_⟩
      intro x h1 h2
      omega

theorem scanBackwardLoop_spec (o : Serialize) :
    ∀ (nd : Nat) (f : PagedFile),
      ((scanBackwardLoop nd f o).2.objectaddress = o.objectaddress ∧
        ∀ x, 0 < x → x < nd → ¬ Matches f o x) ∨
      (0 < (scanBackwardLoop nd f o).2.objectaddress ∧
        (scanBackwardLoop nd f o).2.objectaddress < nd ∧
        Matches f o (scanBackwardLoop nd f o).2.objectaddress ∧
        ∀ x, (scanBackwardLoop nd f o).2.objectaddress < x → x < nd → ¬ Matches f o x) := by
  intro nd
  induction nd with
  | zero =>
    intro f
    refine Or.inl ⟨rfl, ?_⟩
    intro x h1 h2
    omega
  | succ n ih =>
    intro f
    rw [scanBackwardLoop]
    by_cases hn : n = 0
    · rw [if_pos hn]
      refine Or.inl ⟨rfl, ?_⟩
      intro x h1 h2
      omega
    · rw [if_neg hn]
      dsimp only
      by_cases hm : (GetObjectHeader f n).1.classid = o.objhdr.classid ∧
          (GetObjectHeader f n).1.ndnbr = 0
      · rw [if_pos hm]
        refine Or.inr ⟨Nat.pos_of_ne_zero hn, Nat.lt_succ_self _, hm, ?_⟩
        intro x h1 h2
        have h3 : n < x := h1
        omega
      · rw [if_neg hm]
        have hfile : (GetObjectHeader f n).2.nodes = f.nodes := rfl
        have hstep : ∀ x, x < n + 1 → ¬ x < n → ¬ Matches f o x := by
          intro x h1 h2
          have hx : x = n := by omega
          rw [hx]
          exact hm
        rcases ih (GetObjectHeader f n).2 with ⟨h1, h2⟩ | ⟨h1, h2, h3, h4⟩
        · refine Or.inl ⟨h1, ?_⟩
          intro x hx1 hx2
          by_cases hx : x < n
          · exact fun hmx => h2 x hx1 hx ((matches_congr hfile o x).2 hmx)
          · exact hstep x hx2 hx
        · refine Or.inr ⟨h1, Nat.lt_succ_of_lt h2, (matches_congr hfile o _).1 h3, ?_⟩
          intro x hx1 hx2
          by_cases hx : x < n
          · exact fun hmx => h4 x hx1 hx ((matches_congr hfile o x).2 hmx)
          · exact hstep x hx2 hx

theorem scanBackwardLoop_below :
    ∀ (nd : Nat) (f : PagedFile) (o : Serialize),
      (scanBackwardLoop nd f o).2.objectaddress = o.objectaddress ∨
      (scanBackwardLoop nd f o).2.objectaddress < nd
  | 0, f, o => Or.inl rfl
  | n + 1, f, o => by
    rw [scanBackwardLoop]
    by_cases hn : n = 0
    · rw [if_pos hn]
      exact Or.inl rfl
    · rw [if_neg hn]
      dsimp only
      split
      · exact Or.inr (Nat.lt_succ_self n)
      · rcases scanBackwardLoop_below n (GetObjectHeader f n).2 o with h | h
        · exact Or.inl h
        · exact Or.inr (Nat.lt_succ_of_lt h)

/-- C11 fails for `LastObject`.  In `twoObjFile` the highest node is 2 and the
nodes 1 and 2 both carry the header of a first node of class 3, the class of
the keyless object.  `FirstObject` sets the object address to 1, `NextObject`
from address 1 sets it to 2 and `PreviousObject` from address 2 sets it to 1,
but `LastObject` sets it to 1 and reads the object of node 1: its scan starts
with `--nd` at `HighestNode()`, so node 2, the largest matching node, is never
examined. -/
theorem lastObject_skips_highest_node :
    twoObjFile.highest = 2 ∧
    (List.range 3).map (fun n => ((GetObjectHeader twoObjFile n).1.classid,
      (GetObjectHeader twoObjFile n).1.ndnbr)) = [(0, 0), (3, 0), (3, 0)] ∧
    (twoObjStore.heap 0).objhdr.classid = 3 ∧ (twoObjStore.heap 0).keys = [] ∧
    (okState (FirstObject 8 noCursor twoObjStore 0 none)).map
      (fun d => ((d.heap 0).objectaddress, (d.heap 0).members)) = some (1, [[10, 11, 12, 13]]) ∧
    (okState (NextObject 8 noCursor twoObjStore 1 none)).map
      (fun d => ((d.heap 1).objectaddress, (d.heap 1).members)) = some (2, [[20, 21, 22, 23]]) ∧
    (okState (PreviousObject 8 noCursor twoObjStore 2 none)).map
      (fun d => ((d.heap 2).objectaddress, (d.heap 2).members)) = some (1, [[10, 11, 12, 13]]) ∧
    (okState (LastObject 8 noCursor twoObjStore 0 none)).map
      (fun d => ((d.heap 0).objectaddress, (d.heap 0).members)) = some (1, [[10, 11, 12, 13]]) := by
  refine ⟨by decide, by decide, by decide, by decide, by decide, by decide, by decide, by decide⟩

/-! ## DeleteObject on a keyless object -/

/-- C13 fails.  For every datastore and every object with an empty key list,
`DeleteObject` reads `key->isNullValue()` through the null pointer that
`keys.FirstEntry()` returns: it neither marks the object nor returns.
`TestRelationships` tests the same pointer (`if (key == 0) return true`) and
returns true.  The keyless object of `sampleStore` is such an object. -/
theorem deleteObject_keyless_null_dereference (ds : EDatastore) (this : Nat) (o : Serialize) :
    DeleteObject (ds.setObj this { o with keys := [] }) this = .error Fault.nullDeref ∧
    resultOf (TestRelationships (ds.setObj this { o with keys := [] }) { o with keys := [] }) =
      some true ∧
    (sampleStore.heap 0).keys = [] ∧ resultOf (DeleteObject sampleStore 0) = none := by
  refine ⟨?_, rfl, by decide, by decide⟩
  unfold DeleteObject
  simp only [setObj_heap_same]
  rfl

/-! ## End of write -/

theorem chain_unique {nodes : Nat → NodeRec} :
    ∀ (r1 r2 : List Nat) (n : Nat), Chain nodes n r1 → Chain nodes n r2 → r1 = r2
  | [], [], _, _, _ => rfl
  | [], m :: r2, n, h1, h2 => by
    simp only [Chain] at h1 h2
    exact absurd (h2.1.symm.trans h1) h2.2.1
  | m :: r1, [], n, h1, h2 => by
    simp only [Chain] at h1 h2
    exact absurd (h1.1.symm.trans h2) h1.2.1
  | m :: r1, m' :: r2, n, h1, h2 => by
    simp only [Chain] at h1 h2
    have hm : m = m' := h1.1.symm.trans h2.1
    subst hm
    rw [chain_unique r1 r2 m h1.2.2 h2.2.2]

theorem grows_refl (f : PagedFile) : Grows f f :=
  ⟨fun _ h => h, le_refl _, fun _ h => h⟩

theorem grows_trans {f g h : PagedFile} (h1 : Grows f g) (h2 : Grows g h) : Grows f h :=
  ⟨fun x hx => h1.1 x (h2.1 x hx), le_trans h1.2.1 h2.2.1, fun x hx => h1.2.2 x (h2.2.2 x hx)⟩

theorem kept_refl (f : PagedFile) (n : Nat) (rest : List Nat) : Kept f n rest n rest :=
  Or.inl (List.suffix_refl _)

theorem kept_trans {f f1 : PagedFile} {n n1 n2 : Nat} {rest rest1 rest2 : List Nat}
    (h1 : Kept f n rest n1 rest1) (h2 : Kept f1 n1 rest1 n2 rest2) (hg : Grows f f1) :
    Kept f n rest n2 rest2 := by
  rcases h2 with h2 | ⟨h2, h2'⟩
  · rcases h1 with h1 | ⟨h1, h1'⟩
    · exact Or.inl (h2.trans h1)
    · subst h1
      have hl := h2.length_le
      simp only [List.length_cons, List.length_nil] at hl
      have hr : rest2 = [] := List.length_eq_zero.1 (by omega)
      subst hr
      have hmem : n2 ∈ [n1] := h2.subset (List.mem_cons_self _ _)
      rw [List.mem_singleton] at hmem
      subst hmem
      exact Or.inr ⟨rfl, h1'⟩
  · refine Or.inr ⟨h2, ?_⟩
    rcases h2' with h | h
    · exact Or.inl (hg.1 _ h)
    · exact Or.inr (lt_of_le_of_lt hg.2.1 h)

theorem linkNext_next (f : PagedFile) (o : Serialize) (n nx x : Nat) (h : x ≠ n) :
    ((linkNext f o n nx).1.nodes x).next = (f.nodes x).next := by
  simp only [linkNext, WriteObjectHeader, PagedFile.WriteData, PagedFile.openNode,
    PagedFile.Seek, PagedFile.SetNextNode, setNode]
  split
  · rename_i hx
    subst hx
    simp [h]
  · simp [h]

theorem linkNext_grows (f : PagedFile) (o : Serialize) (n nx : Nat) :
    Grows f (linkNext f o n nx).1 := by
  refine ⟨fun _ h => h, le_refl _, ?_⟩
  intro x
  simp only [linkNext, WriteObjectHeader, PagedFile.WriteData, PagedFile.openNode,
    PagedFile.Seek, PagedFile.SetNextNode, setNode]
  split_ifs <;> simp_all

theorem newNode_grows (f : PagedFile) : Grows f f.NewNode.2 := by
  unfold PagedFile.NewNode
  cases hfree : f.free with
  | nil =>
    refine ⟨by simp [hfree], by simp, ?_⟩
    intro x
    simp only [setNode]
    split_ifs <;> simp [NodeRec.blank]
  | cons y fr =>
    refine ⟨fun x hx => by simpa [hfree] using Or.inr hx, le_refl _, ?_⟩
    intro x
    simp only [setNode]
    split_ifs <;> simp [NodeRec.blank]

theorem newNode_new (f : PagedFile) :
    (f.NewNode.1 ∈ f.free ∨ f.highest < f.NewNode.1) ∧
    (f.NewNode.2.nodes f.NewNode.1).next = 0 := by
  unfold PagedFile.NewNode
  cases hfree : f.free with
  | nil => simp [NodeRec.blank]
  | cons y fr => simp [NodeRec.blank]

theorem writeAdvance_eq (f : PagedFile) (o : Serialize) (n : Nat) :
    ((f.nodes n).next ≠ 0 → writeAdvance f o n = linkNext f o n (f.nodes n).next) ∧
    ((f.nodes n).next = 0 → writeAdvance f o n = linkNext f.NewNode.2 o n f.NewNode.1) := by
  constructor
  · intro h
    simp [writeAdvance, PagedFile.NextNode, h]
  · intro h
    simp [writeAdvance, PagedFile.NextNode, h]

theorem writeAdvance_grows (f : PagedFile) (o : Serialize) (n : Nat) :
    Grows f (writeAdvance f o n).1 := by
  by_cases h : (f.nodes n).next = 0
  · rw [(writeAdvance_eq f o n).2 h]
    exact grows_trans (newNode_grows f) (linkNext_grows _ _ _ _)
  · rw [(writeAdvance_eq f o n).1 h]
    exact linkNext_grows _ _ _ _

theorem writeData_grows (f : PagedFile) (c : List Nat) : Grows f (f.WriteData c) := by
  refine ⟨fun _ h => h, le_refl _, ?_⟩
  intro x
  simp only [PagedFile.WriteData, setNode]
  split_ifs <;> simp_all

theorem winv_not_behind {ndl : Nat} {f : PagedFile} {o : Serialize} {n : Nat}
    {rest B : List Nat} (h : WInv ndl f o n rest B) : ∀ x ∈ n :: rest, x ∉ B := by
  intro x hx hxB
  have hnd := h.wf.nodup
  rw [← List.cons_append, List.nodup_append] at hnd
  exact hnd.2.2 hx (List.mem_append_right _ hxB)

theorem writeAdvance_kept (ndl : Nat) (hndl : hdrSize ≤ ndl) {f : PagedFile} {o : Serialize}
    {n : Nat} {rest B : List Nat} (h : WInv ndl f o n rest B) (n1 : Nat) (rest1 : List Nat)
    (hn : (writeAdvance f o n).2.node = some n1)
    (hc : Chain (writeAdvance f o n).1.nodes n1 rest1) : Kept f n rest n1 rest1 := by
  obtain ⟨m, r, a1, _, _, _, _, _, _⟩ := writeAdvance_spec ndl hndl h
  have hm : m = n1 := by
    have hnode := a1.node
    rw [hn] at hnode
    exact (Option.some.inj hnode).symm
  rw [hm] at a1
  have hr : r = rest1 := chain_unique _ _ _ a1.wf.chain hc
  rw [hr] at a1
  have hnotin : ∀ x ∈ n1 :: rest1, x ≠ n := by
    intro x hx hxn
    exact winv_not_behind a1 x hx (by rw [hxn]; exact List.mem_cons_self _ _)
  by_cases h0 : (f.nodes n).next = 0
  · rw [(writeAdvance_eq f o n).2 h0] at hn hc
    have hn1 : f.NewNode.1 = n1 := Option.some.inj hn
    have hc' : Chain f.NewNode.2.nodes n1 rest1 :=
      Chain.congr rest1 n1 (fun x hx => (linkNext_next _ _ _ _ _ (hnotin x hx)).symm) hc
    have hnil : Chain f.NewNode.2.nodes n1 [] := by
      rw [← hn1]
      exact (newNode_new f).2
    have hrest : rest1 = [] := chain_unique _ _ _ hc' hnil
    refine Or.inr ⟨hrest, ?_⟩
    rw [← hn1]
    exact (newNode_new f).1
  · rw [(writeAdvance_eq f o n).1 h0] at hn hc
    have hn1 : (f.nodes n).next = n1 := Option.some.inj hn
    have hc' : Chain f.nodes n1 rest1 :=
      Chain.congr rest1 n1 (fun x hx => (linkNext_next _ _ _ _ _ (hnotin x hx)).symm) hc
    cases rest with
    | nil => exact absurd h.wf.chain h0
    | cons m0 rest0 =>
      obtain ⟨hm0, _, hc0⟩ := h.wf.chain
      have hmn : m0 = n1 := hm0.symm.trans hn1
      rw [hmn] at hc0
      rw [hmn, chain_unique _ _ _ hc0 hc']
      exact Or.inl (List.suffix_cons _ _)

theorem writeLoop_kept (ndl : Nat) (hndl : hdrSize < ndl) :
    ∀ (fuel : Nat) (buf : List Nat) (f : PagedFile) (o : Serialize) (n : Nat)
      (rest B : List Nat), WInv ndl f o n rest B →
      ∀ f' o', writeLoop ndl fuel f o buf = some (f', o') →
      Grows f f' ∧
      ∀ n' rest', o'.node = some n' → Chain f'.nodes n' rest' → Kept f n rest n' rest' := by
  intro fuel
  induction fuel with
  | zero =>
    intro buf f o n rest B _ f' o' h
    simp [writeLoop] at h
  | succ k ih =>
    intro buf f o n rest B hW f' o' h
    rw [writeLoop] at h
    simp only [hW.node] at h
    by_cases hbuf : buf.length = 0
    · simp only [hbuf, if_true, Option.some.injEq, Prod.mk.injEq] at h
      obtain ⟨hf, ho⟩ := h
      subst hf ho
      refine ⟨grows_refl _, ?_⟩
      intro n' rest' hn hc
      have hnn : n = n' := Option.some.inj (hW.node.symm.trans hn)
      subst hnn
      rw [chain_unique _ _ _ hc hW.wf.chain]
      exact kept_refl _ _ _
    · simp only [hbuf, if_false] at h
      by_cases hoff : o.offset = ndl
      · simp only [hoff, if_true] at h
        obtain ⟨n1, rest1, a1, a2, _⟩ := writeAdvance_spec ndl (le_of_lt hndl) hW
        have hcl : (buf.take (min buf.length (ndl - (writeAdvance f o n).2.offset))).length =
            min buf.length (ndl - (writeAdvance f o n).2.offset) := by
          simp
        have hc : (writeAdvance f o n).2.offset +
            (buf.take (min buf.length (ndl - (writeAdvance f o n).2.offset))).length ≤ ndl := by
          rw [hcl, a2]
          omega
        obtain ⟨hw, _, _⟩ := writeChunk_spec ndl a1 _ hc
        rw [hcl] at hw
        obtain ⟨g2, k2⟩ := ih _ _ _ _ _ _ hw f' o' h
        have g1 := writeAdvance_grows f o n
        refine ⟨grows_trans g1 (grows_trans (writeData_grows _ _) g2), ?_⟩
        intro n' rest' hn hc'
        have k1 := writeAdvance_kept ndl (le_of_lt hndl) hW n1 rest1 a1.node a1.wf.chain
        exact kept_trans k1 (k2 n' rest' hn hc') (grows_trans g1 (writeData_grows _ _))
      · simp only [hoff, if_false] at h
        have hlt : o.offset < ndl := lt_of_le_of_ne hW.hi hoff
        have hcl : (buf.take (min buf.length (ndl - o.offset))).length =
            min buf.length (ndl - o.offset) := by
          simp
        have hc : o.offset + (buf.take (min buf.length (ndl - o.offset))).length ≤ ndl := by
          rw [hcl]
          omega
        obtain ⟨hw, _, _⟩ := writeChunk_spec ndl hW _ hc
        rw [hcl] at hw
        obtain ⟨g2, k2⟩ := ih _ _ _ _ _ _ hw f' o' h
        refine ⟨grows_trans (writeData_grows _ _) g2, ?_⟩
        intro n' rest' hn hc'
        exact k2 n' rest' hn hc'

theorem writeAll_kept (ndl : Nat) (hndl : hdrSize < ndl) :
    ∀ (bufs : List (List Nat)) (f : PagedFile) (o : Serialize) (n : Nat) (rest B : List Nat),
      WInv ndl f o n rest B →
      ∀ f' o', writeAll ndl f o bufs = some (f', o') →
      Grows f f' ∧
      ∀ n' rest', o'.node = some n' → Chain f'.nodes n' rest' → Kept f n rest n' rest' := by
  intro bufs
  induction bufs with
  | nil =>
    intro f o n rest B hW f' o' h
    simp only [writeAll, Option.some.injEq, Prod.mk.injEq] at h
    obtain ⟨hf, ho⟩ := h
    subst hf ho
    refine ⟨grows_refl _, ?_⟩
    intro n' rest' hn hc
    have hnn : n = n' := Option.some.inj (hW.node.symm.trans hn)
    subst hnn
    rw [chain_unique _ _ _ hc hW.wf.chain]
    exact kept_refl _ _ _
  | cons b bs ih =>
    intro f o n rest B hW f' o' h
    obtain ⟨f1, o1, n1, rest1, B1, a1, a2, _⟩ :=
      writeLoop_ok ndl hndl (b.length + 1) b f o n rest B (Nat.lt_succ_self _) hW
    simp only [writeAll, EdsWriteObject, a1] at h
    obtain ⟨g1, k1⟩ := writeLoop_kept ndl hndl _ _ _ _ _ _ _ hW f1 o1 a1
    obtain ⟨g2, k2⟩ := ih f1 o1 n1 rest1 B1 a2 f' o' h
    refine ⟨grows_trans g1 g2, ?_⟩
    intro n' rest' hn hc
    exact kept_trans (k1 n1 rest1 a2.node a2.wf.chain) (k2 n' rest' hn hc) g1

theorem releaseChain_stop (fuel : Nat) (f : PagedFile) : releaseChain fuel f 0 = some f := by
  unfold releaseChain
  simp

theorem releaseChain_succ (k : Nat) (f : PagedFile) {nx : Nat} (hn : nx ≠ 0) :
    releaseChain (k + 1) f nx =
      releaseChain k ((f.openNode nx).MarkNodeDeleted nx) (f.NextNode nx) := by
  rw [releaseChain.eq_def]
  simp only [hn, if_false]

theorem releaseChain_spec :
    ∀ (tail : List Nat) (nodes0 : Nat → NodeRec) (n : Nat) (f : PagedFile) (fuel : Nat),
      Chain nodes0 n tail → (∀ x ∈ tail, (f.nodes x).next = (nodes0 x).next) →
      tail.length ≤ fuel →
      ∃ g, releaseChain fuel f (nodes0 n).next = some g ∧
        (∀ x ∈ tail, (g.nodes x).deleted = true) ∧
        (∀ x, x ∉ tail → g.nodes x = f.nodes x) ∧
        (∀ x, (g.nodes x).next = (f.nodes x).next ∧ (g.nodes x).data = (f.nodes x).data) := by
  intro tail
  induction tail with
  | nil =>
    intro nodes0 n f fuel hc _ _
    have hn : (nodes0 n).next = 0 := hc
    rw [hn, releaseChain_stop]
    exact ⟨f, rfl, fun _ hx => absurd hx (List.not_mem_nil _), fun _ _ => rfl,
      fun _ => ⟨rfl, rfl⟩⟩
  | cons m r ih =>
    intro nodes0 n f fuel hc hnext hfuel
    obtain ⟨hm, hm0, hc'⟩ := hc
    cases fuel with
    | zero => simp at hfuel
    | succ k =>
      have hmark : ∀ x, (((f.openNode m).MarkNodeDeleted m).nodes x).next = (f.nodes x).next ∧
          (((f.openNode m).MarkNodeDeleted m).nodes x).data = (f.nodes x).data := by
        intro x
        by_cases hx : x = m
        · subst hx
          simp [PagedFile.MarkNodeDeleted, PagedFile.openNode, PagedFile.Seek]
        · simp [PagedFile.MarkNodeDeleted, PagedFile.openNode, PagedFile.Seek, setNode_ne _ _ hx]
      obtain ⟨g, h1, h2, h3, h4⟩ := ih nodes0 m ((f.openNode m).MarkNodeDeleted m) k hc'
        (fun x hx => ((hmark x).1).trans (hnext x (List.mem_cons_of_mem _ hx)))
        (by simp only [List.length_cons] at hfuel; omega)
      have hnx : f.NextNode m = (nodes0 m).next := hnext m (List.mem_cons_self _ _)
      refine ⟨g, ?_, ?_, ?_, ?_⟩
      · rw [hm, releaseChain_succ k f hm0, hnx]
        exact h1
      · intro x hx
        by_cases hxr : x ∈ r
        · exact h2 x hxr
        · rcases List.mem_cons.1 hx with rfl | hx
          · rw [h3 x hxr]
            simp [PagedFile.MarkNodeDeleted, PagedFile.openNode, PagedFile.Seek]
          · exact absurd hx hxr
      · intro x hx
        have hxm : x ≠ m := fun h => hx (h ▸ List.mem_cons_self _ _)
        rw [h3 x (fun h => hx (List.mem_cons_of_mem _ h))]
        simp [PagedFile.MarkNodeDeleted, PagedFile.openNode, PagedFile.Seek, setNode_ne _ _ hxm]
      · intro x
        exact ⟨(h4 x).1.trans (hmark x).1, (h4 x).2.trans (hmark x).2⟩

theorem pad_spec (ndl : Nat) {f1 : PagedFile} {o1 : Serialize} {n' : Nat} {rest' B' : List Nat}
    (h : WInv ndl f1 o1 n' rest' B') (f2 : PagedFile)
    (hf2 : f2 = if ndl - o1.offset ≠ 0 then f1.WriteData (List.replicate (ndl - o1.offset) 0)
      else f1) :
    (∀ x, (f2.nodes x).next = (f1.nodes x).next ∧
      (f2.nodes x).deleted = (f1.nodes x).deleted) ∧
    (∀ i, o1.offset ≤ i → i < ndl → (f2.nodes n').data i = 0) ∧
    (∀ i, i < o1.offset → (f2.nodes n').data i = (f1.nodes n').data i) := by
  by_cases hp : ndl - o1.offset = 0
  · rw [if_neg (not_not.2 hp)] at hf2
    subst hf2
    refine ⟨fun _ => ⟨rfl, rfl⟩, ?_, fun _ _ => rfl⟩
    intro i h1 h2
    omega
  · rw [if_pos hp] at hf2
    subst hf2
    refine ⟨?_, ?_, ?_⟩
    · intro x
      by_cases hx : x = f1.posNode
      · subst hx
        simp [PagedFile.WriteData]
      · simp [PagedFile.WriteData, setNode_ne _ _ hx]
    · intro i h1 h2
      simp only [PagedFile.WriteData, h.posn, h.poso, setNode_same, writeBytes,
        List.length_replicate]
      rw [if_pos ⟨h1, by omega⟩]
      simp only [List.getD_eq_getElem?_getD, List.getElem?_replicate]
      split <;> rfl
    · intro i h1
      simp only [PagedFile.WriteData, h.posn, h.poso, setNode_same, writeBytes]
      rw [if_neg]
      omega

/-- C12. End of write.  An object at address `A` (non-zero, with a well-formed
node chain `A :: rest`: acyclic, ended by 0, disjoint from the free list) is
positioned at its first node.  Then `ObjectOut` returns; `n'` being the node and
`o1.offset` the offset at which the writing of the data members ends, the
payload bytes of `n'` from `o1.offset` on are zero and those before are as
written, the next pointer of `n'` is 0, the nodes `tail` that followed `n'` in
the chain before the write (none when `n'` was allocated by the write) are
marked deleted, and every other node that is marked deleted was so before. -/
theorem objectOut_end_of_write (ndl : Nat) (hndl : hdrSize < ndl) (fuel : Nat)
    (f0 : PagedFile) (o0 : Serialize) (rest : List Nat)
    (hA : o0.objectaddress ≠ 0) (hwf : ChainWF f0 o0.objectaddress rest [])
    (hfuel : rest.length ≤ fuel) :
    ∃ f1 o1 n' tail g o2,
      writeAll ndl (PositionNode f0 o0).1 (PositionNode f0 o0).2.1 o0.members = some (f1, o1) ∧
      o1.node = some n' ∧ hdrSize ≤ o1.offset ∧ o1.offset ≤ ndl ∧
      ObjectOut ndl fuel (PositionNode f0 o0).1 (PositionNode f0 o0).2.1 = .ok (g, o2) ∧
      (∀ i, o1.offset ≤ i → i < ndl → (g.nodes n').data i = 0) ∧
      (∀ i, i < o1.offset → (g.nodes n').data i = (f1.nodes n').data i) ∧
      (g.nodes n').next = 0 ∧
      ((n' :: tail) <:+ (o0.objectaddress :: rest) ∨
        (tail = [] ∧ n' ∉ o0.objectaddress :: rest)) ∧
      (∀ x ∈ tail, (g.nodes x).deleted = true) ∧
      (∀ x, x ∉ tail → (g.nodes x).deleted = true → (f0.nodes x).deleted = true) := by
  obtain ⟨p1, p2, _⟩ := positionNode_ok (f := f0) (o := o0) hA
  have hw : WInv ndl (PositionNode f0 o0).1 (PositionNode f0 o0).2.1 o0.objectaddress rest [] := by
    rw [p1, p2]
    exact ⟨rfl, le_refl _, le_of_lt hndl, rfl, rfl, hwf.chain, hwf.nodup, hwf.bound, hwf.freenz⟩
  have hmem : (PositionNode f0 o0).2.1.members = o0.members := by rw [p2]
  obtain ⟨f1, o1, n', rest', B', e1, e2, _⟩ := writeAll_ok ndl hndl o0.members _ _ _ _ _ hw
  obtain ⟨g1, k1⟩ := writeAll_kept ndl hndl o0.members _ _ _ _ _ hw f1 o1 e1
  have hk : (n' :: rest') <:+ (o0.objectaddress :: rest) ∨
      (rest' = [] ∧ n' ∉ o0.objectaddress :: rest) := by
    rcases k1 n' rest' e2.node e2.wf.chain with h | ⟨h, h'⟩
    · exact Or.inl h
    · refine Or.inr ⟨h, ?_⟩
      rw [p1] at h'
      intro hin
      rcases h' with h' | h'
      · have hnd := hwf.nodup
        rw [← List.cons_append, List.nodup_append] at hnd
        exact hnd.2.2 hin (List.mem_append_left _ h')
      · have := hwf.bound n' (by
          rw [← List.cons_append]
          exact List.mem_append_left _ hin)
        simp only at h'
        omega
  have hlen : rest'.length ≤ fuel := by
    rcases hk with h | ⟨h, _⟩
    · have := h.length_le
      simp only [List.length_cons] at this
      omega
    · rw [h]
      exact Nat.zero_le _
  obtain ⟨f2, hf2⟩ : ∃ f2, f2 = if ndl - o1.offset ≠ 0 then
      f1.WriteData (List.replicate (ndl - o1.offset) 0) else f1 := ⟨_, rfl⟩
  obtain ⟨q1, q2, q3⟩ := pad_spec ndl e2 f2 hf2
  have hnr : ∀ x ∈ rest', x ≠ n' := by
    intro x hx hxn
    have hnd := e2.wf.nodup
    rw [List.nodup_cons] at hnd
    exact hnd.1 (List.mem_append_left _ (hxn ▸ hx))
  obtain ⟨g, r1, r2, r3, r4⟩ := releaseChain_spec rest' f1.nodes n' (f2.SetNextNode n' 0) fuel
    e2.wf.chain
    (fun x hx => by
      simp only [PagedFile.SetNextNode, setNode_ne _ _ (hnr x hx)]
      exact (q1 x).1) hlen
  have hOO : ObjectOut ndl fuel (PositionNode f0 o0).1 (PositionNode f0 o0).2.1 =
      .ok (g.Seek o1.fileposNode o1.fileposOff, { o1 with node := none }) := by
    unfold ObjectOut
    rw [hmem, e1]
    simp only [not_lt.2 e2.hi, if_false, e2.node, ← hf2]
    have hnx : f2.NextNode n' = (f1.nodes n').next := (q1 n').1
    rw [hnx, r1]
  refine ⟨f1, o1, n', rest', _, _, e1, e2.node, e2.lo, e2.hi, hOO, ?_, ?_, ?_, hk, r2, ?_⟩
  · intro i h1 h2
    show (g.nodes n').data i = 0
    rw [(r4 n').2]
    simp only [PagedFile.SetNextNode, setNode_same]
    exact q2 i h1 h2
  · intro i h1
    show (g.nodes n').data i = (f1.nodes n').data i
    rw [(r4 n').2]
    simp only [PagedFile.SetNextNode, setNode_same]
    exact q3 i h1
  · show (g.nodes n').next = 0
    rw [(r4 n').1]
    simp [PagedFile.SetNextNode]
  · intro x hx hd
    have hd' : (g.nodes x).deleted = true := hd
    rw [r3 x hx] at hd'
    have h1 : (f1.nodes x).deleted = true := by
      rw [← (q1 x).2]
      by_cases hxn : x = n'
      · subst hxn
        simpa [PagedFile.SetNextNode] using hd'
      · simpa [PagedFile.SetNextNode, setNode_ne _ _ hxn] using hd'
    have h0 := g1.2.2 x h1
    rw [p1] at h0
    exact h0

/-- Witness of `objectOut_end_of_write`: the two-node object of `longFile` is
written with 2 bytes of data members.  The write ends in node 1 at offset 6;
`ObjectOut` zeroes the bytes 6 and 7 of node 1, ends the chain there and marks
node 2 deleted. -/
theorem objectOut_end_of_write_witness :
    hdrSize < 8 ∧ shortObj.objectaddress ≠ 0 ∧ ChainWF longFile shortObj.objectaddress [2] [] ∧
    (ObjectOut 8 1 (PositionNode longFile shortObj).1
        (PositionNode longFile shortObj).2.1).toOption.map
      (fun p => ((List.range 8).map (p.1.nodes 1).data, (p.1.nodes 1).next,
        (p.1.nodes 1).deleted, (p.1.nodes 2).deleted, p.1.free)) =
      some ([3, 0, 0, 0, 1, 2, 0, 0], 0, false, true, [2]) ∧
    ∃ f1 o1 n' tail g o2,
      writeAll 8 (PositionNode longFile shortObj).1 (PositionNode longFile shortObj).2.1
        shortObj.members = some (f1, o1) ∧
      o1.node = some n' ∧ hdrSize ≤ o1.offset ∧ o1.offset ≤ 8 ∧
      ObjectOut 8 1 (PositionNode longFile shortObj).1 (PositionNode longFile shortObj).2.1 =
        .ok (g, o2) ∧
      (∀ i, o1.offset ≤ i → i < 8 → (g.nodes n').data i = 0) ∧
      (∀ i, i < o1.offset → (g.nodes n').data i = (f1.nodes n').data i) ∧
      (g.nodes n').next = 0 ∧
      ((n' :: tail) <:+ (shortObj.objectaddress :: [2]) ∨
        (tail = [] ∧ n' ∉ shortObj.objectaddress :: [2])) ∧
      (∀ x ∈ tail, (g.nodes x).deleted = true) ∧
      (∀ x, x ∉ tail → (g.nodes x).deleted = true → (longFile.nodes x).deleted = true) :=
  ⟨by decide, by decide, ⟨by decide, by decide, by decide, by decide⟩, by decide,
   objectOut_end_of_write 8 (by decide) 1 longFile shortObj [2] (by decide)
     ⟨by decide, by decide, by decide, by decide⟩ (by decide)⟩

end EDS
